import Mathlib

/-!
# Projeto EDA (antenas, grafo, locais nefastos): embedding and verification

The C sources keep every collection as a singly linked list.  A linked list is
embedded as a Lean `List` of its nodes' fields, the `NULL` pointer being `[]`.
Since C's `false` converts to `NULL`, a function that returns `false` for
"rejected" or "not found" returns `[]` here, exactly as the caller sees it.

Assumptions made throughout: `malloc` succeeds and coordinates are `Int`.  The
registry and graph operations only compare coordinates; the arithmetic of
`detectarLocaisNefastos` is that of 32-bit `int` (`int32`).  Where the code frees
nodes that are still pointed to (`procuraLargura`, `buscarCaminhos`) the nodes
carry their address and the frees are part of the embedding (`Execucao`).
-/

namespace ProjetoEDA

/-! ## Data model (antenas.h, grafo.h) -/

/-- Node of the antenna list: `struct Antena` without its `proximo` link. -/
structure Antena where
  frequencia : Char
  x : Int
  y : Int
deriving DecidableEq, Repr

/-- Node of a coordinate list: `struct Coordenada` without its `proximo` link. -/
structure Coordenada where
  x : Int
  y : Int
deriving DecidableEq, Repr

/-- Node of the vertex list: `struct Vertice` without its `proximo` link.  An edge
(`struct Aresta`) holds a pointer to its destination vertex; here it holds the
destination's coordinates, which identify a vertex in every graph whose vertices
have pairwise distinct coordinates. -/
structure Vertice where
  frequencia : Char
  x : Int
  y : Int
  arestas : List Coordenada
deriving DecidableEq, Repr

/-! ## antenas.c -/

/-- First loop of `inserirAntena` (`verifica`): is there an antenna at `(x, y)`? -/
def verificaAntena : List Antena → Int → Int → Bool
  | [], _, _ => false
  | a :: resto, x, y => if a.x = x ∧ a.y = y then true else verificaAntena resto x y

/-- Second loop of `inserirAntena`: `atual` is the node the scan stands on and the
list argument is `atual->proximo`; the scan stops before the first following node
whose key is `>=` the new key and splices `nova` after `atual`. -/
def inserirDepois (nova : Antena) : Antena → List Antena → List Antena
  | atual, [] => [atual, nova]
  | atual, prox :: resto =>
    if prox.x > nova.x ∨ (prox.x = nova.x ∧ prox.y ≥ nova.y) then
      atual :: nova :: prox :: resto
    else
      atual :: inserirDepois nova prox resto

/-- Embedding of `inserirAntena`: `[]` is the `false`/`NULL` return. -/
def inserirAntena (lista : List Antena) (frequencia : Char) (x y : Int) : List Antena :=
  if verificaAntena lista x y then
    []
  else
    let nova : Antena := { frequencia := frequencia, x := x, y := y }
    match lista with
    | [] => [nova]
    | cab :: resto =>
      if x < cab.x ∨ (x = cab.x ∧ y < cab.y) then
        nova :: cab :: resto
      else
        inserirDepois nova cab resto

/-- What the caller's own pointer `lista` designates after `inserirAntena` has
returned: nothing is written on a rejection, a head insertion only links the new
node in front of the untouched list, and a later insertion splices in place. -/
def listaAposInserirAntena (lista : List Antena) (frequencia : Char) (x y : Int) :
    List Antena :=
  if verificaAntena lista x y then
    lista
  else
    let nova : Antena := { frequencia := frequencia, x := x, y := y }
    match lista with
    | [] => []
    | cab :: resto =>
      if x < cab.x ∨ (x = cab.x ∧ y < cab.y) then
        cab :: resto
      else
        inserirDepois nova cab resto

/-! ## funcoes.c -/

/-- Embedding of `removerAntena`: the new head and the value stored in `*removido`. -/
def removerAntena : List Antena → Int → Int → List Antena × Bool
  | [], _, _ => ([], false)
  | a :: resto, x, y =>
    if a.x = x ∧ a.y = y then
      (resto, true)
    else
      ((a :: (removerAntena resto x y).1), (removerAntena resto x y).2)

/-- Embedding of `existePosicao`. -/
def existePosicao : List Coordenada → Int → Int → Bool
  | [], _, _ => false
  | c :: resto, x, y => if c.x = x ∧ c.y = y then true else existePosicao resto x y

/-- Embedding of `adicionarPosicao`: prepend unless already present. -/
def adicionarPosicao (lista : List Coordenada) (x y : Int) : List Coordenada :=
  if existePosicao lista x y then lista else { x := x, y := y } :: lista

/-! ## grafo.c: vertices and edges -/

/-- Embedding of `criarVertice`: a vertex with no edges. -/
def criarVertice (frequencia : Char) (x y : Int) : Vertice :=
  { frequencia := frequencia, x := x, y := y, arestas := [] }

/-- First loop of `inserirVertice`: is there a vertex at `(x, y)`? -/
def verificaVertice : List Vertice → Int → Int → Bool
  | [], _, _ => false
  | v :: resto, x, y => if v.x = x ∧ v.y = y then true else verificaVertice resto x y

/-- Second loop of `inserirVertice`, the same scan as in `inserirAntena`. -/
def inserirVerticeDepois (novo : Vertice) : Vertice → List Vertice → List Vertice
  | atual, [] => [atual, novo]
  | atual, prox :: resto =>
    if prox.x > novo.x ∨ (prox.x = novo.x ∧ prox.y ≥ novo.y) then
      atual :: novo :: prox :: resto
    else
      atual :: inserirVerticeDepois novo prox resto

/-- Embedding of `inserirVertice`: `[]` is the `false`/`NULL` return. -/
def inserirVertice (grafo : List Vertice) (frequencia : Char) (x y : Int) : List Vertice :=
  if verificaVertice grafo x y then
    []
  else
    let novo := criarVertice frequencia x y
    match grafo with
    | [] => [novo]
    | cab :: resto =>
      if x < cab.x ∨ (x = cab.x ∧ y < cab.y) then
        novo :: cab :: resto
      else
        inserirVerticeDepois novo cab resto

/-- Search loop of `conectarVertices`: it has no `break`, so the pointer ends on the
last vertex at `(x, y)`. -/
def ultimoVertice (grafo : List Vertice) (x y : Int) : Option Vertice :=
  grafo.foldl (fun achado v => if v.x = x ∧ v.y = y then some v else achado) none

/-- The store `v->arestas = a` of `conectarVertices`, `v` being the last vertex at
`(x, y)`: the new edge, with destination `d`, becomes the head of its edge list. -/
def ligarAresta : List Vertice → Int → Int → Coordenada → List Vertice
  | [], _, _, _ => []
  | v :: resto, x, y, d =>
    if (v.x = x ∧ v.y = y) ∧ verificaVertice resto x y = false then
      { v with arestas := d :: v.arestas } :: resto
    else
      v :: ligarAresta resto x y d

/-- Embedding of `conectarVertices`: the returned flag and the graph after the call. -/
def conectarVertices (grafo : List Vertice) (x1 y1 x2 y2 : Int) : Bool × List Vertice :=
  match ultimoVertice grafo x1 y1, ultimoVertice grafo x2 y2 with
  | some v1, some v2 =>
    if v1.frequencia ≠ v2.frequencia then
      (false, grafo)
    else
      (true, ligarAresta (ligarAresta grafo x1 y1 { x := v2.x, y := v2.y }) x2 y2
        { x := v1.x, y := v1.y })
  | _, _ => (false, grafo)

/-- Search loop of the traversals (with `break`): the first vertex at `(x, y)`. -/
def procuraVertice : List Vertice → Int → Int → Option Vertice
  | [], _, _ => none
  | v :: resto, x, y => if v.x = x ∧ v.y = y then some v else procuraVertice resto x y

/-- Dereference of an edge's `destino` pointer. -/
def destino (grafo : List Vertice) (a : Coordenada) : Option Vertice :=
  procuraVertice grafo a.x a.y

/-! ## grafo.c: depth-first traversal, frequency pairs

The recursive traversal takes a fuel argument, the bound on the recursion depth;
`none` means the fuel ran out and `some r` is the C return value `r`.  The only list
that `procuraProfundidade` frees is its local `visitados`, which is `NULL`. -/

/-- Embedding of `buscaProfundidadeRecursiva`.  `visitados` is passed by value in C,
so the additions made by one call are seen by the calls it makes and by no other. -/
def buscaProfundidadeRecursiva (grafo : List Vertice) :
    Nat → Option Vertice → List Coordenada → List Coordenada → Option (List Coordenada)
  | 0, _, _, _ => none
  | _ + 1, none, _, resultado => some resultado
  | n + 1, some v, visitados, resultado =>
    if existePosicao visitados v.x v.y then
      some resultado
    else
      v.arestas.foldlM
        (fun r a => buscaProfundidadeRecursiva grafo n (destino grafo a)
          (adicionarPosicao visitados v.x v.y) r)
        (adicionarPosicao resultado v.x v.y)

/-- Embedding of `procuraProfundidade`; `some []` is the `false`/`NULL` return. -/
def procuraProfundidade (grafo : List Vertice) (x y : Int) : Option (List Coordenada) :=
  match procuraVertice grafo x y with
  | none => some []
  | some inicio => buscaProfundidadeRecursiva grafo (grafo.length + 1) (some inicio) [] []

/-- Embedding of `intersecoesFrequencias`: the two nested loops over the vertices. -/
def intersecoesFrequencias (grafo : List Vertice) (freqA freqB : Char) : List Coordenada :=
  grafo.foldl
    (fun resultado a =>
      if a.frequencia ≠ freqA then resultado
      else
        grafo.foldl
          (fun resultado b =>
            if b.frequencia ≠ freqB then resultado
            else adicionarPosicao (adicionarPosicao resultado a.x a.y) b.x b.y)
          resultado)
    []

/-! ## grafo.c: the traversals that free memory

`procuraLargura` and `buscarCaminhos` free list nodes while pointers to them are
still in use.  For these functions the nodes carry their address, the state records
which addresses have been freed, and a call has one of three outcomes. -/

/-- Outcome of a call.  `devolve r`: the call returns `r`.  `indefinido`: the call
reads, writes or frees a node that has already been freed, which is undefined
behaviour in C (the compiled program usually crashes there or later).  `esgotado`:
the fuel of the model ran out. -/
inductive Execucao (α : Type) where
  | devolve (r : α)
  | indefinido
  | esgotado
deriving DecidableEq, Repr

/-- Sequencing of two calls: the second one runs when the first one returns. -/
def Execucao.seguido {α β : Type} (e : Execucao α) (f : α → Execucao β) : Execucao β :=
  match e with
  | .devolve r => f r
  | .indefinido => .indefinido
  | .esgotado => .esgotado

/-- Node of the queue of `procuraLargura` (`FilaVertice`): its address and the vertex
it holds. -/
structure NoFila where
  endereco : Nat
  v : Vertice
deriving DecidableEq, Repr

/-- Variables of the loop of `procuraLargura` with the queue nodes they point to:
`fila` is the chain of nodes that starts at `filaInicio` (first in, first out),
`filaFim` the address held by the pointer `filaFim` (`none` for `NULL`), `libertados`
the addresses of the queue nodes freed so far and `proximo` the address of the next
node that `malloc` hands out (the model never reuses an address). -/
structure EstadoLargura where
  visitados : List Coordenada
  resultado : List Coordenada
  fila : List NoFila
  filaFim : Option Nat
  libertados : List Nat
  proximo : Nat
deriving DecidableEq, Repr

/-- The two statements `filaFim = enfileirar(filaFim, vizinho); if (!filaInicio)
filaInicio = filaFim;`.  `enfileirar` allocates the node `novo` and, when `filaFim`
is not `NULL`, stores `novo` in `filaFim->proximo`: a store into freed memory when
the node at `filaFim` has been freed.  A node at `filaFim` that has not been freed is
the last one of the chain, so the store appends `novo` to the chain. -/
def enfileirar (s : EstadoLargura) (v : Vertice) : Execucao EstadoLargura :=
  match s.filaFim with
  | none =>
    .devolve { s with
      fila := if s.fila = [] then [{ endereco := s.proximo, v := v }] else s.fila,
      filaFim := some s.proximo, proximo := s.proximo + 1 }
  | some fim =>
    if fim ∈ s.libertados then
      .indefinido
    else
      .devolve { s with
        fila := s.fila ++ [{ endereco := s.proximo, v := v }],
        filaFim := some s.proximo, proximo := s.proximo + 1 }

/-- Inner `for` loop of `procuraLargura` over the edges of the dequeued vertex.  An
edge always points to a vertex; the `none` branch only makes the function total. -/
def larguraVizinhos (grafo : List Vertice) :
    List Coordenada → EstadoLargura → Execucao EstadoLargura
  | [], s => .devolve s
  | a :: resto, s =>
    match destino grafo a with
    | none => larguraVizinhos grafo resto s
    | some vizinho =>
      if existePosicao s.visitados vizinho.x vizinho.y then
        larguraVizinhos grafo resto s
      else
        (enfileirar
          { s with
            visitados := adicionarPosicao s.visitados vizinho.x vizinho.y,
            resultado := adicionarPosicao s.resultado vizinho.x vizinho.y }
          vizinho).seguido (larguraVizinhos grafo resto)

/-- The `while (!filaVazia(filaInicio))` loop of `procuraLargura`, one unit of fuel
per dequeued vertex.  `desenfileirar` frees the first node of the chain and leaves
`filaFim` as it is, also when the freed node is the one `filaFim` points to. -/
def larguraCiclo (grafo : List Vertice) : Nat → EstadoLargura → Execucao (List Coordenada)
  | n, s =>
    match s.fila with
    | [] => .devolve s.resultado
    | primeiro :: fila =>
      match n with
      | 0 => .esgotado
      | m + 1 =>
        if primeiro.endereco ∈ s.libertados then
          .indefinido
        else
          (larguraVizinhos grafo primeiro.v.arestas
            { s with fila := fila, libertados := primeiro.endereco :: s.libertados }).seguido
            (larguraCiclo grafo m)

/-- Embedding of `procuraLargura`; `devolve []` is the `false`/`NULL` return. -/
def procuraLargura (grafo : List Vertice) (x y : Int) : Execucao (List Coordenada) :=
  match procuraVertice grafo x y with
  | none => .devolve []
  | some inicio =>
    if existePosicao [] inicio.x inicio.y then
      larguraCiclo grafo grafo.length
        { visitados := [], resultado := [], fila := [], filaFim := none,
          libertados := [], proximo := 0 }
    else
      larguraCiclo grafo grafo.length
        { visitados := adicionarPosicao [] inicio.x inicio.y,
          resultado := adicionarPosicao [] inicio.x inicio.y,
          fila := [{ endereco := 0, v := inicio }], filaFim := some 0,
          libertados := [], proximo := 1 }

/-- Sequential loop over a list: `f` is applied to the elements in order, each call
starting from what the previous one returned. -/
def Execucao.dobra {α β : Type} (f : β → α → Execucao β) : List α → β → Execucao β
  | [], b => .devolve b
  | a :: resto, b => (f b a).seguido (Execucao.dobra f resto)

/-- Node of a coordinate list (`struct Coordenada`) with its address; the `proximo`
link of a node is never changed once the node is in a list, so a pointer to a node is
embedded as the list of the nodes from that node on. -/
structure No where
  endereco : Nat
  x : Int
  y : Int
deriving DecidableEq, Repr

/-- The heap of coordinate nodes: the address of the next node that `malloc` hands
out (the model never reuses an address) and the addresses freed so far. -/
structure Memoria where
  proximo : Nat
  libertados : List Nat
deriving DecidableEq, Repr

/-- Coordinates of the nodes of a list, in list order. -/
def coordenadasNos (l : List No) : List Coordenada :=
  l.map (fun n => { x := n.x, y := n.y })

/-- Embedding of `existePosicao` on nodes in memory: the loop reads the nodes in
order and stops at the first match; reading a freed node is undefined. -/
def existePosicaoNos (m : Memoria) : List No → Int → Int → Execucao Bool
  | [], _, _ => .devolve false
  | n :: resto, x, y =>
    if n.endereco ∈ m.libertados then .indefinido
    else if n.x = x ∧ n.y = y then .devolve true
    else existePosicaoNos m resto x y

/-- Embedding of `adicionarPosicao` on nodes in memory: the new node is linked in
front of `lista`, which it shares. -/
def adicionarPosicaoNos (m : Memoria) (lista : List No) (x y : Int) :
    Execucao (List No × Memoria) :=
  (existePosicaoNos m lista x y).seguido fun existe =>
    if existe then .devolve (lista, m)
    else .devolve ({ endereco := m.proximo, x := x, y := y } :: lista,
      { m with proximo := m.proximo + 1 })

/-- Embedding of `libertarCoordenadas`: every node of the list is freed in order;
reading the link of a freed node, or freeing it again, is undefined. -/
def libertarCoordenadas (m : Memoria) : List No → Execucao Memoria
  | [] => .devolve m
  | n :: resto =>
    if n.endereco ∈ m.libertados then .indefinido
    else libertarCoordenadas { m with libertados := n.endereco :: m.libertados } resto

/-- Embedding of `acumularCaminho`. -/
def acumularCaminho (m : Memoria) (acumulador : List No) :
    List No → Execucao (List No × Memoria)
  | [] => .devolve (acumulador, m)
  | aux :: resto =>
    if aux.endereco ∈ m.libertados then .indefinido
    else
      (adicionarPosicaoNos m acumulador aux.x aux.y).seguido fun rm =>
        acumularCaminho rm.2 rm.1 resto

/-- Embedding of `copiarCaminho`: the node `(x, y)` is allocated first, then the
list built by adding the nodes of `origem` one by one is linked after it. -/
def copiarCaminho (m : Memoria) (origem : List No) (x y : Int) :
    Execucao (List No × Memoria) :=
  (adicionarPosicaoNos m [] x y).seguido fun nm =>
    (acumularCaminho nm.2 [] origem).seguido fun rm =>
      match nm.1 with
      | [] => .devolve (rm.1, rm.2)
      | novo :: _ => .devolve (novo :: rm.1, rm.2)

/-- Embedding of `buscarCaminhos`, fuel bounding the recursion depth.  The two calls
of `libertarCoordenadas` at the end of a call free the whole lists `novoVisitado` and
`novoCaminho`, of which only the first node was allocated by this call: the other
nodes are the lists `visitados` and `caminho` of the caller. -/
def buscarCaminhos (grafo : List Vertice) (xDestino yDestino : Int) :
    Nat → Option Vertice → List No → List No → List No → Memoria →
    Execucao (List No × Memoria)
  | 0, _, _, _, _, _ => .esgotado
  | _ + 1, none, _, _, resultado, m => .devolve (resultado, m)
  | n + 1, some atual, visitados, caminho, resultado, m =>
    (existePosicaoNos m visitados atual.x atual.y).seguido fun visto =>
    if visto then .devolve (resultado, m)
    else
      (adicionarPosicaoNos m visitados atual.x atual.y).seguido fun nv =>
      (adicionarPosicaoNos nv.2 caminho atual.x atual.y).seguido fun nc =>
      if atual.x = xDestino ∧ atual.y = yDestino then
        (copiarCaminho nc.2 nc.1 0 0).seguido fun cp =>
        (acumularCaminho cp.2 resultado cp.1).seguido fun r =>
        (libertarCoordenadas r.2 cp.1).seguido fun m1 =>
        (libertarCoordenadas m1 nv.1).seguido fun m2 =>
        (libertarCoordenadas m2 nc.1).seguido fun m3 =>
        .devolve (r.1, m3)
      else
        (Execucao.dobra
          (fun (rm : List No × Memoria) a =>
            buscarCaminhos grafo xDestino yDestino n (destino grafo a) nv.1 nc.1 rm.1 rm.2)
          atual.arestas (resultado, nc.2)).seguido fun r =>
        (libertarCoordenadas r.2 nv.1).seguido fun m1 =>
        (libertarCoordenadas m1 nc.1).seguido fun m2 =>
        .devolve (r.1, m2)

/-- Embedding of `caminhosEntreAntenas`; `devolve []` is the `NULL` return. -/
def caminhosEntreAntenas (grafo : List Vertice) (x1 y1 x2 y2 : Int) :
    Execucao (List Coordenada) :=
  match procuraVertice grafo x1 y1 with
  | none => .devolve []
  | some inicio =>
    (buscarCaminhos grafo x2 y2 (grafo.length + 1) (some inicio) [] [] []
      { proximo := 0, libertados := [] }).seguido fun r =>
    (libertarCoordenadas r.2 []).seguido fun _ =>
    .devolve (coordenadasNos r.1)

/-! ## nefastos.c -/

/-- The value that a 32-bit `int` holds after an operation whose mathematical result
is `z`: `z` itself when it fits, and `z` reduced modulo 2^32 into
`[-2147483648, 2147483647]` when the operation overflows (what the compiled code
does; the C standard leaves signed overflow undefined). -/
def int32 (z : Int) : Int := (z + 2147483648) % 4294967296 - 2147483648

/-- Body of the inner loop of `detectarLocaisNefastos` for the pair `(a1, a2)`: the
locals `dx`, `dy`, `mx`, `my` are `int`, so each subtraction and addition is taken
through `int32`; `%` and `/` are C's truncating remainder and division. -/
def nefastoPar (a1 : Antena) (nefastos : List Coordenada) (a2 : Antena) : List Coordenada :=
  if a1.frequencia ≠ a2.frequencia then nefastos
  else if (int32 (a2.x - a1.x)).tmod 2 = 0 ∧ (int32 (a2.y - a1.y)).tmod 2 = 0 then
    adicionarPosicao nefastos (int32 (a1.x + (int32 (a2.x - a1.x)).tdiv 2))
      (int32 (a1.y + (int32 (a2.y - a1.y)).tdiv 2))
  else nefastos

/-- Outer loop of `detectarLocaisNefastos`: `a2` runs over the nodes after `a1`. -/
def nefastosDesde : List Antena → List Coordenada → List Coordenada
  | [], nefastos => nefastos
  | a1 :: resto, nefastos => nefastosDesde resto (resto.foldl (nefastoPar a1) nefastos)

/-- Embedding of `detectarLocaisNefastos`. -/
def detectarLocaisNefastos (lista : List Antena) : List Coordenada :=
  nefastosDesde lista []

/-! ## Ordering of keys, reachable states -/

/-- Strict lexicographic order on `(x, y)` keys, `x` primary and `y` secondary. -/
def chaveMenor (x1 y1 x2 y2 : Int) : Prop := x1 < x2 ∨ (x1 = x2 ∧ y1 < y2)

instance (x1 y1 x2 y2 : Int) : Decidable (chaveMenor x1 y1 x2 y2) := by
  unfold chaveMenor; infer_instance

/-- The antenna list is strictly increasing by `(x, y)`. -/
def RegistoOrdenado (l : List Antena) : Prop :=
  l.Pairwise (fun a b => chaveMenor a.x a.y b.x b.y)

/-- The vertex list is strictly increasing by `(x, y)`. -/
def GrafoOrdenado (g : List Vertice) : Prop :=
  g.Pairwise (fun a b => chaveMenor a.x a.y b.x b.y)

/-- Coordinates of the antennas of a registry, in list order. -/
def coordenadasAntenas (l : List Antena) : List Coordenada :=
  l.map (fun a => { x := a.x, y := a.y })

/-- Coordinates of the vertices of a graph, in list order. -/
def coordenadasVertices (g : List Vertice) : List Coordenada :=
  g.map (fun v => { x := v.x, y := v.y })

/-- The `(frequency, x, y)` fields of a vertex. -/
def Vertice.antena (v : Vertice) : Antena :=
  { frequencia := v.frequencia, x := v.x, y := v.y }

/-- Registries obtained from the empty one by accepted insertions and removals. -/
inductive RegistoAlcancavel : List Antena → Prop
  | vazio : RegistoAlcancavel []
  | inserir (l : List Antena) (f : Char) (x y : Int) :
      RegistoAlcancavel l → inserirAntena l f x y ≠ [] →
      RegistoAlcancavel (inserirAntena l f x y)
  | remover (l : List Antena) (x y : Int) :
      RegistoAlcancavel l → RegistoAlcancavel (removerAntena l x y).1

/-- Graphs obtained from the empty one by accepted `inserirVertice` calls and by
`conectarVertices` calls. -/
inductive GrafoAlcancavel : List Vertice → Prop
  | vazio : GrafoAlcancavel []
  | inserir (g : List Vertice) (f : Char) (x y : Int) :
      GrafoAlcancavel g → inserirVertice g f x y ≠ [] →
      GrafoAlcancavel (inserirVertice g f x y)
  | conectar (g : List Vertice) (x1 y1 x2 y2 : Int) :
      GrafoAlcancavel g → GrafoAlcancavel (conectarVertices g x1 y1 x2 y2).2

/-- Representation invariant of a graph: no two vertices share a coordinate and
every edge leads to a vertex of the graph. -/
def BemFormado (g : List Vertice) : Prop :=
  (coordenadasVertices g).Nodup ∧ ∀ v ∈ g, ∀ a ∈ v.arestas, a ∈ coordenadasVertices g

instance (g : List Vertice) : Decidable (BemFormado g) := by
  unfold BemFormado; infer_instance

/-- There is an edge from the vertex at `c` to the vertex at `d`. -/
def Adjacente (g : List Vertice) (c d : Coordenada) : Prop :=
  ∃ v ∈ g, v.x = c.x ∧ v.y = c.y ∧ d ∈ v.arestas

/-- The vertex at `d` is reached from the one at `c` by following zero or more edges. -/
def Alcanca (g : List Vertice) (c d : Coordenada) : Prop :=
  Relation.ReflTransGen (Adjacente g) c d

/-- Reachability along edges whose destinations all avoid the coordinates in `V`. -/
def AlcancaEvitando (g : List Vertice) (V : List Coordenada) (c d : Coordenada) : Prop :=
  Relation.ReflTransGen (fun p q => Adjacente g p q ∧ q ∉ V) c d

/-- Number of vertex coordinates of the graph that are not in `V`: the measure that
every recursive call and every queue step of the traversals decreases. -/
def naoVisitados (g : List Vertice) (V : List Coordenada) : Nat :=
  ((coordenadasVertices g).toFinset \ V.toFinset).card

/-- The pair `(a1, a2)` passes the tests of `detectarLocaisNefastos` and `c` is the
cell the code computes for it. -/
def GeraNefasto (a1 a2 : Antena) (c : Coordenada) : Prop :=
  a1.frequencia = a2.frequencia ∧ (int32 (a2.x - a1.x)).tmod 2 = 0 ∧
    (int32 (a2.y - a1.y)).tmod 2 = 0 ∧
    c = { x := int32 (a1.x + (int32 (a2.x - a1.x)).tdiv 2),
          y := int32 (a1.y + (int32 (a2.y - a1.y)).tdiv 2) }

/-- The integer `z` is a value of the type `int` (32 bits). -/
def EmInt (z : Int) : Prop := -2147483648 ≤ z ∧ z ≤ 2147483647

instance (z : Int) : Decidable (EmInt z) := by
  unfold EmInt; infer_instance

/-- The coordinates of `a1` and `a2` are `int` values and the subtractions
`a2.x - a1.x`, `a2.y - a1.y` of `detectarLocaisNefastos` do not overflow. -/
def SemTransbordo (a1 a2 : Antena) : Prop :=
  EmInt a1.x ∧ EmInt a1.y ∧ EmInt a2.x ∧ EmInt a2.y ∧
    EmInt (a2.x - a1.x) ∧ EmInt (a2.y - a1.y)

instance (a1 a2 : Antena) : Decidable (SemTransbordo a1 a2) := by
  unfold SemTransbordo; infer_instance

/-- The specification's wording: two antennas of equal frequency whose displacement is
even in both axes, and `c` the point `(x1 + (x2-x1)/2, y1 + (y2-y1)/2)`. -/
def PontoMedioPar (a1 a2 : Antena) (c : Coordenada) : Prop :=
  a1.frequencia = a2.frequencia ∧ Even (a2.x - a1.x) ∧ Even (a2.y - a1.y) ∧
    c.x = a1.x + (a2.x - a1.x) / 2 ∧ c.y = a1.y + (a2.y - a1.y) / 2

/-- Total number of edge nodes of a graph. -/
def numArestas (g : List Vertice) : Nat :=
  (g.map (fun v => v.arestas.length)).sum

/-- The edge list that the specification gives to vertex `v` after a successful
`conectarVertices(grafo, x1, y1, x2, y2)`: the edge to `(x2, y2)` is put at the head
of the list of the vertex at `(x1, y1)`, then the edge to `(x1, y1)` at the head of
the list of the vertex at `(x2, y2)`; the edges already there follow in their order. -/
def arestasAposConectar (x1 y1 x2 y2 : Int) (v : Vertice) : List Coordenada :=
  (if v.x = x2 ∧ v.y = y2 then [{ x := x1, y := y1 }] else []) ++
    ((if v.x = x1 ∧ v.y = y1 then [{ x := x2, y := y2 }] else []) ++ v.arestas)

/-- Inserting the antennas of `novas` one after the other, in list order, starting
from the empty registry; each call passes on the list the previous one returned. -/
def inserirTodas (novas : List Antena) : List Antena :=
  novas.foldl (fun lista a => inserirAntena lista a.frequencia a.x a.y) []

/-- Squared Euclidean distance from the cell `c` to the antenna `a`. -/
def distanciaQuadrada (c : Coordenada) (a : Antena) : Int :=
  (c.x - a.x) * (c.x - a.x) + (c.y - a.y) * (c.y - a.y)

/-- The cell `c` lies on the line through the antennas `a1` and `a2`. -/
def Alinhado (c : Coordenada) (a1 a2 : Antena) : Prop :=
  (c.x - a1.x) * (a2.y - a1.y) = (c.y - a1.y) * (a2.x - a1.x)

instance (c : Coordenada) (a1 a2 : Antena) : Decidable (Alinhado c a1 a2) := by
  unfold Alinhado; infer_instance

/-- The glossary's wording of a "nefasto" cell: `c` is aligned with two antennas of
`l` of equal frequency, one of them exactly twice as far from `c` as the other
(squared distance four times the other squared distance). -/
def DobroDaDistancia (l : List Antena) (c : Coordenada) : Prop :=
  ∃ a1 ∈ l, ∃ a2 ∈ l, a1 ≠ a2 ∧ a1.frequencia = a2.frequencia ∧ Alinhado c a1 a2 ∧
    distanciaQuadrada c a1 = 4 * distanciaQuadrada c a2

instance (l : List Antena) (c : Coordenada) : Decidable (DobroDaDistancia l c) := by
  unfold DobroDaDistancia; infer_instance

/-- The list `q` is a simple path of the graph from `a` to `b` that avoids `V`: it
starts at `a`, ends at `b`, every step follows an edge, no coordinate occurs twice
and none is in `V`. -/
def CaminhoSimplesEvitando (g : List Vertice) (V : List Coordenada) (a b : Coordenada)
    (q : List Coordenada) : Prop :=
  q.Chain' (Adjacente g) ∧ q.Nodup ∧ (∀ c ∈ q, c ∉ V) ∧ q.head? = some a ∧
    q.getLast? = some b

/-- Depth-first search with a single visited set kept for the whole traversal, as the
specification words it: a vertex visited anywhere earlier is skipped; otherwise it is
marked, added to the result, and its edge destinations are visited in edge-list
order.  The state is the pair (visited set, result), threaded through every call. -/
def profundidadeVisitadosUnicos (grafo : List Vertice) :
    Nat → Option Vertice → List Coordenada × List Coordenada →
    Option (List Coordenada × List Coordenada)
  | 0, _, _ => none
  | _ + 1, none, s => some s
  | n + 1, some v, s =>
    if existePosicao s.1 v.x v.y then
      some s
    else
      v.arestas.foldlM
        (fun s a => profundidadeVisitadosUnicos grafo n (destino grafo a) s)
        (adicionarPosicao s.1 v.x v.y, adicionarPosicao s.2 v.x v.y)

/-- The search of the specification from the vertex at `(x, y)`: not found is the
empty list, otherwise the result component of the traversal. -/
def procuraProfundidadeReferencia (grafo : List Vertice) (x y : Int) :
    Option (List Coordenada) :=
  match procuraVertice grafo x y with
  | none => some []
  | some inicio =>
    (profundidadeVisitadosUnicos grafo (grafo.length + 1) (some inicio) ([], [])).map
      Prod.snd

/-- Every coordinate of `R` that is not in `V` has all its neighbours in `R`: the
vertices whose visit is over (in the result, not on the current branch) have no
neighbour left to discover. -/
def FechadoFora (g : List Vertice) (V R : List Coordenada) : Prop :=
  ∀ u ∈ R, u ∉ V → ∀ d, Adjacente g u d → d ∈ R

/-- The byte 0xFF.  The loaders store the value of `fgetc` in a `char c` and test
`c != EOF`: with a signed `char` (the x86 build) the byte 0xFF becomes -1, the value
of `EOF`, and ends the reading loop like the end of the file. -/
def fimDeFicheiro : Char := Char.ofNat 255

/-- A row of text: no newline and no byte 0xFF in it. -/
def LinhaValida (l : List Char) : Prop := '\n' ∉ l ∧ fimDeFicheiro ∉ l

instance (l : List Char) : Decidable (LinhaValida l) := by
  unfold LinhaValida; infer_instance

/-- Reading loop of `carregarAntenas` over the bytes of the file, each a character
of code 0 to 255 (`fopen` is assumed to succeed).  The loop ends at the end of the
list and at the first byte 0xFF, which `char c` cannot tell from `EOF`.  The loop
variables are `lista`, `x`, `y` and `*colunas`; the out-parameter `*linhas` is not
modelled and the counters `x`, `y` do not overflow (files of fewer than 2^31 bytes).
The first component of the result is the return value (`[]` for `false`), the second
the antenna list that has been built in memory when the function returns. -/
def carregarAntenasCiclo :
    List Char → List Antena → Int → Int → Int → List Antena × List Antena
  | [], lista, _, _, _ => (lista, lista)
  | c :: resto, lista, x, y, colunas =>
    if c = fimDeFicheiro then
      (lista, lista)
    else if c = '\n' then
      if colunas = 0 then
        carregarAntenasCiclo resto lista (x + 1) 0 y
      else if y ≠ colunas then
        ([], lista)
      else
        carregarAntenasCiclo resto lista (x + 1) 0 colunas
    else if c ≠ '.' then
      if inserirAntena lista c x y = [] then
        ([], lista)
      else
        carregarAntenasCiclo resto (inserirAntena lista c x y) x (y + 1) colunas
    else
      carregarAntenasCiclo resto lista x (y + 1) colunas

/-- Embedding of `carregarAntenas` on the characters of the file. -/
def carregarAntenas (texto : List Char) : List Antena :=
  (carregarAntenasCiclo texto [] 0 0 0).1

/-- The text of a grid: every row followed by a newline. -/
def textoDaGrelha : List (List Char) → List Char
  | [] => []
  | linha :: resto => linha ++ '\n' :: textoDaGrelha resto

/-- The antennas of the characters of one row, row index `x`, from column `y` on. -/
def antenasDaLinha (x : Int) : List Char → Int → List Antena
  | [], _ => []
  | c :: resto, y =>
    if c ≠ '.' then
      { frequencia := c, x := x, y := y } :: antenasDaLinha x resto (y + 1)
    else
      antenasDaLinha x resto (y + 1)

/-- One antenna `(c, r, col)` for each non-'.' character `c` at row `r`, column
`col`, in row-major order; `x` is the index of the first row. -/
def antenasDaGrelha : List (List Char) → Int → List Antena
  | [], _ => []
  | linha :: resto, x => antenasDaLinha x linha 0 ++ antenasDaGrelha resto (x + 1)

/-- The 6 x 10 grid of the specification's scenario. -/
def grelhaCenario : List (List Char) :=
  [List.replicate 10 '.',
   List.replicate 3 '.' ++ 'A' :: List.replicate 6 '.',
   List.replicate 8 '.' ++ 'A' :: List.replicate 1 '.',
   List.replicate 5 '.' ++ 'A' :: List.replicate 4 '.',
   List.replicate 10 '.',
   List.replicate 6 '.' ++ 'A' :: List.replicate 3 '.']

/-- The vertex `v` after `conectarVertices(grafo, x, y, x, y)` has succeeded: the
vertex at `(x, y)` has two more edges to itself at the head of its edge list. -/
def comLaco (x y : Int) (v : Vertice) : Vertice :=
  { v with arestas := arestasAposConectar x y x y v }

/-- Three 'A' vertices (0,0), (0,1), (0,2), built through the interface: (0,0) is
connected first with (0,1), then with (0,2). -/
def grafoEstrela : List Vertice :=
  (conectarVertices
    (conectarVertices
      (inserirVertice (inserirVertice (inserirVertice [] 'A' 0 0) 'A' 0 1) 'A' 0 2)
      0 0 0 1).2 0 0 0 2).2

/-- Two 'A' vertices (1,1) and (2,2), built through the interface and connected. -/
def grafoPar : List Vertice :=
  (conectarVertices (inserirVertice (inserirVertice [] 'A' 1 1) 'A' 2 2) 1 1 2 2).2

/-- Three 'A' vertices (1,1), (2,2), (3,3), built through the interface and connected
two by two. -/
def grafoTriangulo : List Vertice :=
  (conectarVertices
    (conectarVertices
      (conectarVertices
        (inserirVertice (inserirVertice (inserirVertice [] 'A' 1 1) 'A' 2 2) 'A' 3 3)
        1 1 2 2).2 2 2 3 3).2 1 1 3 3).2

/-! ## Antenna registry: ordered insertion and removal -/

theorem verificaAntena_eq_true (l : List Antena) (x y : Int) :
    verificaAntena l x y = true ↔ ∃ a ∈ l, a.x = x ∧ a.y = y := by
  induction l with
  | nil => simp [verificaAntena]
  | cons a resto ih =>
    simp only [verificaAntena, List.mem_cons, exists_eq_or_imp]
    by_cases h : a.x = x ∧ a.y = y
    · simp [h]
    · simp [h, ih]

theorem verificaAntena_eq_false (l : List Antena) (x y : Int) :
    verificaAntena l x y = false ↔ ∀ a ∈ l, ¬ (a.x = x ∧ a.y = y) := by
  rw [← Bool.not_eq_true, verificaAntena_eq_true]
  push_neg
  rfl

theorem inserirDepois_perm (nova atual : Antena) (resto : List Antena) :
    (inserirDepois nova atual resto).Perm (nova :: atual :: resto) := by
  induction resto generalizing atual with
  | nil => simpa [inserirDepois] using List.Perm.swap nova atual []
  | cons prox resto ih =>
    unfold inserirDepois
    split
    · exact List.Perm.swap nova atual _
    · exact ((ih prox).cons atual).trans (List.Perm.swap nova atual _)

theorem chaveMenor_trans {x1 y1 x2 y2 x3 y3 : Int} (h1 : chaveMenor x1 y1 x2 y2)
    (h2 : chaveMenor x2 y2 x3 y3) : chaveMenor x1 y1 x3 y3 := by
  unfold chaveMenor at *
  omega

theorem inserirDepois_ordenado (nova atual : Antena) (resto : List Antena)
    (hord : RegistoOrdenado (atual :: resto))
    (hlt : chaveMenor atual.x atual.y nova.x nova.y)
    (hlivre : ∀ a ∈ resto, ¬ (a.x = nova.x ∧ a.y = nova.y)) :
    RegistoOrdenado (inserirDepois nova atual resto) := by
  induction resto generalizing atual with
  | nil =>
    simp [inserirDepois, RegistoOrdenado, hlt]
  | cons prox resto ih =>
    unfold RegistoOrdenado at hord
    rw [List.pairwise_cons] at hord
    obtain ⟨hatual, hresto⟩ := hord
    have hresto2 := hresto
    rw [List.pairwise_cons] at hresto2
    have hprox : ¬ (prox.x = nova.x ∧ prox.y = nova.y) := hlivre prox (List.mem_cons_self _ _)
    unfold inserirDepois
    split
    next hpara =>
      have hnp : chaveMenor nova.x nova.y prox.x prox.y := by
        unfold chaveMenor; omega
      unfold RegistoOrdenado
      refine List.pairwise_cons.2 ⟨?_, List.pairwise_cons.2 ⟨?_, hresto⟩⟩
      · intro b hb
        rcases List.mem_cons.1 hb with rfl | hb
        · exact hlt
        · exact hatual b hb
      · intro b hb
        rcases List.mem_cons.1 hb with rfl | hb
        · exact hnp
        · exact chaveMenor_trans hnp (hresto2.1 b hb)
    next hsegue =>
      have hpn : chaveMenor prox.x prox.y nova.x nova.y := by
        unfold chaveMenor; omega
      have hrec := ih prox hresto hpn (fun a ha => hlivre a (List.mem_cons_of_mem _ ha))
      unfold RegistoOrdenado
      refine List.pairwise_cons.2 ⟨?_, hrec⟩
      intro b hb
      rcases List.mem_cons.1 ((inserirDepois_perm nova prox resto).mem_iff.1 hb) with rfl | hb
      · exact hlt
      · exact hatual b hb

theorem inserirAntena_ordenado (l : List Antena) (f : Char) (x y : Int)
    (hord : RegistoOrdenado l) : RegistoOrdenado (inserirAntena l f x y) := by
  unfold inserirAntena
  split
  · exact List.Pairwise.nil
  next hv =>
    have hlivre := (verificaAntena_eq_false l x y).1 (by simpa using hv)
    cases l with
    | nil => simp [RegistoOrdenado]
    | cons cab resto =>
      simp only
      split
      next hmenor =>
        refine List.pairwise_cons.2 ⟨?_, hord⟩
        intro b hb
        rcases List.mem_cons.1 hb with rfl | hb
        · exact hmenor
        · exact chaveMenor_trans hmenor ((List.pairwise_cons.1 hord).1 b hb)
      next hmaior =>
        have hcab := hlivre cab (List.mem_cons_self _ _)
        refine inserirDepois_ordenado _ cab resto hord ?_ ?_
        · show chaveMenor cab.x cab.y x y
          unfold chaveMenor; omega
        · intro a ha
          exact hlivre a (List.mem_cons_of_mem _ ha)

theorem removerAntena_sublist (l : List Antena) (x y : Int) :
    (removerAntena l x y).1.Sublist l := by
  induction l with
  | nil => simp [removerAntena]
  | cons a resto ih =>
    unfold removerAntena
    split
    · exact List.sublist_cons_self a resto
    · exact ih.cons₂ a

theorem ordenado_coordenadas_nodup (l : List Antena) (h : RegistoOrdenado l) :
    (coordenadasAntenas l).Nodup := by
  unfold coordenadasAntenas
  rw [List.Nodup, List.pairwise_map]
  refine List.Pairwise.imp ?_ h
  intro a b hab heq
  have h1 : a.x = b.x := congrArg Coordenada.x heq
  have h2 : a.y = b.y := congrArg Coordenada.y heq
  unfold chaveMenor at hab
  omega

theorem registoAlcancavel_ordenado (l : List Antena) (h : RegistoAlcancavel l) :
    RegistoOrdenado l := by
  induction h with
  | vazio => exact List.Pairwise.nil
  | inserir l f x y _ _ ih => exact inserirAntena_ordenado l f x y ih
  | remover l x y _ ih => exact List.Pairwise.sublist (removerAntena_sublist l x y) ih

/-! ## Vertex list: the same insertion, seen through `Vertice.antena` -/

theorem verificaVertice_antena (g : List Vertice) (x y : Int) :
    verificaVertice g x y = verificaAntena (g.map Vertice.antena) x y := by
  induction g with
  | nil => rfl
  | cons v resto ih => simp [verificaVertice, verificaAntena, Vertice.antena, ih]

theorem inserirVerticeDepois_antena (novo atual : Vertice) (resto : List Vertice) :
    (inserirVerticeDepois novo atual resto).map Vertice.antena =
      inserirDepois novo.antena atual.antena (resto.map Vertice.antena) := by
  induction resto generalizing atual with
  | nil => rfl
  | cons prox resto ih =>
    simp only [inserirVerticeDepois, List.map_cons, inserirDepois]
    by_cases h : prox.x > novo.x ∨ (prox.x = novo.x ∧ prox.y ≥ novo.y)
    · have h2 : prox.antena.x > novo.antena.x ∨
          (prox.antena.x = novo.antena.x ∧ prox.antena.y ≥ novo.antena.y) := h
      rw [if_pos h, if_pos h2]
      rfl
    · have h2 : ¬ (prox.antena.x > novo.antena.x ∨
          (prox.antena.x = novo.antena.x ∧ prox.antena.y ≥ novo.antena.y)) := h
      rw [if_neg h, if_neg h2, List.map_cons, ih]

theorem inserirVertice_antena (g : List Vertice) (f : Char) (x y : Int) :
    (inserirVertice g f x y).map Vertice.antena =
      inserirAntena (g.map Vertice.antena) f x y := by
  unfold inserirVertice inserirAntena
  rw [verificaVertice_antena]
  by_cases hv : verificaAntena (g.map Vertice.antena) x y = true
  · simp [hv]
  · rw [if_neg hv, if_neg hv]
    cases g with
    | nil => rfl
    | cons cab resto =>
      simp only [List.map_cons]
      by_cases h : x < cab.x ∨ (x = cab.x ∧ y < cab.y)
      · have h2 : x < cab.antena.x ∨ (x = cab.antena.x ∧ y < cab.antena.y) := h
        rw [if_pos h, if_pos h2]
        rfl
      · have h2 : ¬ (x < cab.antena.x ∨ (x = cab.antena.x ∧ y < cab.antena.y)) := h
        rw [if_neg h, if_neg h2, inserirVerticeDepois_antena]
        rfl

theorem ligarAresta_antena (g : List Vertice) (x y : Int) (d : Coordenada) :
    (ligarAresta g x y d).map Vertice.antena = g.map Vertice.antena := by
  induction g with
  | nil => rfl
  | cons v resto ih =>
    unfold ligarAresta
    split
    · rfl
    · simp [ih]

theorem conectarVertices_antena (g : List Vertice) (x1 y1 x2 y2 : Int) :
    (conectarVertices g x1 y1 x2 y2).2.map Vertice.antena = g.map Vertice.antena := by
  unfold conectarVertices
  split
  · split
    · rfl
    · simp [ligarAresta_antena]
  · rfl

theorem grafoOrdenado_iff (g : List Vertice) :
    GrafoOrdenado g ↔ RegistoOrdenado (g.map Vertice.antena) := by
  unfold GrafoOrdenado RegistoOrdenado
  rw [List.pairwise_map]
  rfl

theorem coordenadasVertices_antena (g : List Vertice) :
    coordenadasVertices g = coordenadasAntenas (g.map Vertice.antena) := by
  simp [coordenadasVertices, coordenadasAntenas, Vertice.antena]

theorem grafoAlcancavel_ordenado (g : List Vertice) (h : GrafoAlcancavel g) :
    GrafoOrdenado g := by
  induction h with
  | vazio => exact List.Pairwise.nil
  | inserir g f x y _ _ ih =>
    rw [grafoOrdenado_iff, inserirVertice_antena]
    exact inserirAntena_ordenado _ f x y ((grafoOrdenado_iff g).1 ih)
  | conectar g x1 y1 x2 y2 _ ih =>
    rw [grafoOrdenado_iff, conectarVertices_antena]
    exact (grafoOrdenado_iff g).1 ih

theorem grafoOrdenado_nodup (g : List Vertice) (h : GrafoOrdenado g) :
    (coordenadasVertices g).Nodup := by
  rw [coordenadasVertices_antena]
  exact ordenado_coordenadas_nodup _ ((grafoOrdenado_iff g).1 h)

theorem inserirAntena_perm (l : List Antena) (f : Char) (x y : Int)
    (hlivre : ∀ a ∈ l, ¬ (a.x = x ∧ a.y = y)) :
    (inserirAntena l f x y).Perm ({ frequencia := f, x := x, y := y } :: l) := by
  unfold inserirAntena
  rw [if_neg (by simpa using (verificaAntena_eq_false l x y).2 hlivre)]
  cases l with
  | nil => exact List.Perm.refl _
  | cons cab resto =>
    simp only
    split
    · exact List.Perm.refl _
    · exact inserirDepois_perm _ cab resto

/-! ## Coordinate sets -/

theorem existePosicao_eq_true (l : List Coordenada) (x y : Int) :
    existePosicao l x y = true ↔ ({ x := x, y := y } : Coordenada) ∈ l := by
  induction l with
  | nil => simp [existePosicao]
  | cons c resto ih =>
    obtain ⟨cx, cy⟩ := c
    simp only [existePosicao, List.mem_cons, Coordenada.mk.injEq]
    by_cases h : cx = x ∧ cy = y
    · simp [h]
    · have h2 : ¬ (x = cx ∧ y = cy) := fun hh => h ⟨hh.1.symm, hh.2.symm⟩
      simp [h, h2, ih]

theorem existePosicao_eq_false (l : List Coordenada) (x y : Int) :
    existePosicao l x y = false ↔ ({ x := x, y := y } : Coordenada) ∉ l := by
  rw [← Bool.not_eq_true, existePosicao_eq_true]

theorem mem_adicionarPosicao (l : List Coordenada) (x y : Int) (c : Coordenada) :
    c ∈ adicionarPosicao l x y ↔ c = { x := x, y := y } ∨ c ∈ l := by
  unfold adicionarPosicao
  split
  next h =>
    rw [existePosicao_eq_true] at h
    constructor
    · exact Or.inr
    · rintro (rfl | hc)
      · exact h
      · exact hc
  next h => simp

theorem adicionarPosicao_nodup (l : List Coordenada) (x y : Int) (h : l.Nodup) :
    (adicionarPosicao l x y).Nodup := by
  unfold adicionarPosicao
  split
  · exact h
  next hn =>
    have hn2 : existePosicao l x y = false := by simpa using hn
    exact List.nodup_cons.2 ⟨(existePosicao_eq_false l x y).1 hn2, h⟩

theorem adicionarPosicao_novo (l : List Coordenada) (x y : Int)
    (h : existePosicao l x y = false) :
    adicionarPosicao l x y = { x := x, y := y } :: l := by
  simp [adicionarPosicao, h]

/-! ## Looking vertices up -/

theorem procuraVertice_some (g : List Vertice) (x y : Int) (v : Vertice)
    (h : procuraVertice g x y = some v) : v ∈ g ∧ v.x = x ∧ v.y = y := by
  induction g with
  | nil => simp [procuraVertice] at h
  | cons w resto ih =>
    unfold procuraVertice at h
    split at h
    next hw =>
      cases h
      exact ⟨List.mem_cons_self _ _, hw⟩
    next hw =>
      have := ih h
      exact ⟨List.mem_cons_of_mem _ this.1, this.2⟩

theorem procuraVertice_none (g : List Vertice) (x y : Int) :
    procuraVertice g x y = none ↔ ({ x := x, y := y } : Coordenada) ∉ coordenadasVertices g := by
  induction g with
  | nil => simp [procuraVertice, coordenadasVertices]
  | cons w resto ih =>
    unfold procuraVertice
    simp only [coordenadasVertices, List.map_cons, List.mem_cons, Coordenada.mk.injEq] at ih ⊢
    by_cases hw : w.x = x ∧ w.y = y
    · simp [hw]
    · have h2 : ¬ (x = w.x ∧ y = w.y) := fun hh => hw ⟨hh.1.symm, hh.2.symm⟩
      simp [hw, h2, ih]

theorem mem_coordenadasVertices (g : List Vertice) (c : Coordenada) :
    c ∈ coordenadasVertices g ↔ ∃ v ∈ g, v.x = c.x ∧ v.y = c.y := by
  obtain ⟨cx, cy⟩ := c
  simp only [coordenadasVertices, List.mem_map, Coordenada.mk.injEq]

theorem vertice_unico (g : List Vertice) (hnd : (coordenadasVertices g).Nodup)
    (v w : Vertice) (hv : v ∈ g) (hw : w ∈ g) (hx : v.x = w.x) (hy : v.y = w.y) :
    v = w := by
  refine List.inj_on_of_nodup_map hnd hv hw ?_
  simp [hx, hy]

theorem procuraVertice_unico (g : List Vertice) (hnd : (coordenadasVertices g).Nodup)
    (v : Vertice) (hv : v ∈ g) : procuraVertice g v.x v.y = some v := by
  cases h : procuraVertice g v.x v.y with
  | none =>
    exact absurd ((mem_coordenadasVertices g _).2 ⟨v, hv, rfl, rfl⟩)
      ((procuraVertice_none g v.x v.y).1 h)
  | some w =>
    obtain ⟨hw, hx, hy⟩ := procuraVertice_some g _ _ w h
    rw [vertice_unico g hnd w v hw hv hx hy]

theorem destino_some (g : List Vertice) (a : Coordenada) (ha : a ∈ coordenadasVertices g) :
    ∃ w, destino g a = some w ∧ w ∈ g ∧ w.x = a.x ∧ w.y = a.y := by
  unfold destino
  cases h : procuraVertice g a.x a.y with
  | none => exact absurd ha ((procuraVertice_none g a.x a.y).1 h)
  | some w => exact ⟨w, rfl, procuraVertice_some g _ _ w h⟩

/-! ## Graphs built through the interface are well formed -/

theorem inserirVerticeDepois_perm (novo atual : Vertice) (resto : List Vertice) :
    (inserirVerticeDepois novo atual resto).Perm (novo :: atual :: resto) := by
  induction resto generalizing atual with
  | nil => simpa [inserirVerticeDepois] using List.Perm.swap novo atual []
  | cons prox resto ih =>
    unfold inserirVerticeDepois
    split
    · exact List.Perm.swap novo atual _
    · exact ((ih prox).cons atual).trans (List.Perm.swap novo atual _)

theorem mem_inserirVertice (g : List Vertice) (f : Char) (x y : Int) (v : Vertice)
    (h : v ∈ inserirVertice g f x y) : v = criarVertice f x y ∨ v ∈ g := by
  unfold inserirVertice at h
  split at h
  · simp at h
  · cases g with
    | nil => simpa using h
    | cons cab resto =>
      simp only at h
      split at h
      · simpa using h
      · simpa using (inserirVerticeDepois_perm _ cab resto).mem_iff.1 h

theorem subset_inserirVertice (g : List Vertice) (f : Char) (x y : Int)
    (hne : inserirVertice g f x y ≠ []) (v : Vertice) (h : v ∈ g) :
    v ∈ inserirVertice g f x y := by
  unfold inserirVertice at hne ⊢
  split
  next hv => simp [hv] at hne
  · cases g with
    | nil => simp at h
    | cons cab resto =>
      simp only
      split
      · exact List.mem_cons_of_mem _ h
      · exact (inserirVerticeDepois_perm _ cab resto).mem_iff.2 (List.mem_cons_of_mem _ h)

theorem mem_ligarAresta (g : List Vertice) (x y : Int) (d : Coordenada) (v : Vertice)
    (h : v ∈ ligarAresta g x y d) :
    v ∈ g ∨ ∃ w ∈ g, v = { w with arestas := d :: w.arestas } := by
  induction g with
  | nil => simp [ligarAresta] at h
  | cons w resto ih =>
    unfold ligarAresta at h
    split at h
    · rcases List.mem_cons.1 h with rfl | h
      · exact Or.inr ⟨w, List.mem_cons_self _ _, rfl⟩
      · exact Or.inl (List.mem_cons_of_mem _ h)
    · rcases List.mem_cons.1 h with rfl | h
      · exact Or.inl (List.mem_cons_self _ _)
      · rcases ih h with h | ⟨u, hu, rfl⟩
        · exact Or.inl (List.mem_cons_of_mem _ h)
        · exact Or.inr ⟨u, List.mem_cons_of_mem _ hu, rfl⟩

theorem coordenadasVertices_ligarAresta (g : List Vertice) (x y : Int) (d : Coordenada) :
    coordenadasVertices (ligarAresta g x y d) = coordenadasVertices g := by
  rw [coordenadasVertices_antena, coordenadasVertices_antena, ligarAresta_antena]

theorem ultimoVertice_foldl (g : List Vertice) (x y : Int) (achado : Option Vertice) :
    g.foldl (fun achado v => if v.x = x ∧ v.y = y then some v else achado) achado =
      match ultimoVertice g x y with
      | some v => some v
      | none => achado := by
  induction g generalizing achado with
  | nil => rfl
  | cons w resto ih =>
    unfold ultimoVertice
    simp only [List.foldl_cons]
    rw [ih, ih (if w.x = x ∧ w.y = y then some w else none)]
    cases h : ultimoVertice resto x y with
    | some v => rfl
    | none =>
      simp only []
      split <;> rfl

theorem ultimoVertice_cons (w : Vertice) (resto : List Vertice) (x y : Int) :
    ultimoVertice (w :: resto) x y =
      match ultimoVertice resto x y with
      | some v => some v
      | none => if w.x = x ∧ w.y = y then some w else none := by
  exact ultimoVertice_foldl resto x y (if w.x = x ∧ w.y = y then some w else none)

theorem ultimoVertice_some (g : List Vertice) (x y : Int) (v : Vertice)
    (h : ultimoVertice g x y = some v) : v ∈ g ∧ v.x = x ∧ v.y = y := by
  induction g with
  | nil => simp [ultimoVertice] at h
  | cons w resto ih =>
    rw [ultimoVertice_cons] at h
    cases hr : ultimoVertice resto x y with
    | some u =>
      rw [hr] at h
      cases h
      have := ih hr
      exact ⟨List.mem_cons_of_mem _ this.1, this.2⟩
    | none =>
      rw [hr] at h
      simp only [] at h
      split at h
      next hw =>
        cases h
        exact ⟨List.mem_cons_self _ _, hw⟩
      · cases h

theorem ultimoVertice_none (g : List Vertice) (x y : Int) :
    ultimoVertice g x y = none ↔ ∀ v ∈ g, ¬ (v.x = x ∧ v.y = y) := by
  induction g with
  | nil => simp [ultimoVertice]
  | cons w resto ih =>
    rw [ultimoVertice_cons]
    cases hr : ultimoVertice resto x y with
    | some u =>
      have hu := ultimoVertice_some resto x y u hr
      simp only [List.mem_cons, forall_eq_or_imp, false_iff, reduceCtorEq]
      intro hall
      exact hall.2 u hu.1 hu.2
    | none =>
      have hall := ih.1 hr
      by_cases hw : w.x = x ∧ w.y = y
      · simp [hw]
      · simp only [hw, if_false, List.mem_cons, forall_eq_or_imp, true_iff]
        exact ⟨by simp [hw], hall⟩

theorem bemFormado_inserirVertice (g : List Vertice) (f : Char) (x y : Int)
    (hne : inserirVertice g f x y ≠ [])
    (h : ∀ v ∈ g, ∀ a ∈ v.arestas, a ∈ coordenadasVertices g) :
    ∀ v ∈ inserirVertice g f x y, ∀ a ∈ v.arestas,
      a ∈ coordenadasVertices (inserirVertice g f x y) := by
  intro v hv a ha
  rcases mem_inserirVertice g f x y v hv with rfl | hvg
  · simp [criarVertice] at ha
  · obtain ⟨w, hw, hxy⟩ := (mem_coordenadasVertices g a).1 (h v hvg a ha)
    exact (mem_coordenadasVertices _ a).2 ⟨w, subset_inserirVertice g f x y hne w hw, hxy⟩

theorem fechado_ligarAresta (g : List Vertice) (x y : Int) (d : Coordenada)
    (hd : d ∈ coordenadasVertices g)
    (h : ∀ v ∈ g, ∀ a ∈ v.arestas, a ∈ coordenadasVertices g) :
    ∀ v ∈ ligarAresta g x y d, ∀ a ∈ v.arestas,
      a ∈ coordenadasVertices (ligarAresta g x y d) := by
  intro v hv a ha
  rw [coordenadasVertices_ligarAresta]
  rcases mem_ligarAresta g x y d v hv with hvg | ⟨w, hw, rfl⟩
  · exact h v hvg a ha
  · rcases List.mem_cons.1 ha with rfl | ha
    · exact hd
    · exact h w hw a ha

theorem fechado_conectarVertices (g : List Vertice) (x1 y1 x2 y2 : Int)
    (h : ∀ v ∈ g, ∀ a ∈ v.arestas, a ∈ coordenadasVertices g) :
    ∀ v ∈ (conectarVertices g x1 y1 x2 y2).2, ∀ a ∈ v.arestas,
      a ∈ coordenadasVertices (conectarVertices g x1 y1 x2 y2).2 := by
  unfold conectarVertices
  split
  next v1 v2 h1 h2 =>
    split
    · exact h
    · have hv1 := ultimoVertice_some g x1 y1 v1 h1
      have hv2 := ultimoVertice_some g x2 y2 v2 h2
      refine fechado_ligarAresta _ x2 y2 _ ?_ (fechado_ligarAresta g x1 y1 _ ?_ h)
      · rw [coordenadasVertices_ligarAresta]
        exact (mem_coordenadasVertices g _).2 ⟨v1, hv1.1, rfl, rfl⟩
      · exact (mem_coordenadasVertices g _).2 ⟨v2, hv2.1, rfl, rfl⟩
  · exact h

theorem grafoAlcancavel_bemFormado (g : List Vertice) (h : GrafoAlcancavel g) :
    BemFormado g := by
  refine ⟨grafoOrdenado_nodup g (grafoAlcancavel_ordenado g h), ?_⟩
  induction h with
  | vazio => simp
  | inserir g f x y _ hne ih => exact bemFormado_inserirVertice g f x y hne ih
  | conectar g x1 y1 x2 y2 _ ih => exact fechado_conectarVertices g x1 y1 x2 y2 ih

/-! ## Folds in the `Option` monad -/

theorem foldlM_some_rel {α β : Type} (f : β → α → Option β) (Q : β → β → Prop)
    (hrefl : ∀ r, Q r r) (htrans : ∀ a b c, Q a b → Q b c → Q a c) (as : List α)
    (hstep : ∀ a ∈ as, ∀ r r1, f r a = some r1 → Q r r1) :
    ∀ r r1, as.foldlM f r = some r1 → Q r r1 := by
  induction as with
  | nil =>
    intro r r1 h
    simp only [List.foldlM_nil, Option.pure_def, Option.some.injEq] at h
    subst h
    exact hrefl r
  | cons a resto ih =>
    intro r r1 h
    simp only [List.foldlM_cons, Option.bind_eq_bind, Option.bind_eq_some] at h
    obtain ⟨r2, h2, h3⟩ := h
    exact htrans _ _ _ (hstep a (List.mem_cons_self _ _) r r2 h2)
      (ih (fun b hb => hstep b (List.mem_cons_of_mem _ hb)) r2 r1 h3)

theorem foldlM_total {α β : Type} (f : β → α → Option β) (as : List α)
    (hstep : ∀ a ∈ as, ∀ r, ∃ r1, f r a = some r1) :
    ∀ r, ∃ r1, as.foldlM f r = some r1 := by
  induction as with
  | nil => intro r; exact ⟨r, rfl⟩
  | cons a resto ih =>
    intro r
    obtain ⟨r2, h2⟩ := hstep a (List.mem_cons_self _ _) r
    obtain ⟨r3, h3⟩ := ih (fun b hb => hstep b (List.mem_cons_of_mem _ hb)) r2
    refine ⟨r3, ?_⟩
    simp only [List.foldlM_cons, Option.bind_eq_bind, Option.bind_eq_some]
    exact ⟨r2, h2, h3⟩

theorem foldlM_some_hit {α β : Type} (f : β → α → Option β) (P : β → Prop) (as : List α)
    (a : α) (ha : a ∈ as) (hhit : ∀ r r1, f r a = some r1 → P r1)
    (hkeep : ∀ b ∈ as, ∀ r r1, f r b = some r1 → P r → P r1) :
    ∀ r r1, as.foldlM f r = some r1 → P r1 := by
  induction as with
  | nil => simp at ha
  | cons b resto ih =>
    intro r r1 h
    simp only [List.foldlM_cons, Option.bind_eq_bind, Option.bind_eq_some] at h
    obtain ⟨r2, h2, h3⟩ := h
    rcases List.mem_cons.1 ha with rfl | ha
    · exact foldlM_some_rel f (fun x z => P x → P z) (fun _ hx => hx)
        (fun _ _ _ h1 h2 hx => h2 (h1 hx)) resto
        (fun c hc => hkeep c (List.mem_cons_of_mem _ hc)) r2 r1 h3
        (hhit r r2 h2)
    · exact ih ha (fun c hc => hkeep c (List.mem_cons_of_mem _ hc)) r2 r1 h3

/-! ## Reachability -/

theorem alcanca_vertice (g : List Vertice)
    (hf : ∀ v ∈ g, ∀ a ∈ v.arestas, a ∈ coordenadasVertices g) (c d : Coordenada)
    (hc : c ∈ coordenadasVertices g) (h : Alcanca g c d) : d ∈ coordenadasVertices g := by
  induction h with
  | refl => exact hc
  | tail _ hstep _ =>
    obtain ⟨v, hv, _, _, hd⟩ := hstep
    exact hf v hv _ hd

theorem alcancaEvitando_alcanca (g : List Vertice) (V : List Coordenada) (c d : Coordenada)
    (h : AlcancaEvitando g V c d) : Alcanca g c d :=
  Relation.ReflTransGen.mono (fun _ _ hpq => hpq.1) h

theorem alcanca_evitando_nil (g : List Vertice) (c d : Coordenada) (h : Alcanca g c d) :
    AlcancaEvitando g [] c d :=
  Relation.ReflTransGen.mono (fun _ _ hpq => ⟨hpq, List.not_mem_nil _⟩) h

/-- A walk from `v` that avoids `V` either ends at `v` or leaves `v` for the last
time along an edge, after which it avoids `v` as well. -/
theorem alcancaEvitando_primeiro (g : List Vertice) (V W : List Coordenada)
    (v c : Coordenada) (hW : ∀ q, q ∈ W ↔ q = v ∨ q ∈ V)
    (h : AlcancaEvitando g V v c) :
    c = v ∨ ∃ w, Adjacente g v w ∧ w ∉ W ∧ AlcancaEvitando g W w c := by
  induction h with
  | refl => exact Or.inl rfl
  | @tail b c _ hstep ih =>
    by_cases hcv : c = v
    · exact Or.inl hcv
    · have hcW : c ∉ W := fun hc => ((hW c).1 hc).elim hcv hstep.2
      right
      rcases ih with rfl | ⟨w, hvw, hw, hwb⟩
      · exact ⟨c, hstep.1, hcW, Relation.ReflTransGen.refl⟩
      · exact ⟨w, hvw, hw, Relation.ReflTransGen.tail hwb ⟨hstep.1, hcW⟩⟩

theorem naoVisitados_le (g : List Vertice) (V : List Coordenada) :
    naoVisitados g V ≤ g.length := by
  unfold naoVisitados
  calc ((coordenadasVertices g).toFinset \ V.toFinset).card
      ≤ (coordenadasVertices g).toFinset.card := Finset.card_le_card Finset.sdiff_subset
    _ ≤ (coordenadasVertices g).length := List.toFinset_card_le _
    _ = g.length := by simp [coordenadasVertices]

theorem naoVisitados_adicionar (g : List Vertice) (V : List Coordenada) (v : Vertice)
    (hv : v ∈ g) (hn : existePosicao V v.x v.y = false) :
    naoVisitados g (adicionarPosicao V v.x v.y) < naoVisitados g V := by
  unfold naoVisitados
  rw [adicionarPosicao_novo V v.x v.y hn]
  have hnot : ({ x := v.x, y := v.y } : Coordenada) ∉ V := (existePosicao_eq_false V _ _).1 hn
  have hin : ({ x := v.x, y := v.y } : Coordenada) ∈ coordenadasVertices g :=
    (mem_coordenadasVertices g _).2 ⟨v, hv, rfl, rfl⟩
  apply Finset.card_lt_card
  rw [Finset.ssubset_iff_of_subset]
  · refine ⟨{ x := v.x, y := v.y }, ?_, ?_⟩
    · simp [hin, hnot]
    · simp
  · intro c hc
    simp only [List.toFinset_cons, Finset.mem_sdiff, List.mem_toFinset, Finset.mem_insert,
      not_or] at hc ⊢
    exact ⟨hc.1, hc.2.2⟩

/-! ## Depth-first traversal -/

theorem busca_basico (g : List Vertice) :
    ∀ (n : Nat) (ov : Option Vertice) (V R R1 : List Coordenada),
      buscaProfundidadeRecursiva g n ov V R = some R1 →
      R ⊆ R1 ∧ (R.Nodup → R1.Nodup) := by
  intro n
  induction n with
  | zero => intro ov V R R1 h; simp [buscaProfundidadeRecursiva] at h
  | succ n ih =>
    intro ov V R R1 h
    cases ov with
    | none =>
      simp only [buscaProfundidadeRecursiva, Option.some.injEq] at h
      subst h
      exact ⟨List.Subset.refl _, id⟩
    | some v =>
      simp only [buscaProfundidadeRecursiva] at h
      split at h
      · simp only [Option.some.injEq] at h
        subst h
        exact ⟨List.Subset.refl _, id⟩
      · have hq := foldlM_some_rel
          (fun r a => buscaProfundidadeRecursiva g n (destino g a)
            (adicionarPosicao V v.x v.y) r)
          (fun r r1 => r ⊆ r1 ∧ (r.Nodup → r1.Nodup))
          (fun _ => ⟨List.Subset.refl _, id⟩)
          (fun _ _ _ h1 h2 => ⟨h1.1.trans h2.1, fun hx => h2.2 (h1.2 hx)⟩)
          v.arestas (fun a _ r r1 hr => ih _ _ _ _ hr) _ _ h
        refine ⟨fun c hc => hq.1 ((mem_adicionarPosicao R v.x v.y c).2 (Or.inr hc)), ?_⟩
        intro hnd
        exact hq.2 (adicionarPosicao_nodup R v.x v.y hnd)

theorem busca_correto (g : List Vertice) :
    ∀ (n : Nat) (ov : Option Vertice) (V R R1 : List Coordenada),
      (∀ v, ov = some v → v ∈ g) →
      buscaProfundidadeRecursiva g n ov V R = some R1 →
      ∀ c ∈ R1, c ∈ R ∨ ∃ v, ov = some v ∧ Alcanca g { x := v.x, y := v.y } c := by
  intro n
  induction n with
  | zero => intro ov V R R1 _ h; simp [buscaProfundidadeRecursiva] at h
  | succ n ih =>
    intro ov V R R1 hov h
    cases ov with
    | none =>
      simp only [buscaProfundidadeRecursiva, Option.some.injEq] at h
      subst h
      exact fun c hc => Or.inl hc
    | some v =>
      have hvg : v ∈ g := hov v rfl
      simp only [buscaProfundidadeRecursiva] at h
      split at h
      · simp only [Option.some.injEq] at h
        subst h
        exact fun c hc => Or.inl hc
      · have hq := foldlM_some_rel
          (fun r a => buscaProfundidadeRecursiva g n (destino g a)
            (adicionarPosicao V v.x v.y) r)
          (fun r r1 => ∀ c ∈ r1, c ∈ r ∨ Alcanca g { x := v.x, y := v.y } c)
          (fun _ c hc => Or.inl hc)
          (fun _ _ _ h1 h2 c hc => (h2 c hc).elim (h1 c) Or.inr)
          v.arestas
          (by
            intro a ha r r1 hr c hc
            have hdest : ∀ w, destino g a = some w → w ∈ g :=
              fun w hw => (procuraVertice_some g _ _ w hw).1
            rcases ih _ _ _ _ hdest hr c hc with hc | ⟨w, hw, hwc⟩
            · exact Or.inl hc
            · right
              obtain ⟨_, hx, hy⟩ := procuraVertice_some g _ _ w hw
              have hadj : Adjacente g { x := v.x, y := v.y } { x := w.x, y := w.y } := by
                refine ⟨v, hvg, rfl, rfl, ?_⟩
                rw [hx, hy]
                exact ha
              exact Relation.ReflTransGen.head hadj hwc)
          _ _ h
        intro c hc
        rcases hq c hc with hc | hc
        · rcases (mem_adicionarPosicao R v.x v.y c).1 hc with rfl | hc
          · exact Or.inr ⟨v, rfl, Relation.ReflTransGen.refl⟩
          · exact Or.inl hc
        · exact Or.inr ⟨v, rfl, hc⟩

theorem busca_total (g : List Vertice) :
    ∀ (n : Nat) (ov : Option Vertice) (V R : List Coordenada),
      (∀ v, ov = some v → v ∈ g) → naoVisitados g V < n →
      ∃ R1, buscaProfundidadeRecursiva g n ov V R = some R1 := by
  intro n
  induction n with
  | zero => intro ov V R _ h; omega
  | succ n ih =>
    intro ov V R hov hn
    cases ov with
    | none => exact ⟨R, rfl⟩
    | some v =>
      simp only [buscaProfundidadeRecursiva]
      split
      · exact ⟨R, rfl⟩
      next hvis =>
        have hvis2 : existePosicao V v.x v.y = false := by simpa using hvis
        have hlt := naoVisitados_adicionar g V v (hov v rfl) hvis2
        exact foldlM_total _ v.arestas
          (fun a _ r => ih _ _ r (fun w hw => (procuraVertice_some g _ _ w hw).1) (by omega)) _

theorem busca_completo (g : List Vertice) (hbf : BemFormado g) :
    ∀ (n : Nat) (v : Vertice) (V R R1 : List Coordenada), v ∈ g →
      buscaProfundidadeRecursiva g n (some v) V R = some R1 →
      ({ x := v.x, y := v.y } : Coordenada) ∉ V →
      ∀ c, AlcancaEvitando g V { x := v.x, y := v.y } c → c ∈ R1 := by
  intro n
  induction n with
  | zero => intro v V R R1 _ h; simp [buscaProfundidadeRecursiva] at h
  | succ n ih =>
    intro v V R R1 hvg h hvV c hc
    simp only [buscaProfundidadeRecursiva] at h
    rw [if_neg (by simpa using (existePosicao_eq_false V v.x v.y).2 hvV)] at h
    have hmono := foldlM_some_rel
      (fun r a => buscaProfundidadeRecursiva g n (destino g a)
        (adicionarPosicao V v.x v.y) r)
      (fun r r1 => r ⊆ r1) (fun _ => List.Subset.refl _)
      (fun _ _ _ h1 h2 => h1.trans h2) v.arestas
      (fun a _ r r1 hr => (busca_basico g _ _ _ _ _ hr).1) _ _ h
    rcases alcancaEvitando_primeiro g V (adicionarPosicao V v.x v.y) _ c
        (fun q => mem_adicionarPosicao V v.x v.y q) hc with rfl | ⟨w, hvw, hwW, hwc⟩
    · exact hmono ((mem_adicionarPosicao R v.x v.y _).2 (Or.inl rfl))
    · obtain ⟨u, hug, hux, huy, hwu⟩ := hvw
      have huv : u = v := vertice_unico g hbf.1 u v hug hvg hux huy
      subst huv
      obtain ⟨vw, hdest, hvwg, hvwx, hvwy⟩ := destino_some g w (hbf.2 u hug w hwu)
      have hwe : ({ x := vw.x, y := vw.y } : Coordenada) = w := by
        rw [hvwx, hvwy]
      refine foldlM_some_hit
        (fun r a => buscaProfundidadeRecursiva g n (destino g a)
          (adicionarPosicao V u.x u.y) r)
        (fun r => c ∈ r) u.arestas w hwu ?_ ?_ _ _ h
      · intro r r1 hr
        simp only [hdest] at hr
        exact ih vw _ r r1 hvwg hr (by rw [hwe]; exact hwW) c (by rw [hwe]; exact hwc)
      · intro b _ r r1 hr hcr
        exact (busca_basico g _ _ _ _ _ hr).1 hcr

theorem procuraProfundidade_alcanca (g : List Vertice) (hbf : BemFormado g) (x y : Int)
    (hex : ({ x := x, y := y } : Coordenada) ∈ coordenadasVertices g) :
    ∃ r, procuraProfundidade g x y = some r ∧ r.Nodup ∧
      ∀ c, c ∈ r ↔ Alcanca g { x := x, y := y } c := by
  obtain ⟨v, hv, hvg, hvx, hvy⟩ := destino_some g { x := x, y := y } hex
  simp only [destino] at hv hvx hvy
  have hov : ∀ w, some v = some w → w ∈ g := fun w hw => by cases hw; exact hvg
  obtain ⟨r, hr⟩ := busca_total g (g.length + 1) (some v) [] []
    hov (Nat.lt_succ_of_le (naoVisitados_le g []))
  refine ⟨r, ?_, (busca_basico g _ _ _ _ _ hr).2 List.nodup_nil, ?_⟩
  · simp only [procuraProfundidade, hv, hr]
  · intro c
    constructor
    · intro hc
      rcases busca_correto g _ _ _ _ _ hov hr c hc with hc | ⟨w, hw, hwc⟩
      · simp at hc
      · cases hw
        rw [hvx, hvy] at hwc
        exact hwc
    · intro hc
      refine busca_completo g hbf _ v [] [] r hvg hr (List.not_mem_nil _) c ?_
      rw [hvx, hvy]
      exact alcanca_evitando_nil g _ c hc

/-! ## Antinode detection -/

theorem int32_id (z : Int) (h : EmInt z) : int32 z = z := by
  unfold EmInt at h
  unfold int32
  omega

theorem int32_meio (p q : Int) (hp : EmInt p) (hq : EmInt q) (hd : EmInt (q - p)) :
    int32 (p + (int32 (q - p)).tdiv 2) = p + (q - p).tdiv 2 := by
  rw [int32_id _ hd]
  apply int32_id
  unfold EmInt at *
  rcases Int.le_total 0 (q - p) with h | h
  · rw [Int.tdiv_eq_ediv h (by decide)]
    omega
  · have h4 : (q - p).tdiv 2 = -((p - q) / 2) := by
      rw [show q - p = -(p - q) by omega, Int.neg_tdiv,
        Int.tdiv_eq_ediv (by omega) (by decide)]
    rw [h4]
    omega

theorem geraNefasto_iff (a1 a2 : Antena) (c : Coordenada) (hlim : SemTransbordo a1 a2) :
    GeraNefasto a1 a2 c ↔ PontoMedioPar a1 a2 c := by
  obtain ⟨cx, cy⟩ := c
  obtain ⟨h1x, h1y, h2x, h2y, hdx, hdy⟩ := hlim
  unfold GeraNefasto PontoMedioPar
  rw [int32_meio a1.x a2.x h1x h2x hdx, int32_meio a1.y a2.y h1y h2y hdy,
    int32_id _ hdx, int32_id _ hdy]
  simp only [Coordenada.mk.injEq, ← Int.dvd_iff_tmod_eq_zero, even_iff_two_dvd]
  constructor
  · rintro ⟨hf, hx, hy, h1, h2⟩
    rw [Int.tdiv_eq_ediv_of_dvd hx] at h1
    rw [Int.tdiv_eq_ediv_of_dvd hy] at h2
    exact ⟨hf, hx, hy, h1, h2⟩
  · rintro ⟨hf, hx, hy, h1, h2⟩
    rw [Int.tdiv_eq_ediv_of_dvd hx, Int.tdiv_eq_ediv_of_dvd hy]
    exact ⟨hf, hx, hy, h1, h2⟩

theorem pontoMedioPar_troca (a1 a2 : Antena) (c : Coordenada)
    (h : PontoMedioPar a1 a2 c) : PontoMedioPar a2 a1 c := by
  unfold PontoMedioPar at *
  simp only [Int.even_iff] at *
  obtain ⟨hf, hx, hy, h1, h2⟩ := h
  refine ⟨hf.symm, ?_, ?_, ?_, ?_⟩ <;> omega

theorem mem_foldl_nefastoPar (a1 : Antena) (c : Coordenada) :
    ∀ (resto : List Antena) (acc : List Coordenada),
      c ∈ resto.foldl (nefastoPar a1) acc ↔ c ∈ acc ∨ ∃ a2 ∈ resto, GeraNefasto a1 a2 c := by
  intro resto
  induction resto with
  | nil => intro acc; simp
  | cons a resto ih =>
    intro acc
    rw [List.foldl_cons, ih]
    have hpar : c ∈ nefastoPar a1 acc a ↔ c ∈ acc ∨ GeraNefasto a1 a c := by
      unfold nefastoPar GeraNefasto
      by_cases hf : a1.frequencia = a.frequencia
      · by_cases hpar : (int32 (a.x - a1.x)).tmod 2 = 0 ∧ (int32 (a.y - a1.y)).tmod 2 = 0
        · simp only [hf, ne_eq, not_true_eq_false, if_false, hpar, and_self, if_true,
            mem_adicionarPosicao, true_and]
          exact or_comm
        · simp only [hf, ne_eq, not_true_eq_false, if_false, hpar, true_and]
          constructor
          · exact Or.inl
          · rintro (h | ⟨h1, h2, _⟩)
            · exact h
            · exact absurd ⟨h1, h2⟩ hpar
      · simp [hf]
    rw [hpar]
    simp only [List.mem_cons, exists_eq_or_imp]
    tauto

theorem foldl_nefastoPar_nodup (a1 : Antena) :
    ∀ (resto : List Antena) (acc : List Coordenada), acc.Nodup →
      (resto.foldl (nefastoPar a1) acc).Nodup := by
  intro resto
  induction resto with
  | nil => intro acc h; exact h
  | cons a resto ih =>
    intro acc h
    rw [List.foldl_cons]
    apply ih
    unfold nefastoPar
    split
    · exact h
    · split
      · exact adicionarPosicao_nodup _ _ _ h
      · exact h

theorem nefastosDesde_nodup :
    ∀ (l : List Antena) (acc : List Coordenada), acc.Nodup → (nefastosDesde l acc).Nodup := by
  intro l
  induction l with
  | nil => intro acc h; exact h
  | cons a resto ih =>
    intro acc h
    exact ih _ (foldl_nefastoPar_nodup a resto acc h)

theorem mem_nefastosDesde (c : Coordenada) :
    ∀ (l : List Antena) (acc : List Coordenada),
      c ∈ nefastosDesde l acc ↔
        c ∈ acc ∨ ∃ a1 a2, [a1, a2].Sublist l ∧ GeraNefasto a1 a2 c := by
  intro l
  induction l with
  | nil =>
    intro acc
    simp [nefastosDesde]
  | cons a resto ih =>
    intro acc
    unfold nefastosDesde
    rw [ih, mem_foldl_nefastoPar]
    constructor
    · rintro ((h | ⟨a2, ha2, hg⟩) | ⟨a1, a2, hs, hg⟩)
      · exact Or.inl h
      · exact Or.inr ⟨a, a2, List.Sublist.cons₂ a (List.singleton_sublist.2 ha2), hg⟩
      · exact Or.inr ⟨a1, a2, List.Sublist.cons a hs, hg⟩
    · rintro (h | ⟨a1, a2, hs, hg⟩)
      · exact Or.inl (Or.inl h)
      · rcases List.sublist_cons_iff.1 hs with hs | ⟨r, hr, hs⟩
        · exact Or.inr ⟨a1, a2, hs, hg⟩
        · simp only [List.cons.injEq] at hr
          obtain ⟨rfl, rfl⟩ := hr
          exact Or.inl (Or.inr ⟨a2, List.singleton_sublist.1 hs, hg⟩)

theorem par_sublist_ou_troca (a1 a2 : Antena) (hne : a1 ≠ a2) :
    ∀ l : List Antena, a1 ∈ l → a2 ∈ l → [a1, a2].Sublist l ∨ [a2, a1].Sublist l := by
  intro l
  induction l with
  | nil => intro h; simp at h
  | cons a resto ih =>
    intro h1 h2
    rcases List.mem_cons.1 h1 with e1 | m1
    · rcases List.mem_cons.1 h2 with e2 | m2
      · exact absurd (e1.trans e2.symm) hne
      · rw [e1]
        exact Or.inl (List.Sublist.cons₂ _ (List.singleton_sublist.2 m2))
    · rcases List.mem_cons.1 h2 with e2 | m2
      · rw [e2]
        exact Or.inr (List.Sublist.cons₂ _ (List.singleton_sublist.2 m1))
      · exact (ih m1 m2).imp (List.Sublist.cons a) (List.Sublist.cons a)

/-! ## Connecting vertices -/

theorem conectarVertices_true_iff (g : List Vertice) (hnd : (coordenadasVertices g).Nodup)
    (x1 y1 x2 y2 : Int) :
    (conectarVertices g x1 y1 x2 y2).1 = true ↔
      ∃ v1 ∈ g, ∃ v2 ∈ g, (v1.x = x1 ∧ v1.y = y1) ∧ (v2.x = x2 ∧ v2.y = y2) ∧
        v1.frequencia = v2.frequencia := by
  unfold conectarVertices
  constructor
  · intro h
    split at h
    next v1 v2 h1 h2 =>
      have hv1 := ultimoVertice_some g x1 y1 v1 h1
      have hv2 := ultimoVertice_some g x2 y2 v2 h2
      split at h
      · simp at h
      next hf => exact ⟨v1, hv1.1, v2, hv2.1, hv1.2, hv2.2, by simpa using hf⟩
    · simp at h
  · rintro ⟨v1, hv1, v2, hv2, hc1, hc2, hf⟩
    have hu : ∀ (x y : Int) (v : Vertice), v ∈ g → v.x = x ∧ v.y = y →
        ultimoVertice g x y = some v := by
      intro x y v hv hc
      cases hr : ultimoVertice g x y with
      | none => exact absurd hc ((ultimoVertice_none g x y).1 hr v hv)
      | some w =>
        obtain ⟨hw, hwx, hwy⟩ := ultimoVertice_some g x y w hr
        rw [vertice_unico g hnd w v hw hv (hwx.trans hc.1.symm) (hwy.trans hc.2.symm)]
    rw [hu x1 y1 v1 hv1 hc1, hu x2 y2 v2 hv2 hc2]
    simp [hf]

theorem conectarVertices_false_inalterado (g : List Vertice) (x1 y1 x2 y2 : Int)
    (h : (conectarVertices g x1 y1 x2 y2).1 = false) :
    (conectarVertices g x1 y1 x2 y2).2 = g := by
  unfold conectarVertices at h ⊢
  cases h1 : ultimoVertice g x1 y1 with
  | none => rfl
  | some v1 =>
    cases h2 : ultimoVertice g x2 y2 with
    | none => rfl
    | some v2 =>
      simp only [h1, h2] at h ⊢
      split
      · rfl
      next hf => simp [hf] at h

/-! ## Edges after an insertion or a connection -/

theorem verificaVertice_eq_true (g : List Vertice) (x y : Int) :
    verificaVertice g x y = true ↔ ∃ v ∈ g, v.x = x ∧ v.y = y := by
  induction g with
  | nil => simp [verificaVertice]
  | cons v resto ih =>
    simp only [verificaVertice, List.mem_cons, exists_eq_or_imp]
    by_cases h : v.x = x ∧ v.y = y
    · simp [h]
    · simp [h, ih]

theorem mem_ligarAresta_coord (g : List Vertice) (x y : Int) (d : Coordenada) (v : Vertice)
    (h : v ∈ ligarAresta g x y d) :
    v ∈ g ∨ ∃ w ∈ g, (w.x = x ∧ w.y = y) ∧ v = { w with arestas := d :: w.arestas } := by
  induction g with
  | nil => simp [ligarAresta] at h
  | cons w resto ih =>
    unfold ligarAresta at h
    split at h
    next hw =>
      rcases List.mem_cons.1 h with rfl | h
      · exact Or.inr ⟨w, List.mem_cons_self _ _, hw.1, rfl⟩
      · exact Or.inl (List.mem_cons_of_mem _ h)
    · rcases List.mem_cons.1 h with rfl | h
      · exact Or.inl (List.mem_cons_self _ _)
      · rcases ih h with h | ⟨u, hu, hc, rfl⟩
        · exact Or.inl (List.mem_cons_of_mem _ h)
        · exact Or.inr ⟨u, List.mem_cons_of_mem _ hu, hc, rfl⟩

theorem ligarAresta_conserva (g : List Vertice) (x y : Int) (d : Coordenada) (v : Vertice)
    (h : v ∈ g) :
    v ∈ ligarAresta g x y d ∨
      ((v.x = x ∧ v.y = y) ∧
        ({ v with arestas := d :: v.arestas } : Vertice) ∈ ligarAresta g x y d) := by
  induction g with
  | nil => simp at h
  | cons w resto ih =>
    unfold ligarAresta
    split
    next hw =>
      rcases List.mem_cons.1 h with rfl | h
      · exact Or.inr ⟨hw.1, List.mem_cons_self _ _⟩
      · exact Or.inl (List.mem_cons_of_mem _ h)
    · rcases List.mem_cons.1 h with rfl | h
      · exact Or.inl (List.mem_cons_self _ _)
      · rcases ih h with h | ⟨hc, h⟩
        · exact Or.inl (List.mem_cons_of_mem _ h)
        · exact Or.inr ⟨hc, List.mem_cons_of_mem _ h⟩

theorem ligarAresta_acrescenta (g : List Vertice) (x y : Int) (d : Coordenada)
    (h : ∃ v ∈ g, v.x = x ∧ v.y = y) :
    ∃ w ∈ g, (w.x = x ∧ w.y = y) ∧
      ({ w with arestas := d :: w.arestas } : Vertice) ∈ ligarAresta g x y d := by
  induction g with
  | nil => simp at h
  | cons w resto ih =>
    unfold ligarAresta
    by_cases hr : verificaVertice resto x y = true
    · obtain ⟨u, hu, hc, hm⟩ := ih ((verificaVertice_eq_true resto x y).1 hr)
      rw [if_neg (by simp [hr])]
      exact ⟨u, List.mem_cons_of_mem _ hu, hc, List.mem_cons_of_mem _ hm⟩
    · have hr2 : verificaVertice resto x y = false := by simpa using hr
      obtain ⟨v, hv, hc⟩ := h
      rcases List.mem_cons.1 hv with rfl | hv
      · rw [if_pos ⟨hc, hr2⟩]
        exact ⟨v, List.mem_cons_self _ _, hc, List.mem_cons_self _ _⟩
      · exact absurd ((verificaVertice_eq_true resto x y).2 ⟨v, hv, hc⟩) hr

theorem adjacente_ligarAresta (g : List Vertice) (x y : Int) (d0 c d : Coordenada)
    (hex : ∃ v ∈ g, v.x = x ∧ v.y = y) :
    Adjacente (ligarAresta g x y d0) c d ↔
      Adjacente g c d ∨ ((c.x = x ∧ c.y = y) ∧ d = d0) := by
  constructor
  · rintro ⟨v, hv, hcx, hcy, hd⟩
    rcases mem_ligarAresta_coord g x y d0 v hv with hvg | ⟨w, hw, hwc, rfl⟩
    · exact Or.inl ⟨v, hvg, hcx, hcy, hd⟩
    · rcases List.mem_cons.1 hd with rfl | hd
      · exact Or.inr ⟨⟨hcx.symm.trans hwc.1, hcy.symm.trans hwc.2⟩, rfl⟩
      · exact Or.inl ⟨w, hw, hcx, hcy, hd⟩
  · rintro (⟨v, hv, hcx, hcy, hd⟩ | ⟨hc, rfl⟩)
    · rcases ligarAresta_conserva g x y d0 v hv with h | ⟨_, h⟩
      · exact ⟨v, h, hcx, hcy, hd⟩
      · exact ⟨_, h, hcx, hcy, List.mem_cons_of_mem _ hd⟩
    · obtain ⟨w, _, hwc, hm⟩ := ligarAresta_acrescenta g x y d hex
      exact ⟨_, hm, hwc.1.trans hc.1.symm, hwc.2.trans hc.2.symm, List.mem_cons_self _ _⟩

theorem adjacente_inserirVertice (g : List Vertice) (f : Char) (x y : Int)
    (hne : inserirVertice g f x y ≠ []) (c d : Coordenada) :
    Adjacente (inserirVertice g f x y) c d ↔ Adjacente g c d := by
  constructor
  · rintro ⟨v, hv, hcx, hcy, hd⟩
    rcases mem_inserirVertice g f x y v hv with rfl | hvg
    · simp [criarVertice] at hd
    · exact ⟨v, hvg, hcx, hcy, hd⟩
  · rintro ⟨v, hv, hcx, hcy, hd⟩
    exact ⟨v, subset_inserirVertice g f x y hne v hv, hcx, hcy, hd⟩

theorem adjacente_conectarVertices (g : List Vertice) (x1 y1 x2 y2 : Int)
    (hok : (conectarVertices g x1 y1 x2 y2).1 = true) (c d : Coordenada) :
    Adjacente (conectarVertices g x1 y1 x2 y2).2 c d ↔
      Adjacente g c d ∨ (c = { x := x1, y := y1 } ∧ d = { x := x2, y := y2 }) ∨
        (c = { x := x2, y := y2 } ∧ d = { x := x1, y := y1 }) := by
  unfold conectarVertices at hok ⊢
  cases h1 : ultimoVertice g x1 y1 with
  | none => simp [h1] at hok
  | some v1 =>
    cases h2 : ultimoVertice g x2 y2 with
    | none => simp [h1, h2] at hok
    | some v2 =>
      simp only [h1, h2] at hok ⊢
      obtain ⟨hv1, hx1, hy1⟩ := ultimoVertice_some g x1 y1 v1 h1
      obtain ⟨hv2, hx2, hy2⟩ := ultimoVertice_some g x2 y2 v2 h2
      split
      next hf => simp [hf] at hok
      · have hex1 : ∃ v ∈ g, v.x = x1 ∧ v.y = y1 := ⟨v1, hv1, hx1, hy1⟩
        have hex2 : ∃ v ∈ ligarAresta g x1 y1 { x := v2.x, y := v2.y },
            v.x = x2 ∧ v.y = y2 := by
          have hin : ({ x := x2, y := y2 } : Coordenada) ∈
              coordenadasVertices (ligarAresta g x1 y1 { x := v2.x, y := v2.y }) := by
            rw [coordenadasVertices_ligarAresta]
            exact (mem_coordenadasVertices g _).2 ⟨v2, hv2, hx2, hy2⟩
          exact (mem_coordenadasVertices _ _).1 hin
        rw [adjacente_ligarAresta _ x2 y2 _ c d hex2,
          adjacente_ligarAresta g x1 y1 _ c d hex1, hx1, hy1, hx2, hy2]
        obtain ⟨cx, cy⟩ := c
        simp only [Coordenada.mk.injEq]
        tauto

theorem ligarAresta_map (g : List Vertice) (hnd : (coordenadasVertices g).Nodup)
    (x y : Int) (d : Coordenada) :
    ligarAresta g x y d =
      g.map (fun v => if v.x = x ∧ v.y = y then { v with arestas := d :: v.arestas } else v) := by
  induction g with
  | nil => rfl
  | cons v resto ih =>
    have hnd2 : ({ x := v.x, y := v.y } : Coordenada) ∉ coordenadasVertices resto ∧
        (coordenadasVertices resto).Nodup := by
      simpa [coordenadasVertices] using hnd
    unfold ligarAresta
    by_cases hv : v.x = x ∧ v.y = y
    · have hresto : ∀ w ∈ resto, ¬ (w.x = x ∧ w.y = y) := by
        intro w hw hc
        exact hnd2.1 ((mem_coordenadasVertices resto _).2
          ⟨w, hw, hc.1.trans hv.1.symm, hc.2.trans hv.2.symm⟩)
      have hver : verificaVertice resto x y = false := by
        rw [← Bool.not_eq_true, verificaVertice_eq_true]
        rintro ⟨w, hw, hc⟩
        exact hresto w hw hc
      rw [if_pos ⟨hv, hver⟩, List.map_cons, if_pos hv]
      congr 1
      symm
      calc resto.map
            (fun v => if v.x = x ∧ v.y = y then { v with arestas := d :: v.arestas } else v)
          = resto.map id := List.map_congr_left (fun w hw => by simp [hresto w hw])
        _ = resto := List.map_id _
    · rw [if_neg (fun h => hv h.1), List.map_cons, if_neg hv, ih hnd2.2]

theorem numArestas_ligarAresta (g : List Vertice) (x y : Int) (d : Coordenada)
    (hex : verificaVertice g x y = true) :
    numArestas (ligarAresta g x y d) = numArestas g + 1 := by
  induction g with
  | nil => simp [verificaVertice] at hex
  | cons v resto ih =>
    unfold ligarAresta
    by_cases hc : (v.x = x ∧ v.y = y) ∧ verificaVertice resto x y = false
    · rw [if_pos hc]
      simp only [numArestas, List.map_cons, List.sum_cons, List.length_cons]
      omega
    · rw [if_neg hc]
      have hr : verificaVertice resto x y = true := by
        unfold verificaVertice at hex
        by_cases hv : v.x = x ∧ v.y = y
        · cases hb : verificaVertice resto x y with
          | true => rfl
          | false => exact absurd ⟨hv, hb⟩ hc
        · simpa [hv] using hex
      have := ih hr
      simp only [numArestas, List.map_cons, List.sum_cons] at this ⊢
      omega

theorem conectarVertices_map (g : List Vertice) (hnd : (coordenadasVertices g).Nodup)
    (x1 y1 x2 y2 : Int) (hok : (conectarVertices g x1 y1 x2 y2).1 = true) :
    (conectarVertices g x1 y1 x2 y2).2 =
      g.map (fun v => { v with arestas := arestasAposConectar x1 y1 x2 y2 v }) := by
  unfold conectarVertices at hok ⊢
  cases h1 : ultimoVertice g x1 y1 with
  | none => simp [h1] at hok
  | some v1 =>
    cases h2 : ultimoVertice g x2 y2 with
    | none => simp [h1, h2] at hok
    | some v2 =>
      simp only [h1, h2] at hok ⊢
      obtain ⟨_, hx1, hy1⟩ := ultimoVertice_some g x1 y1 v1 h1
      obtain ⟨_, hx2, hy2⟩ := ultimoVertice_some g x2 y2 v2 h2
      split
      next hf => simp [hf] at hok
      · have hnd1 : (coordenadasVertices
            (ligarAresta g x1 y1 { x := v2.x, y := v2.y })).Nodup := by
          rw [coordenadasVertices_ligarAresta]
          exact hnd
        rw [ligarAresta_map _ hnd1, ligarAresta_map g hnd, List.map_map, hx1, hy1, hx2, hy2]
        apply List.map_congr_left
        intro v _
        unfold arestasAposConectar
        by_cases ha : v.x = x1 ∧ v.y = y1
        · by_cases hb : v.x = x2 ∧ v.y = y2
          · simp only [Function.comp_apply, if_pos ha, if_pos hb,
              List.singleton_append, List.nil_append, List.cons_append]
          · simp only [Function.comp_apply, if_pos ha, if_neg hb,
              List.singleton_append, List.nil_append, List.cons_append]
        · by_cases hb : v.x = x2 ∧ v.y = y2
          · simp only [Function.comp_apply, if_neg ha, if_pos hb,
              List.singleton_append, List.nil_append, List.cons_append]
          · simp only [Function.comp_apply, if_neg ha, if_neg hb,
              List.singleton_append, List.nil_append, List.cons_append]

theorem numArestas_conectarVertices (g : List Vertice) (x1 y1 x2 y2 : Int)
    (hok : (conectarVertices g x1 y1 x2 y2).1 = true) :
    numArestas (conectarVertices g x1 y1 x2 y2).2 = numArestas g + 2 := by
  unfold conectarVertices at hok ⊢
  cases h1 : ultimoVertice g x1 y1 with
  | none => simp [h1] at hok
  | some v1 =>
    cases h2 : ultimoVertice g x2 y2 with
    | none => simp [h1, h2] at hok
    | some v2 =>
      simp only [h1, h2] at hok ⊢
      obtain ⟨hv1, hx1, hy1⟩ := ultimoVertice_some g x1 y1 v1 h1
      obtain ⟨hv2, hx2, hy2⟩ := ultimoVertice_some g x2 y2 v2 h2
      split
      next hf => simp [hf] at hok
      · have he1 : verificaVertice g x1 y1 = true :=
          (verificaVertice_eq_true g x1 y1).2 ⟨v1, hv1, hx1, hy1⟩
        have he2 : verificaVertice (ligarAresta g x1 y1 { x := v2.x, y := v2.y }) x2 y2 =
            true := by
          rw [verificaVertice_antena, ligarAresta_antena, ← verificaVertice_antena]
          exact (verificaVertice_eq_true g x2 y2).2 ⟨v2, hv2, hx2, hy2⟩
        rw [numArestas_ligarAresta _ x2 y2 _ he2, numArestas_ligarAresta g x1 y1 _ he1]

/-! ## Removal from the registry -/

theorem removerAntena_decompoe (l : List Antena) (x y : Int)
    (h : ∃ a ∈ l, a.x = x ∧ a.y = y) :
    ∃ l1 a l2, l = l1 ++ a :: l2 ∧ (a.x = x ∧ a.y = y) ∧
      (∀ b ∈ l1, ¬ (b.x = x ∧ b.y = y)) ∧ removerAntena l x y = (l1 ++ l2, true) := by
  induction l with
  | nil => simp at h
  | cons c resto ih =>
    by_cases hc : c.x = x ∧ c.y = y
    · refine ⟨[], c, resto, rfl, hc, by simp, ?_⟩
      simp [removerAntena, hc]
    · obtain ⟨a, ha, hxy⟩ := h
      rcases List.mem_cons.1 ha with rfl | ha
      · exact absurd hxy hc
      · obtain ⟨l1, b, l2, hl, hb, hl1, hrem⟩ := ih ⟨a, ha, hxy⟩
        refine ⟨c :: l1, b, l2, by rw [hl]; rfl, hb, ?_, ?_⟩
        · intro d hd
          rcases List.mem_cons.1 hd with rfl | hd
          · exact hc
          · exact hl1 d hd
        · simp [removerAntena, hc, hrem]

theorem removerAntena_sem_alvo (l : List Antena) (x y : Int)
    (h : ∀ a ∈ l, ¬ (a.x = x ∧ a.y = y)) : removerAntena l x y = (l, false) := by
  induction l with
  | nil => rfl
  | cons c resto ih =>
    have hc := h c (List.mem_cons_self _ _)
    simp [removerAntena, hc, ih (fun a ha => h a (List.mem_cons_of_mem _ ha))]

/-! ## Where an insertion puts the new node -/

theorem inserirDepois_posicao (nova : Antena) :
    ∀ (resto : List Antena) (atual : Antena),
      chaveMenor atual.x atual.y nova.x nova.y →
      ∃ l1 l2, atual :: resto = l1 ++ l2 ∧ inserirDepois nova atual resto = l1 ++ nova :: l2 ∧
        (∀ a ∈ l1, chaveMenor a.x a.y nova.x nova.y) ∧
        (∀ a, l2.head? = some a → nova.x < a.x ∨ (nova.x = a.x ∧ nova.y ≤ a.y)) := by
  intro resto
  induction resto with
  | nil =>
    intro atual hlt
    refine ⟨[atual], [], rfl, rfl, ?_, by simp⟩
    intro a ha
    rw [List.mem_singleton.1 ha]
    exact hlt
  | cons prox resto ih =>
    intro atual hlt
    unfold inserirDepois
    split
    next hpara =>
      refine ⟨[atual], prox :: resto, rfl, rfl, ?_, ?_⟩
      · intro a ha
        rw [List.mem_singleton.1 ha]
        exact hlt
      · intro a ha
        simp only [List.head?_cons, Option.some.injEq] at ha
        subst ha
        omega
    next hsegue =>
      have hpn : chaveMenor prox.x prox.y nova.x nova.y := by
        unfold chaveMenor; omega
      obtain ⟨l1, l2, hl, hins, hl1, hl2⟩ := ih prox hpn
      refine ⟨atual :: l1, l2, by rw [hl]; rfl, by rw [hins]; rfl, ?_, hl2⟩
      intro a ha
      rcases List.mem_cons.1 ha with rfl | ha
      · exact hlt
      · exact hl1 a ha

theorem inserirVerticeDepois_posicao (novo : Vertice) :
    ∀ (resto : List Vertice) (atual : Vertice),
      ∃ l1 l2, atual :: resto = l1 ++ l2 ∧
        inserirVerticeDepois novo atual resto = l1 ++ novo :: l2 := by
  intro resto
  induction resto with
  | nil => intro atual; exact ⟨[atual], [], rfl, rfl⟩
  | cons prox resto ih =>
    intro atual
    unfold inserirVerticeDepois
    split
    · exact ⟨[atual], prox :: resto, rfl, rfl⟩
    · obtain ⟨l1, l2, hl, hins⟩ := ih prox
      exact ⟨atual :: l1, l2, by rw [hl]; rfl, by rw [hins]; rfl⟩

theorem inserirVertice_posicao (g : List Vertice) (f : Char) (x y : Int)
    (hne : inserirVertice g f x y ≠ []) :
    ∃ l1 l2, g = l1 ++ l2 ∧ inserirVertice g f x y = l1 ++ criarVertice f x y :: l2 := by
  unfold inserirVertice at hne ⊢
  split
  next hv => simp [hv] at hne
  · cases g with
    | nil => exact ⟨[], [], rfl, rfl⟩
    | cons cab resto =>
      simp only
      split
      · exact ⟨[], cab :: resto, rfl, rfl⟩
      · exact inserirVerticeDepois_posicao _ resto cab

/-! ## The start vertex in the traversal results -/

theorem busca_contem_inicio (g : List Vertice) (n : Nat) (v : Vertice)
    (V R R1 : List Coordenada)
    (h : buscaProfundidadeRecursiva g n (some v) V R = some R1)
    (hv : existePosicao V v.x v.y = false) :
    ({ x := v.x, y := v.y } : Coordenada) ∈ R1 := by
  cases n with
  | zero => simp [buscaProfundidadeRecursiva] at h
  | succ n =>
    simp only [buscaProfundidadeRecursiva, hv, Bool.false_eq_true, if_false] at h
    have hmono := foldlM_some_rel
      (fun r a => buscaProfundidadeRecursiva g n (destino g a)
        (adicionarPosicao V v.x v.y) r)
      (fun r r1 => r ⊆ r1) (fun _ => List.Subset.refl _)
      (fun _ _ _ h1 h2 => h1.trans h2) v.arestas
      (fun a _ r r1 hr => (busca_basico g _ _ _ _ _ hr).1) _ _ h
    exact hmono ((mem_adicionarPosicao R v.x v.y _).2 (Or.inl rfl))

theorem procuraProfundidade_inicio (g : List Vertice) (x y : Int) (v : Vertice)
    (hv : procuraVertice g x y = some v) :
    ∃ r, procuraProfundidade g x y = some r ∧ ({ x := x, y := y } : Coordenada) ∈ r := by
  obtain ⟨hvg, hvx, hvy⟩ := procuraVertice_some g x y v hv
  have hov : ∀ w, some v = some w → w ∈ g := fun w hw => by cases hw; exact hvg
  obtain ⟨r, hr⟩ := busca_total g (g.length + 1) (some v) [] []
    hov (Nat.lt_succ_of_le (naoVisitados_le g []))
  refine ⟨r, by simp only [procuraProfundidade, hv, hr], ?_⟩
  have := busca_contem_inicio g _ v [] [] r hr rfl
  rwa [hvx, hvy] at this

/-! ## Insertion order and insertion followed by removal -/

theorem inserirAntena_decompoe (l : List Antena) (f : Char) (x y : Int)
    (hlivre : ∀ a ∈ l, ¬ (a.x = x ∧ a.y = y)) :
    ∃ l1 l2, l = l1 ++ l2 ∧
      inserirAntena l f x y = l1 ++ { frequencia := f, x := x, y := y } :: l2 := by
  unfold inserirAntena
  rw [if_neg (by simpa using (verificaAntena_eq_false l x y).2 hlivre)]
  cases l with
  | nil => exact ⟨[], [], rfl, rfl⟩
  | cons cab resto =>
    simp only
    split
    · exact ⟨[], cab :: resto, rfl, rfl⟩
    next hmaior =>
      have hcab := hlivre cab (List.mem_cons_self _ _)
      obtain ⟨l1, l2, h1, h2, _, _⟩ :=
        inserirDepois_posicao { frequencia := f, x := x, y := y } resto cab
          (by show chaveMenor cab.x cab.y x y; unfold chaveMenor; omega)
      exact ⟨l1, l2, h1, h2⟩

theorem removerAntena_meio (l1 l2 : List Antena) (a : Antena) (x y : Int)
    (ha : a.x = x ∧ a.y = y) (hl1 : ∀ b ∈ l1, ¬ (b.x = x ∧ b.y = y)) :
    removerAntena (l1 ++ a :: l2) x y = (l1 ++ l2, true) := by
  induction l1 with
  | nil => simp [removerAntena, ha]
  | cons c resto ih =>
    have hc := hl1 c (List.mem_cons_self _ _)
    simp [removerAntena, hc, ih (fun b hb => hl1 b (List.mem_cons_of_mem _ hb))]

theorem foldl_inserirAntena (novas : List Antena) :
    ∀ acc : List Antena, RegistoOrdenado acc →
      (coordenadasAntenas acc ++ coordenadasAntenas novas).Nodup →
      RegistoOrdenado
          (novas.foldl (fun lista a => inserirAntena lista a.frequencia a.x a.y) acc) ∧
        (novas.foldl (fun lista a => inserirAntena lista a.frequencia a.x a.y) acc).Perm
          (novas ++ acc) := by
  induction novas with
  | nil => intro acc hord _; exact ⟨hord, List.Perm.refl _⟩
  | cons a resto ih =>
    intro acc hord hnd
    have hlivre : ∀ b ∈ acc, ¬ (b.x = a.x ∧ b.y = a.y) := by
      intro b hb hxy
      have hdis := (List.nodup_append.1 hnd).2.2
      refine @hdis { x := a.x, y := a.y } ?_ ?_
      · exact List.mem_map.2 ⟨b, hb, by rw [hxy.1, hxy.2]⟩
      · exact List.mem_map.2 ⟨a, List.mem_cons_self _ _, rfl⟩
    have hperm : (inserirAntena acc a.frequencia a.x a.y).Perm (a :: acc) :=
      inserirAntena_perm acc a.frequencia a.x a.y hlivre
    have hnd2 : (coordenadasAntenas (inserirAntena acc a.frequencia a.x a.y) ++
        coordenadasAntenas resto).Nodup := by
      have h1 : (coordenadasAntenas (inserirAntena acc a.frequencia a.x a.y) ++
          coordenadasAntenas resto).Perm
          (coordenadasAntenas acc ++ coordenadasAntenas (a :: resto)) := by
        unfold coordenadasAntenas
        rw [← List.map_append, ← List.map_append]
        refine List.Perm.map _ ?_
        exact (List.Perm.append_right _ hperm).trans
          (List.perm_middle : (acc ++ a :: resto).Perm (a :: (acc ++ resto))).symm
      exact (List.Perm.nodup_iff h1).2 hnd
    obtain ⟨ho, hp⟩ := ih _ (inserirAntena_ordenado acc a.frequencia a.x a.y hord) hnd2
    refine ⟨ho, hp.trans ?_⟩
    exact (List.Perm.append_left resto hperm).trans
      (List.perm_middle : (resto ++ a :: acc).Perm (a :: (resto ++ acc)))

theorem inserirTodas_ordenado_perm (novas : List Antena)
    (hnd : (coordenadasAntenas novas).Nodup) :
    RegistoOrdenado (inserirTodas novas) ∧ (inserirTodas novas).Perm novas := by
  have h := foldl_inserirAntena novas [] List.Pairwise.nil (by simpa [coordenadasAntenas] using hnd)
  exact ⟨h.1, by simpa using h.2⟩

theorem registoOrdenado_unico (l1 l2 : List Antena) (hp : l1.Perm l2)
    (h1 : RegistoOrdenado l1) (h2 : RegistoOrdenado l2) : l1 = l2 := by
  haveI : IsAntisymm Antena (fun a b => chaveMenor a.x a.y b.x b.y) :=
    ⟨fun a b hab hba => by
      unfold chaveMenor at hab hba
      omega⟩
  exact List.eq_of_perm_of_sorted hp h1 h2

/-! ## Frequency pairs -/

theorem mem_intersecoes_interno (a : Vertice) (freqB : Char) (c : Coordenada) :
    ∀ (bs : List Vertice) (res : List Coordenada),
      c ∈ bs.foldl
          (fun resultado b =>
            if b.frequencia ≠ freqB then resultado
            else adicionarPosicao (adicionarPosicao resultado a.x a.y) b.x b.y)
          res ↔
        c ∈ res ∨ ∃ b ∈ bs, b.frequencia = freqB ∧
          (c = { x := a.x, y := a.y } ∨ c = { x := b.x, y := b.y }) := by
  intro bs
  induction bs with
  | nil => intro res; simp
  | cons b resto ih =>
    intro res
    have hstep : c ∈ (if b.frequencia ≠ freqB then res
          else adicionarPosicao (adicionarPosicao res a.x a.y) b.x b.y) ↔
        c ∈ res ∨ (b.frequencia = freqB ∧
          (c = { x := a.x, y := a.y } ∨ c = { x := b.x, y := b.y })) := by
      by_cases hb : b.frequencia = freqB
      · rw [if_neg (by simp [hb]), mem_adicionarPosicao, mem_adicionarPosicao]
        tauto
      · rw [if_pos hb]
        tauto
    rw [List.foldl_cons, ih, hstep]
    simp only [List.mem_cons, exists_eq_or_imp, or_assoc]

theorem intersecoes_interno_nodup (a : Vertice) (freqB : Char) :
    ∀ (bs : List Vertice) (res : List Coordenada), res.Nodup →
      (bs.foldl
          (fun resultado b =>
            if b.frequencia ≠ freqB then resultado
            else adicionarPosicao (adicionarPosicao resultado a.x a.y) b.x b.y)
          res).Nodup := by
  intro bs
  induction bs with
  | nil => intro res h; exact h
  | cons b resto ih =>
    intro res h
    rw [List.foldl_cons]
    apply ih
    split
    · exact h
    · exact adicionarPosicao_nodup _ _ _ (adicionarPosicao_nodup _ _ _ h)

theorem mem_intersecoes_externo (g : List Vertice) (freqA freqB : Char) (c : Coordenada) :
    ∀ (as : List Vertice) (res : List Coordenada),
      c ∈ as.foldl
          (fun resultado a =>
            if a.frequencia ≠ freqA then resultado
            else
              g.foldl
                (fun resultado b =>
                  if b.frequencia ≠ freqB then resultado
                  else adicionarPosicao (adicionarPosicao resultado a.x a.y) b.x b.y)
                resultado)
          res ↔
        c ∈ res ∨ ∃ a ∈ as, a.frequencia = freqA ∧ ∃ b ∈ g, b.frequencia = freqB ∧
          (c = { x := a.x, y := a.y } ∨ c = { x := b.x, y := b.y }) := by
  intro as
  induction as with
  | nil => intro res; simp
  | cons a resto ih =>
    intro res
    have hstep : c ∈ (if a.frequencia ≠ freqA then res
          else
            g.foldl
              (fun resultado b =>
                if b.frequencia ≠ freqB then resultado
                else adicionarPosicao (adicionarPosicao resultado a.x a.y) b.x b.y)
              res) ↔
        c ∈ res ∨ (a.frequencia = freqA ∧ ∃ b ∈ g, b.frequencia = freqB ∧
          (c = { x := a.x, y := a.y } ∨ c = { x := b.x, y := b.y })) := by
      by_cases ha : a.frequencia = freqA
      · rw [if_neg (by simp [ha]), mem_intersecoes_interno]
        simp only [ha, true_and]
      · rw [if_pos ha]
        simp only [ha, false_and, or_false]
    rw [List.foldl_cons, ih, hstep]
    simp only [List.mem_cons, exists_eq_or_imp, or_assoc]

theorem intersecoes_externo_nodup (g : List Vertice) (freqA freqB : Char) :
    ∀ (as : List Vertice) (res : List Coordenada), res.Nodup →
      (as.foldl
          (fun resultado a =>
            if a.frequencia ≠ freqA then resultado
            else
              g.foldl
                (fun resultado b =>
                  if b.frequencia ≠ freqB then resultado
                  else adicionarPosicao (adicionarPosicao resultado a.x a.y) b.x b.y)
                resultado)
          res).Nodup := by
  intro as
  induction as with
  | nil => intro res h; exact h
  | cons a resto ih =>
    intro res h
    rw [List.foldl_cons]
    apply ih
    split
    · exact h
    · exact intersecoes_interno_nodup a freqB g res h

theorem mem_intersecoesFrequencias (g : List Vertice) (freqA freqB : Char) (c : Coordenada) :
    c ∈ intersecoesFrequencias g freqA freqB ↔
      ∃ a ∈ g, a.frequencia = freqA ∧ ∃ b ∈ g, b.frequencia = freqB ∧
        (c = { x := a.x, y := a.y } ∨ c = { x := b.x, y := b.y }) := by
  unfold intersecoesFrequencias
  rw [mem_intersecoes_externo]
  simp

/-! ## Termination of the traversals -/

theorem procuraProfundidade_total (g : List Vertice) (x y : Int) :
    ∃ r, procuraProfundidade g x y = some r := by
  cases hv : procuraVertice g x y with
  | none => exact ⟨[], by simp only [procuraProfundidade, hv]⟩
  | some v =>
    obtain ⟨r, hr, _⟩ := procuraProfundidade_inicio g x y v hv
    exact ⟨r, hr⟩

/-! ## Path enumeration: what the result holds -/

theorem mem_foldl_adicionarPosicao (c : Coordenada) :
    ∀ (cs acc : List Coordenada),
      c ∈ cs.foldl (fun resultado aux => adicionarPosicao resultado aux.x aux.y) acc ↔
        c ∈ acc ∨ c ∈ cs := by
  intro cs
  induction cs with
  | nil => intro acc; simp
  | cons d resto ih =>
    intro acc
    rw [List.foldl_cons, ih, mem_adicionarPosicao, List.mem_cons]
    have hd : ({ x := d.x, y := d.y } : Coordenada) = d := rfl
    rw [hd]
    tauto

theorem caminhoSimples_cons (g : List Vertice) (V W : List Coordenada) (a w b : Coordenada)
    (q : List Coordenada) (hW : ∀ c, c ∈ W ↔ c = a ∨ c ∈ V) (ha : a ∉ V)
    (hadj : Adjacente g a w) (hq : CaminhoSimplesEvitando g W w b q) :
    CaminhoSimplesEvitando g V a b (a :: q) := by
  obtain ⟨hch, hnd, hav, hhead, hlast⟩ := hq
  have haq : a ∉ q := fun h => hav a h ((hW a).2 (Or.inl rfl))
  refine ⟨?_, List.nodup_cons.2 ⟨haq, hnd⟩, ?_, rfl, ?_⟩
  · refine List.Chain'.cons' hch ?_
    intro y hy
    rw [hhead] at hy
    cases hy
    exact hadj
  · intro c hc
    rcases List.mem_cons.1 hc with rfl | hc
    · exact ha
    · exact fun hcV => hav c hc ((hW c).2 (Or.inr hcV))
  · cases q with
    | nil => simp at hhead
    | cons d t => rw [List.getLast?_cons_cons]; exact hlast

theorem caminhoSimples_cauda (g : List Vertice) (V W : List Coordenada) (a b : Coordenada)
    (q : List Coordenada) (hW : ∀ c, c ∈ W ↔ c = a ∨ c ∈ V) (hab : a ≠ b)
    (hq : CaminhoSimplesEvitando g V a b q) :
    ∃ w t, q = a :: w :: t ∧ Adjacente g a w ∧ CaminhoSimplesEvitando g W w b (w :: t) := by
  obtain ⟨hch, hnd, hav, hhead, hlast⟩ := hq
  obtain ⟨t, rfl⟩ := List.head?_eq_some_iff.1 hhead
  cases t with
  | nil =>
    simp only [List.getLast?_singleton, Option.some.injEq] at hlast
    exact absurd hlast hab
  | cons w t =>
    rw [List.getLast?_cons_cons] at hlast
    rw [List.chain'_cons] at hch
    refine ⟨w, t, rfl, hch.1, hch.2, (List.nodup_cons.1 hnd).2, ?_, rfl, hlast⟩
    intro c hc hcW
    rcases (hW c).1 hcW with rfl | hcV
    · exact (List.nodup_cons.1 hnd).1 hc
    · exact hav c (List.mem_cons_of_mem _ hc) hcV

theorem caminhoSimples_alcanca (g : List Vertice) (V : List Coordenada) :
    ∀ (q : List Coordenada) (a b : Coordenada), CaminhoSimplesEvitando g V a b q →
      Alcanca g a b := by
  intro q
  induction q with
  | nil => intro a b h; simp [CaminhoSimplesEvitando] at h
  | cons c t ih =>
    intro a b h
    obtain ⟨hch, hnd, hav, hhead, hlast⟩ := h
    simp only [List.head?_cons, Option.some.injEq] at hhead
    subst hhead
    cases t with
    | nil =>
      simp only [List.getLast?_singleton, Option.some.injEq] at hlast
      subst hlast
      exact Relation.ReflTransGen.refl
    | cons w t =>
      rw [List.getLast?_cons_cons] at hlast
      rw [List.chain'_cons] at hch
      exact Relation.ReflTransGen.head hch.1
        (ih w b ⟨hch.2, (List.nodup_cons.1 hnd).2,
          fun d hd => hav d (List.mem_cons_of_mem _ hd), rfl, hlast⟩)

theorem adicionarPosicao_ultimo (l : List Coordenada) (x y : Int) (hne : l ≠ []) :
    adicionarPosicao l x y ≠ [] ∧ (adicionarPosicao l x y).getLast? = l.getLast? := by
  unfold adicionarPosicao
  split
  · exact ⟨hne, rfl⟩
  · cases l with
    | nil => exact absurd rfl hne
    | cons d t => exact ⟨by simp, List.getLast?_cons_cons⟩

theorem foldl_adicionarPosicao_ultimo :
    ∀ (cs l : List Coordenada), l ≠ [] →
      cs.foldl (fun resultado aux => adicionarPosicao resultado aux.x aux.y) l ≠ [] ∧
        (cs.foldl (fun resultado aux => adicionarPosicao resultado aux.x aux.y) l).getLast? =
          l.getLast? := by
  intro cs
  induction cs with
  | nil => intro l hne; exact ⟨hne, rfl⟩
  | cons d resto ih =>
    intro l hne
    obtain ⟨h1, h2⟩ := adicionarPosicao_ultimo l d.x d.y hne
    obtain ⟨h3, h4⟩ := ih _ h1
    exact ⟨h3, h4.trans h2⟩

/-! ## Depth-first traversal: order of the result -/

theorem foldlM_some_inv_hit {α β : Type} (f : β → α → Option β) (J : β → Prop)
    (P : α → β → Prop) (as : List α)
    (hstep : ∀ a ∈ as, ∀ r r1, J r → f r a = some r1 → J r1 ∧ P a r1)
    (hkeep : ∀ a b r r1, f r b = some r1 → P a r → P a r1) :
    ∀ r r1, J r → as.foldlM f r = some r1 → J r1 ∧ ∀ a ∈ as, P a r1 := by
  induction as with
  | nil =>
    intro r r1 hJ h
    simp only [List.foldlM_nil, Option.pure_def, Option.some.injEq] at h
    subst h
    exact ⟨hJ, fun a ha => by simp at ha⟩
  | cons a resto ih =>
    intro r r1 hJ h
    simp only [List.foldlM_cons, Option.bind_eq_bind, Option.bind_eq_some] at h
    obtain ⟨r2, h2, h3⟩ := h
    obtain ⟨hJ2, hP2⟩ := hstep a (List.mem_cons_self _ _) r r2 hJ h2
    obtain ⟨hJ1, hP1⟩ := ih (fun b hb => hstep b (List.mem_cons_of_mem _ hb)) r2 r1 hJ2 h3
    refine ⟨hJ1, fun b hb => ?_⟩
    rcases List.mem_cons.1 hb with rfl | hb
    · exact foldlM_some_rel f (fun x z => P b x → P b z) (fun _ hx => hx)
        (fun _ _ _ h1 h2 hx => h2 (h1 hx)) resto
        (fun c _ x z hxz => hkeep b c x z hxz) r2 r1 h3 hP2
    · exact hP1 b hb

theorem busca_revisita (g : List Vertice) :
    ∀ (n : Nat) (ov : Option Vertice) (V R R1 : List Coordenada),
      (∀ v, ov = some v → v ∈ g) → FechadoFora g V R →
      (∀ v, ov = some v → ({ x := v.x, y := v.y } : Coordenada) ∈ R) →
      buscaProfundidadeRecursiva g n ov V R = some R1 → R1 = R := by
  intro n
  induction n with
  | zero => intro ov V R R1 _ _ _ h; simp [buscaProfundidadeRecursiva] at h
  | succ n ih =>
    intro ov V R R1 hov hfe hin h
    cases ov with
    | none =>
      simp only [buscaProfundidadeRecursiva, Option.some.injEq] at h
      exact h.symm
    | some v =>
      have hvg : v ∈ g := hov v rfl
      have hvR : ({ x := v.x, y := v.y } : Coordenada) ∈ R := hin v rfl
      simp only [buscaProfundidadeRecursiva] at h
      split at h
      · simp only [Option.some.injEq] at h
        exact h.symm
      next hvis =>
        have hvV : ({ x := v.x, y := v.y } : Coordenada) ∉ V :=
          (existePosicao_eq_false V v.x v.y).1 (by simpa using hvis)
        have hR : adicionarPosicao R v.x v.y = R := by
          simp [adicionarPosicao, (existePosicao_eq_true R v.x v.y).2 hvR]
        rw [hR] at h
        have hfe2 : FechadoFora g (adicionarPosicao V v.x v.y) R := by
          intro u hu huV d hd
          exact hfe u hu (fun hh => huV ((mem_adicionarPosicao V v.x v.y u).2 (Or.inr hh))) d hd
        exact foldlM_some_rel
          (fun r a => buscaProfundidadeRecursiva g n (destino g a)
            (adicionarPosicao V v.x v.y) r)
          (fun r r1 => r = R → r1 = R) (fun _ => id) (fun _ _ _ h1 h2 hx => h2 (h1 hx))
          v.arestas
          (by
            intro a ha r r1 hr hrR
            subst hrR
            refine ih _ _ _ _ (fun w hw => (procuraVertice_some g _ _ w hw).1) hfe2 ?_ hr
            intro w hw
            obtain ⟨_, hx, hy⟩ := procuraVertice_some g _ _ w hw
            rw [hx, hy]
            exact hfe _ hvR hvV a ⟨v, hvg, rfl, rfl, ha⟩)
          _ _ h rfl

theorem busca_fecha (g : List Vertice) (hbf : BemFormado g) :
    ∀ (n : Nat) (ov : Option Vertice) (V R R1 : List Coordenada),
      (∀ v, ov = some v → v ∈ g) → V ⊆ R → FechadoFora g V R →
      buscaProfundidadeRecursiva g n ov V R = some R1 →
      FechadoFora g V R1 ∧
        ∀ v, ov = some v → ({ x := v.x, y := v.y } : Coordenada) ∈ R1 := by
  intro n
  induction n with
  | zero => intro ov V R R1 _ _ _ h; simp [buscaProfundidadeRecursiva] at h
  | succ n ih =>
    intro ov V R R1 hov hVR hfe h
    cases ov with
    | none =>
      simp only [buscaProfundidadeRecursiva, Option.some.injEq] at h
      subst h
      exact ⟨hfe, fun v hv => by cases hv⟩
    | some v =>
      have hvg : v ∈ g := hov v rfl
      simp only [buscaProfundidadeRecursiva] at h
      split at h
      next hvis =>
        simp only [Option.some.injEq] at h
        subst h
        refine ⟨hfe, fun w hw => ?_⟩
        cases hw
        exact hVR ((existePosicao_eq_true V v.x v.y).1 hvis)
      next hvis =>
        have hdestg : ∀ (a : Coordenada) (w : Vertice), destino g a = some w → w ∈ g :=
          fun a w hw => (procuraVertice_some g _ _ w hw).1
        have hmono : ∀ (a : Coordenada) (r r1 : List Coordenada),
            buscaProfundidadeRecursiva g n (destino g a) (adicionarPosicao V v.x v.y) r =
              some r1 → r ⊆ r1 :=
          fun a r r1 hr => (busca_basico g _ _ _ _ _ hr).1
        have hJ0 : adicionarPosicao V v.x v.y ⊆ adicionarPosicao R v.x v.y ∧
            FechadoFora g (adicionarPosicao V v.x v.y) (adicionarPosicao R v.x v.y) := by
          constructor
          · intro c hc
            rcases (mem_adicionarPosicao V v.x v.y c).1 hc with rfl | hc
            · exact (mem_adicionarPosicao R v.x v.y _).2 (Or.inl rfl)
            · exact (mem_adicionarPosicao R v.x v.y c).2 (Or.inr (hVR hc))
          · intro u hu huV d hd
            have hu1 : u ≠ { x := v.x, y := v.y } :=
              fun he => huV ((mem_adicionarPosicao V v.x v.y u).2 (Or.inl he))
            have hu2 : u ∉ V :=
              fun hh => huV ((mem_adicionarPosicao V v.x v.y u).2 (Or.inr hh))
            rcases (mem_adicionarPosicao R v.x v.y u).1 hu with he | huR
            · exact absurd he hu1
            · exact (mem_adicionarPosicao R v.x v.y d).2 (Or.inr (hfe u huR hu2 d hd))
        obtain ⟨⟨hV1, hfe1⟩, hviz⟩ := foldlM_some_inv_hit
          (fun r a => buscaProfundidadeRecursiva g n (destino g a)
            (adicionarPosicao V v.x v.y) r)
          (fun r => adicionarPosicao V v.x v.y ⊆ r ∧
            FechadoFora g (adicionarPosicao V v.x v.y) r)
          (fun a r => a ∈ r) v.arestas
          (by
            intro a ha r r1 hJ hr
            obtain ⟨hf1, hin1⟩ := ih _ _ _ _ (hdestg a) hJ.1 hJ.2 hr
            obtain ⟨w, hdw, _, hwx, hwy⟩ := destino_some g a (hbf.2 v hvg a ha)
            refine ⟨⟨hJ.1.trans (hmono a r r1 hr), hf1⟩, ?_⟩
            have := hin1 w hdw
            rwa [hwx, hwy] at this)
          (fun a b r r1 hr hP => hmono b r r1 hr hP)
          _ _ hJ0 h
        refine ⟨?_, fun w hw => ?_⟩
        · intro u hu huV d hd
          by_cases he : u = { x := v.x, y := v.y }
          · subst he
            obtain ⟨u1, hug, hux, huy, hdu⟩ := hd
            have huv : u1 = v := vertice_unico g hbf.1 u1 v hug hvg hux huy
            subst huv
            exact hviz d hdu
          · refine hfe1 u hu ?_ d hd
            intro hh
            rcases (mem_adicionarPosicao V v.x v.y u).1 hh with h1 | h1
            · exact he h1
            · exact huV h1
        · cases hw
          exact hV1 ((mem_adicionarPosicao V v.x v.y _).2 (Or.inl rfl))

theorem busca_igual_referencia (g : List Vertice) (hbf : BemFormado g) :
    ∀ (n : Nat) (ov : Option Vertice) (V R R1 : List Coordenada),
      (∀ v, ov = some v → v ∈ g) → V ⊆ R → FechadoFora g V R →
      buscaProfundidadeRecursiva g n ov V R = some R1 →
      profundidadeVisitadosUnicos g n ov (R, R) = some (R1, R1) := by
  intro n
  induction n with
  | zero => intro ov V R R1 _ _ _ h; simp [buscaProfundidadeRecursiva] at h
  | succ n ih =>
    intro ov V R R1 hov hVR hfe h
    cases ov with
    | none =>
      simp only [buscaProfundidadeRecursiva, Option.some.injEq] at h
      subst h
      rfl
    | some v =>
      have hvg : v ∈ g := hov v rfl
      by_cases hR : existePosicao R v.x v.y = true
      · have hR1 : R1 = R :=
          busca_revisita g _ _ V R R1 hov hfe
            (fun w hw => by cases hw; exact (existePosicao_eq_true R v.x v.y).1 hR) h
        subst hR1
        simp only [profundidadeVisitadosUnicos, hR, if_true]
      · have hRf : existePosicao R v.x v.y = false := by simpa using hR
        have hvR : ({ x := v.x, y := v.y } : Coordenada) ∉ R :=
          (existePosicao_eq_false R v.x v.y).1 hRf
        have hVf : existePosicao V v.x v.y = false :=
          (existePosicao_eq_false V v.x v.y).2 (fun hh => hvR (hVR hh))
        simp only [buscaProfundidadeRecursiva, hVf, Bool.false_eq_true, if_false] at h
        simp only [profundidadeVisitadosUnicos, hRf, Bool.false_eq_true, if_false]
        have hJ0 : adicionarPosicao V v.x v.y ⊆ adicionarPosicao R v.x v.y ∧
            FechadoFora g (adicionarPosicao V v.x v.y) (adicionarPosicao R v.x v.y) := by
          constructor
          · intro c hc
            rcases (mem_adicionarPosicao V v.x v.y c).1 hc with rfl | hc
            · exact (mem_adicionarPosicao R v.x v.y _).2 (Or.inl rfl)
            · exact (mem_adicionarPosicao R v.x v.y c).2 (Or.inr (hVR hc))
          · intro u hu huV d hd
            have hu1 : u ≠ { x := v.x, y := v.y } :=
              fun he => huV ((mem_adicionarPosicao V v.x v.y u).2 (Or.inl he))
            have hu2 : u ∉ V :=
              fun hh => huV ((mem_adicionarPosicao V v.x v.y u).2 (Or.inr hh))
            rcases (mem_adicionarPosicao R v.x v.y u).1 hu with he | huR
            · exact absurd he hu1
            · exact (mem_adicionarPosicao R v.x v.y d).2 (Or.inr (hfe u huR hu2 d hd))
        have hfold : ∀ (as : List Coordenada) (r r1 : List Coordenada),
            (adicionarPosicao V v.x v.y ⊆ r ∧
              FechadoFora g (adicionarPosicao V v.x v.y) r) →
            as.foldlM
              (fun r a => buscaProfundidadeRecursiva g n (destino g a)
                (adicionarPosicao V v.x v.y) r) r = some r1 →
            as.foldlM
              (fun s a => profundidadeVisitadosUnicos g n (destino g a) s) (r, r) =
              some (r1, r1) := by
          intro as
          induction as with
          | nil =>
            intro r r1 _ hr
            simp only [List.foldlM_nil, Option.pure_def, Option.some.injEq] at hr
            subst hr
            rfl
          | cons a resto ihl =>
            intro r r1 hJ hr
            simp only [List.foldlM_cons, Option.bind_eq_bind, Option.bind_eq_some] at hr ⊢
            obtain ⟨r2, h2, h3⟩ := hr
            have hdestg : ∀ w, destino g a = some w → w ∈ g :=
              fun w hw => (procuraVertice_some g _ _ w hw).1
            refine ⟨(r2, r2), ih _ _ _ _ hdestg hJ.1 hJ.2 h2, ?_⟩
            exact ihl r2 r1
              ⟨hJ.1.trans (busca_basico g _ _ _ _ _ h2).1,
                (busca_fecha g hbf _ _ _ _ _ hdestg hJ.1 hJ.2 h2).1⟩ h3
        exact hfold v.arestas _ R1 hJ0 h

/-! ## Loading a grid -/

theorem inserirDepois_fim (nova : Antena) :
    ∀ (resto : List Antena) (atual : Antena),
      (∀ a ∈ resto, chaveMenor a.x a.y nova.x nova.y) →
      inserirDepois nova atual resto = atual :: resto ++ [nova] := by
  intro resto
  induction resto with
  | nil => intro atual _; rfl
  | cons prox resto ih =>
    intro atual h
    have hp := h prox (List.mem_cons_self _ _)
    unfold chaveMenor at hp
    unfold inserirDepois
    rw [if_neg (by omega), ih prox (fun a ha => h a (List.mem_cons_of_mem _ ha))]
    rfl

theorem inserirAntena_fim (l : List Antena) (f : Char) (x y : Int)
    (h : ∀ a ∈ l, chaveMenor a.x a.y x y) :
    inserirAntena l f x y = l ++ [{ frequencia := f, x := x, y := y }] := by
  have hlivre : ∀ a ∈ l, ¬ (a.x = x ∧ a.y = y) := by
    intro a ha hxy
    have := h a ha
    unfold chaveMenor at this
    omega
  unfold inserirAntena
  rw [if_neg (by simpa using (verificaAntena_eq_false l x y).2 hlivre)]
  cases l with
  | nil => rfl
  | cons cab resto =>
    have hc := h cab (List.mem_cons_self _ _)
    unfold chaveMenor at hc
    simp only
    rw [if_neg (by omega)]
    exact inserirDepois_fim { frequencia := f, x := x, y := y } resto cab
      (fun a ha => h a (List.mem_cons_of_mem _ ha))

theorem mem_antenasDaLinha (x : Int) :
    ∀ (l : List Char) (y : Int) (a : Antena), a ∈ antenasDaLinha x l y →
      a.x = x ∧ y ≤ a.y := by
  intro l
  induction l with
  | nil => intro y a h; simp [antenasDaLinha] at h
  | cons c resto ih =>
    intro y a h
    unfold antenasDaLinha at h
    split at h
    · rcases List.mem_cons.1 h with rfl | h
      · exact ⟨rfl, le_refl _⟩
      · have := ih (y + 1) a h
        exact ⟨this.1, by omega⟩
    · have := ih (y + 1) a h
      exact ⟨this.1, by omega⟩

theorem carregarAntenasCiclo_cons (c : Char) (resto : List Char) (lista : List Antena)
    (x y colunas : Int) (hfim : c ≠ fimDeFicheiro) :
    carregarAntenasCiclo (c :: resto) lista x y colunas =
      if c = '\n' then
        if colunas = 0 then
          carregarAntenasCiclo resto lista (x + 1) 0 y
        else if y ≠ colunas then
          ([], lista)
        else
          carregarAntenasCiclo resto lista (x + 1) 0 colunas
      else if c ≠ '.' then
        if inserirAntena lista c x y = [] then
          ([], lista)
        else
          carregarAntenasCiclo resto (inserirAntena lista c x y) x (y + 1) colunas
      else
        carregarAntenasCiclo resto lista x (y + 1) colunas := by
  rw [carregarAntenasCiclo, if_neg hfim]

theorem carregarAntenasCiclo_fim (resto : List Char) (lista : List Antena)
    (x y colunas : Int) :
    carregarAntenasCiclo (fimDeFicheiro :: resto) lista x y colunas = (lista, lista) := by
  rw [carregarAntenasCiclo, if_pos rfl]

theorem newline_ne_fim : '\n' ≠ fimDeFicheiro := by decide

theorem carregarAntenasCiclo_linha (x colunas : Int) (resto : List Char) :
    ∀ (l : List Char) (lista : List Antena) (y : Int), LinhaValida l →
      (∀ a ∈ lista, chaveMenor a.x a.y x y) →
      carregarAntenasCiclo (l ++ resto) lista x y colunas =
        carregarAntenasCiclo resto (lista ++ antenasDaLinha x l y) x (y + l.length) colunas := by
  intro l
  induction l with
  | nil =>
    intro lista y _ _
    simp [antenasDaLinha]
  | cons c cs ih =>
    intro lista y hnl hkeys
    have hc : c ≠ '\n' := fun h => hnl.1 (by rw [h]; exact List.mem_cons_self _ _)
    have hcf : c ≠ fimDeFicheiro := fun h => hnl.2 (by rw [h]; exact List.mem_cons_self _ _)
    have hcs : LinhaValida cs :=
      ⟨fun h => hnl.1 (List.mem_cons_of_mem _ h), fun h => hnl.2 (List.mem_cons_of_mem _ h)⟩
    have hlen : y + ((c :: cs).length : Int) = y + 1 + (cs.length : Int) := by
      simp only [List.length_cons, Nat.cast_add, Nat.cast_one]
      omega
    rw [hlen, List.cons_append, carregarAntenasCiclo_cons _ _ _ _ _ _ hcf, if_neg hc]
    simp only [antenasDaLinha]
    by_cases hp : c = '.'
    · rw [if_neg (by simp [hp]), if_neg (by simp [hp])]
      refine ih lista (y + 1) hcs ?_
      intro a ha
      have := hkeys a ha
      unfold chaveMenor at this ⊢
      omega
    · rw [if_pos hp, if_pos hp, inserirAntena_fim lista c x y hkeys, if_neg (by simp)]
      rw [ih _ (y + 1) hcs ?_]
      · simp
      · intro a ha
        rcases List.mem_append.1 ha with ha | ha
        · have := hkeys a ha
          unfold chaveMenor at this ⊢
          omega
        · rw [List.mem_singleton.1 ha]
          unfold chaveMenor
          simp

theorem carregarAntenasCiclo_newline (w : Nat) (hw : w ≠ 0) (resto : List Char)
    (lista : List Antena) (x colunas : Int) (hcol : colunas = 0 ∨ colunas = w) :
    carregarAntenasCiclo ('\n' :: resto) lista x w colunas =
      carregarAntenasCiclo resto lista (x + 1) 0 w := by
  have hw2 : (w : Int) ≠ 0 := by exact_mod_cast hw
  rw [carregarAntenasCiclo_cons _ _ _ _ _ _ newline_ne_fim, if_pos rfl]
  rcases hcol with h | h
  · rw [if_pos h]
  · rw [if_neg (by rw [h]; exact hw2), if_neg (by simp [h]), h]

theorem carregarAntenasCiclo_linhas (w : Nat) (hw : w ≠ 0) (resto : List Char) :
    ∀ (pre : List (List Char)) (lista : List Antena) (x : Int),
      (∀ l ∈ pre, LinhaValida l ∧ l.length = w) → (∀ a ∈ lista, a.x < x) →
      carregarAntenasCiclo (textoDaGrelha pre ++ resto) lista x 0 w =
        carregarAntenasCiclo resto (lista ++ antenasDaGrelha pre x) (x + pre.length) 0 w := by
  intro pre
  induction pre with
  | nil => intro lista x _ _; simp [textoDaGrelha, antenasDaGrelha]
  | cons l ls ih =>
    intro lista x hrows hkeys
    obtain ⟨hnl, hlen⟩ := hrows l (List.mem_cons_self _ _)
    have hk : ∀ a ∈ lista, chaveMenor a.x a.y x 0 :=
      fun a ha => Or.inl (hkeys a ha)
    have htext : textoDaGrelha (l :: ls) ++ resto =
        l ++ ('\n' :: (textoDaGrelha ls ++ resto)) := by
      simp [textoDaGrelha]
    rw [htext, carregarAntenasCiclo_linha x w _ l lista 0 hnl hk, hlen, zero_add,
      carregarAntenasCiclo_newline w hw _ _ x w (Or.inr rfl),
      ih _ (x + 1) (fun r hr => hrows r (List.mem_cons_of_mem _ hr)) ?_]
    · simp only [antenasDaGrelha, List.append_assoc, List.length_cons, Nat.cast_add,
        Nat.cast_one]
      rw [show x + 1 + (ls.length : Int) = x + ((ls.length : Int) + 1) by omega]
    · intro a ha
      rcases List.mem_append.1 ha with ha | ha
      · have := hkeys a ha
        omega
      · have := (mem_antenasDaLinha x l 0 a ha).1
        omega

theorem carregarAntenasCiclo_grelha (w : Nat) (hw : w ≠ 0) (resto : List Char)
    (l0 : List Char) (ls : List (List Char))
    (hrows : ∀ l ∈ l0 :: ls, LinhaValida l ∧ l.length = w) :
    carregarAntenasCiclo (textoDaGrelha (l0 :: ls) ++ resto) [] 0 0 0 =
      carregarAntenasCiclo resto (antenasDaGrelha (l0 :: ls) 0) ((l0 :: ls).length : Nat) 0 w := by
  obtain ⟨hnl, hlen⟩ := hrows l0 (List.mem_cons_self _ _)
  have htext : textoDaGrelha (l0 :: ls) ++ resto =
      l0 ++ ('\n' :: (textoDaGrelha ls ++ resto)) := by
    simp [textoDaGrelha]
  rw [htext, carregarAntenasCiclo_linha 0 0 _ l0 [] 0 hnl (by simp), hlen, zero_add,
    carregarAntenasCiclo_newline w hw _ _ 0 0 (Or.inl rfl),
    carregarAntenasCiclo_linhas w hw resto ls _ (0 + 1)
      (fun r hr => hrows r (List.mem_cons_of_mem _ hr)) ?_]
  · simp only [antenasDaGrelha, List.nil_append, List.length_cons, Nat.cast_add,
      Nat.cast_one]
    rw [show (0 : Int) + 1 + (ls.length : Int) = (ls.length : Int) + 1 by omega]
  · intro a ha
    have := (mem_antenasDaLinha 0 l0 0 a (by simpa using ha)).1
    omega

theorem carregarAntenasCiclo_ordenado :
    ∀ (texto : List Char) (lista : List Antena) (x y colunas : Int),
      RegistoOrdenado lista →
      RegistoOrdenado (carregarAntenasCiclo texto lista x y colunas).1 := by
  intro texto
  induction texto with
  | nil => intro lista x y colunas h; exact h
  | cons c resto ih =>
    intro lista x y colunas h
    by_cases hfim : c = fimDeFicheiro
    · rw [hfim, carregarAntenasCiclo_fim]
      exact h
    rw [carregarAntenasCiclo_cons _ _ _ _ _ _ hfim]
    split
    · split
      · exact ih _ _ _ _ h
      · split
        · exact List.Pairwise.nil
        · exact ih _ _ _ _ h
    · split
      · split
        · exact List.Pairwise.nil
        · exact ih _ _ _ _ (inserirAntena_ordenado lista c x y h)
      · exact ih _ _ _ _ h

theorem antenasDaLinha_ne_nil (x : Int) :
    ∀ (l : List Char) (y : Int), (∃ c ∈ l, c ≠ '.') → antenasDaLinha x l y ≠ [] := by
  intro l
  induction l with
  | nil => intro y h; simp at h
  | cons c resto ih =>
    intro y h
    unfold antenasDaLinha
    by_cases hc : c = '.'
    · rw [if_neg (by simp [hc])]
      apply ih
      obtain ⟨d, hd, hdp⟩ := h
      rcases List.mem_cons.1 hd with rfl | hd
      · exact absurd hc hdp
      · exact ⟨d, hd, hdp⟩
    · rw [if_pos hc]
      simp

theorem antenasDaGrelha_ne_nil :
    ∀ (ls : List (List Char)) (x : Int), (∃ l ∈ ls, ∃ c ∈ l, c ≠ '.') →
      antenasDaGrelha ls x ≠ [] := by
  intro ls
  induction ls with
  | nil => intro x h; simp at h
  | cons l resto ih =>
    intro x h
    unfold antenasDaGrelha
    obtain ⟨r, hr, hc⟩ := h
    rcases List.mem_cons.1 hr with rfl | hr
    · intro h0
      exact antenasDaLinha_ne_nil x r 0 hc (List.append_eq_nil.1 h0).1
    · intro h0
      exact ih (x + 1) ⟨r, hr, hc⟩ (List.append_eq_nil.1 h0).2

theorem getElem_cons_existe (c f : Char) (resto : List Char) (y ay : Int) :
    (∃ k : Nat, (c :: resto)[k]? = some f ∧ ay = y + k) ↔
      (c = f ∧ ay = y) ∨ ∃ k : Nat, resto[k]? = some f ∧ ay = y + 1 + k := by
  constructor
  · rintro ⟨k, hk, hy⟩
    cases k with
    | zero =>
      left
      simp only [List.getElem?_cons_zero, Option.some.injEq] at hk
      exact ⟨hk, by simpa using hy⟩
    | succ k =>
      right
      simp only [List.getElem?_cons_succ] at hk
      exact ⟨k, hk, by push_cast at hy; omega⟩
  · rintro (⟨hc, hy⟩ | ⟨k, hk, hy⟩)
    · exact ⟨0, by simp [hc], by simpa using hy⟩
    · exact ⟨k + 1, by simpa using hk, by push_cast; omega⟩

theorem mem_antenasDaLinha_iff (x : Int) :
    ∀ (l : List Char) (y : Int) (a : Antena), a ∈ antenasDaLinha x l y ↔
      a.x = x ∧ a.frequencia ≠ '.' ∧ ∃ k : Nat, l[k]? = some a.frequencia ∧ a.y = y + k := by
  intro l
  induction l with
  | nil => intro y a; simp [antenasDaLinha]
  | cons c resto ih =>
    intro y a
    rw [getElem_cons_existe]
    unfold antenasDaLinha
    by_cases hc : c = '.'
    · rw [if_neg (by simp [hc]), ih]
      constructor
      · rintro ⟨h1, h2, h3⟩
        exact ⟨h1, h2, Or.inr h3⟩
      · rintro ⟨h1, h2, h3 | h3⟩
        · exact absurd (h3.1.symm.trans hc) h2
        · exact ⟨h1, h2, h3⟩
    · rw [if_pos hc, List.mem_cons, ih]
      constructor
      · rintro (h | ⟨h1, h2, h3⟩)
        · subst h
          exact ⟨rfl, hc, Or.inl ⟨rfl, rfl⟩⟩
        · exact ⟨h1, h2, Or.inr h3⟩
      · rintro ⟨h1, h2, h3 | h3⟩
        · left
          cases a
          simp only [Antena.mk.injEq]
          exact ⟨h3.1.symm, h1, h3.2⟩
        · exact Or.inr ⟨h1, h2, h3⟩

theorem mem_antenasDaGrelha_iff :
    ∀ (ls : List (List Char)) (x : Int) (a : Antena), a ∈ antenasDaGrelha ls x ↔
      ∃ (r : Nat) (l : List Char), ls[r]? = some l ∧ a.x = x + r ∧ a.frequencia ≠ '.' ∧
        ∃ k : Nat, l[k]? = some a.frequencia ∧ a.y = k := by
  intro ls
  induction ls with
  | nil => intro x a; simp [antenasDaGrelha]
  | cons l0 resto ih =>
    intro x a
    unfold antenasDaGrelha
    rw [List.mem_append, mem_antenasDaLinha_iff, ih]
    constructor
    · rintro (⟨h1, h2, k, hk, hy⟩ | ⟨r, l, hr, h1, h2, h3⟩)
      · exact ⟨0, l0, by simp, by simpa using h1, h2, k, hk, by simpa using hy⟩
      · exact ⟨r + 1, l, by simpa using hr, by push_cast; omega, h2, h3⟩
    · rintro ⟨r, l, hr, h1, h2, k, hk, hy⟩
      cases r with
      | zero =>
        left
        simp only [List.getElem?_cons_zero, Option.some.injEq] at hr
        subst hr
        exact ⟨by simpa using h1, h2, k, hk, by simpa using hy⟩
      | succ r =>
        right
        simp only [List.getElem?_cons_succ] at hr
        exact ⟨r, l, hr, by push_cast at h1; omega, h2, k, hk, hy⟩

theorem carregarAntenas_grelha (w : Nat) (hw : w ≠ 0) (linhas : List (List Char))
    (hrect : ∀ l ∈ linhas, LinhaValida l ∧ l.length = w) :
    carregarAntenas (textoDaGrelha linhas) = antenasDaGrelha linhas 0 := by
  cases linhas with
  | nil => rfl
  | cons l0 ls =>
    have h := carregarAntenasCiclo_grelha w hw [] l0 ls hrect
    rw [List.append_nil] at h
    unfold carregarAntenas
    rw [h]
    rfl

theorem meio_troca (p q : Int) (h : (q - p).tmod 2 = 0) :
    (p - q).tmod 2 = 0 ∧ p + (q - p).tdiv 2 = q + (p - q).tdiv 2 := by
  have h1 : (2 : Int) ∣ q - p := Int.dvd_iff_tmod_eq_zero.2 h
  have h2 : (2 : Int) ∣ p - q := by omega
  refine ⟨Int.dvd_iff_tmod_eq_zero.1 h2, ?_⟩
  rw [Int.tdiv_eq_ediv_of_dvd h1, Int.tdiv_eq_ediv_of_dvd h2]
  omega

theorem nefastoPar_exato (a1 a2 : Antena) (nefastos : List Coordenada)
    (hlim : SemTransbordo a1 a2) :
    nefastoPar a1 nefastos a2 =
      if a1.frequencia ≠ a2.frequencia then nefastos
      else if (a2.x - a1.x).tmod 2 = 0 ∧ (a2.y - a1.y).tmod 2 = 0 then
        adicionarPosicao nefastos (a1.x + (a2.x - a1.x).tdiv 2)
          (a1.y + (a2.y - a1.y).tdiv 2)
      else nefastos := by
  obtain ⟨h1x, h1y, h2x, h2y, hdx, hdy⟩ := hlim
  unfold nefastoPar
  rw [int32_meio a1.x a2.x h1x h2x hdx, int32_meio a1.y a2.y h1y h2y hdy,
    int32_id _ hdx, int32_id _ hdy]

theorem nefastoPar_troca (a1 a2 : Antena) (nefastos : List Coordenada)
    (h12 : SemTransbordo a1 a2) (h21 : SemTransbordo a2 a1) :
    nefastoPar a1 nefastos a2 = nefastoPar a2 nefastos a1 := by
  rw [nefastoPar_exato a1 a2 nefastos h12, nefastoPar_exato a2 a1 nefastos h21]
  by_cases hf : a1.frequencia = a2.frequencia
  · rw [if_neg (not_not.2 hf), if_neg (not_not.2 hf.symm)]
    by_cases hp : (a2.x - a1.x).tmod 2 = 0 ∧ (a2.y - a1.y).tmod 2 = 0
    · have hx := meio_troca a1.x a2.x hp.1
      have hy := meio_troca a1.y a2.y hp.2
      rw [if_pos hp, if_pos ⟨hx.1, hy.1⟩, hx.2, hy.2]
    · have hq : ¬ ((a1.x - a2.x).tmod 2 = 0 ∧ (a1.y - a2.y).tmod 2 = 0) := fun hq =>
        hp ⟨(meio_troca a2.x a1.x hq.1).1, (meio_troca a2.y a1.y hq.2).1⟩
      rw [if_neg hp, if_neg hq]
  · rw [if_pos hf, if_pos (fun h => hf h.symm)]

theorem geraNefasto_troca (a1 a2 : Antena) (c : Coordenada)
    (h12 : SemTransbordo a1 a2) (h21 : SemTransbordo a2 a1) (h : GeraNefasto a1 a2 c) :
    GeraNefasto a2 a1 c :=
  (geraNefasto_iff a2 a1 c h21).2
    (pontoMedioPar_troca a1 a2 c ((geraNefasto_iff a1 a2 c h12).1 h))

theorem par_sublist_perm (a1 a2 : Antena) (l1 l2 : List Antena) (hp : l1.Perm l2)
    (h : [a1, a2].Sublist l1) : [a1, a2].Sublist l2 ∨ [a2, a1].Sublist l2 := by
  by_cases he : a1 = a2
  · subst he
    left
    have h2 : 2 ≤ List.count a1 l2 := by
      rw [← hp.count_eq a1]
      have := h.count_le a1
      simpa using this
    exact List.le_count_iff_replicate_sublist.1 h2
  · exact par_sublist_ou_troca a1 a2 he l2 (hp.subset (h.subset (by simp)))
      (hp.subset (h.subset (by simp)))

theorem mem_detectarLocaisNefastos_perm (l1 l2 : List Antena) (hp : l1.Perm l2)
    (hlim : ∀ a1 ∈ l1, ∀ a2 ∈ l1, SemTransbordo a1 a2)
    (c : Coordenada) (h : c ∈ detectarLocaisNefastos l1) : c ∈ detectarLocaisNefastos l2 := by
  unfold detectarLocaisNefastos at h ⊢
  rw [mem_nefastosDesde] at h ⊢
  rcases h with h | ⟨a1, a2, hs, hg⟩
  · exact Or.inl h
  · right
    rcases par_sublist_perm a1 a2 l1 l2 hp hs with hs2 | hs2
    · exact ⟨a1, a2, hs2, hg⟩
    · have m1 : a1 ∈ l1 := hs.subset (by simp)
      have m2 : a2 ∈ l1 := hs.subset (by simp)
      exact ⟨a2, a1, hs2, geraNefasto_troca a1 a2 c (hlim a1 m1 a2 m2) (hlim a2 m2 a1 m1) hg⟩

/-! ## Edges join vertices of equal frequency -/

theorem adjacente_mesma_frequencia (g : List Vertice) (hg : GrafoAlcancavel g) :
    ∀ c d, Adjacente g c d →
      ∃ f, ({ frequencia := f, x := c.x, y := c.y } : Antena) ∈ g.map Vertice.antena ∧
        ({ frequencia := f, x := d.x, y := d.y } : Antena) ∈ g.map Vertice.antena := by
  induction hg with
  | vazio =>
    rintro c d ⟨v, hv, _⟩
    simp at hv
  | inserir g f x y _ hne ih =>
    intro c d h
    obtain ⟨f0, h1, h2⟩ := ih c d ((adjacente_inserirVertice g f x y hne c d).1 h)
    have hsub : ∀ a : Antena, a ∈ g.map Vertice.antena →
        a ∈ (inserirVertice g f x y).map Vertice.antena := by
      intro a ha
      obtain ⟨v, hv, hva⟩ := List.mem_map.1 ha
      exact List.mem_map.2 ⟨v, subset_inserirVertice g f x y hne v hv, hva⟩
    exact ⟨f0, hsub _ h1, hsub _ h2⟩
  | conectar g x1 y1 x2 y2 hg0 ih =>
    intro c d h
    cases hok : (conectarVertices g x1 y1 x2 y2).1 with
    | false =>
      rw [conectarVertices_false_inalterado g x1 y1 x2 y2 hok] at h ⊢
      exact ih c d h
    | true =>
      rw [conectarVertices_antena]
      rw [adjacente_conectarVertices g x1 y1 x2 y2 hok] at h
      obtain ⟨v1, hv1, v2, hv2, ⟨hx1, hy1⟩, ⟨hx2, hy2⟩, hf⟩ :=
        (conectarVertices_true_iff g (grafoAlcancavel_bemFormado g hg0).1 x1 y1 x2 y2).1 hok
      have m1 : ({ frequencia := v1.frequencia, x := x1, y := y1 } : Antena) ∈
          g.map Vertice.antena :=
        List.mem_map.2 ⟨v1, hv1, by simp [Vertice.antena, hx1, hy1]⟩
      have m2 : ({ frequencia := v1.frequencia, x := x2, y := y2 } : Antena) ∈
          g.map Vertice.antena :=
        List.mem_map.2 ⟨v2, hv2, by simp [Vertice.antena, hx2, hy2, hf]⟩
      rcases h with h | ⟨rfl, rfl⟩ | ⟨rfl, rfl⟩
      · exact ih c d h
      · exact ⟨v1.frequencia, m1, m2⟩
      · exact ⟨v1.frequencia, m2, m1⟩

theorem aresta_mesma_frequencia (g : List Vertice) (hg : GrafoAlcancavel g)
    (v : Vertice) (hv : v ∈ g) (a : Coordenada) (ha : a ∈ v.arestas) :
    ∃ w ∈ g, w.x = a.x ∧ w.y = a.y ∧ w.frequencia = v.frequencia := by
  obtain ⟨f, h1, h2⟩ := adjacente_mesma_frequencia g hg { x := v.x, y := v.y } a
    ⟨v, hv, rfl, rfl, ha⟩
  obtain ⟨v0, hv0, e0⟩ := List.mem_map.1 h1
  obtain ⟨w, hw, e1⟩ := List.mem_map.1 h2
  simp only [Vertice.antena, Antena.mk.injEq] at e0 e1
  have hv0v : v0 = v :=
    vertice_unico g (grafoAlcancavel_bemFormado g hg).1 v0 v hv0 hv e0.2.1 e0.2.2
  exact ⟨w, hw, e1.2.1, e1.2.2, by rw [e1.1, ← e0.1, hv0v]⟩

theorem alcanca_mesma_frequencia (g : List Vertice) (hg : GrafoAlcancavel g)
    (inicio : Vertice) (hi : inicio ∈ g) (c : Coordenada)
    (h : Alcanca g { x := inicio.x, y := inicio.y } c) :
    ∃ w ∈ g, w.x = c.x ∧ w.y = c.y ∧ w.frequencia = inicio.frequencia := by
  induction h with
  | refl => exact ⟨inicio, hi, rfl, rfl, rfl⟩
  | tail _ hbc ih =>
    obtain ⟨w, hw, hwx, hwy, hwf⟩ := ih
    obtain ⟨v, hv, hvx, hvy, hmem⟩ := hbc
    have hvw : v = w :=
      vertice_unico g (grafoAlcancavel_bemFormado g hg).1 v w hv hw (by rw [hvx, hwx])
        (by rw [hvy, hwy])
    obtain ⟨w2, hw2, h2x, h2y, h2f⟩ := aresta_mesma_frequencia g hg v hv _ hmem
    exact ⟨w2, hw2, h2x, h2y, by rw [h2f, hvw, hwf]⟩

/-! ## Connecting a pair again, connecting a vertex to itself -/

theorem adjacente_simetrico (g : List Vertice) (hg : GrafoAlcancavel g) :
    ∀ c d, Adjacente g c d → Adjacente g d c := by
  induction hg with
  | vazio =>
    rintro c d ⟨v, hv, _⟩
    simp at hv
  | inserir g f x y _ hne ih =>
    intro c d h
    exact (adjacente_inserirVertice g f x y hne d c).2
      (ih c d ((adjacente_inserirVertice g f x y hne c d).1 h))
  | conectar g x1 y1 x2 y2 _ ih =>
    intro c d h
    cases hok : (conectarVertices g x1 y1 x2 y2).1 with
    | false =>
      rw [conectarVertices_false_inalterado g x1 y1 x2 y2 hok] at h ⊢
      exact ih c d h
    | true =>
      rw [adjacente_conectarVertices g x1 y1 x2 y2 hok] at h ⊢
      rcases h with h | h | h
      · exact Or.inl (ih c d h)
      · exact Or.inr (Or.inr ⟨h.2, h.1⟩)
      · exact Or.inr (Or.inl ⟨h.2, h.1⟩)

theorem alcanca_de_passos (g1 g2 : List Vertice)
    (hp : ∀ c d, Adjacente g2 c d → Alcanca g1 c d) (a b : Coordenada)
    (h : Alcanca g2 a b) : Alcanca g1 a b := by
  induction h with
  | refl => exact Relation.ReflTransGen.refl
  | tail _ hbc ih => exact Relation.ReflTransGen.trans ih (hp _ _ hbc)

theorem conectar_repetido_ok (g : List Vertice) (hg : GrafoAlcancavel g)
    (x1 y1 x2 y2 : Int)
    (hrep : Adjacente g { x := x1, y := y1 } { x := x2, y := y2 } ∨
      ((x1 = x2 ∧ y1 = y2) ∧ ({ x := x1, y := y1 } : Coordenada) ∈ coordenadasVertices g)) :
    (conectarVertices g x1 y1 x2 y2).1 = true := by
  rw [conectarVertices_true_iff g (grafoAlcancavel_bemFormado g hg).1]
  rcases hrep with ⟨v, hv, hvx, hvy, hmem⟩ | ⟨⟨hx, hy⟩, hex⟩
  · obtain ⟨w, hw, hwx, hwy, hwf⟩ := aresta_mesma_frequencia g hg v hv _ hmem
    exact ⟨v, hv, w, hw, ⟨hvx, hvy⟩, ⟨hwx, hwy⟩, hwf.symm⟩
  · obtain ⟨v, hv, hvx, hvy⟩ := (mem_coordenadasVertices g _).1 hex
    exact ⟨v, hv, v, hv, ⟨hvx, hvy⟩, ⟨hvx.trans hx, hvy.trans hy⟩, rfl⟩

theorem alcanca_conectar_repetido (g : List Vertice) (hg : GrafoAlcancavel g)
    (x1 y1 x2 y2 : Int)
    (hrep : Adjacente g { x := x1, y := y1 } { x := x2, y := y2 } ∨
      ((x1 = x2 ∧ y1 = y2) ∧ ({ x := x1, y := y1 } : Coordenada) ∈ coordenadasVertices g))
    (a b : Coordenada) :
    Alcanca (conectarVertices g x1 y1 x2 y2).2 a b ↔ Alcanca g a b := by
  have hok := conectar_repetido_ok g hg x1 y1 x2 y2 hrep
  constructor
  · apply alcanca_de_passos
    intro c d h
    rw [adjacente_conectarVertices g x1 y1 x2 y2 hok] at h
    rcases hrep with hadj | ⟨⟨hx, hy⟩, _⟩
    · rcases h with h | ⟨rfl, rfl⟩ | ⟨rfl, rfl⟩
      · exact Relation.ReflTransGen.single h
      · exact Relation.ReflTransGen.single hadj
      · exact Relation.ReflTransGen.single (adjacente_simetrico g hg _ _ hadj)
    · subst hx hy
      rcases h with h | ⟨rfl, rfl⟩ | ⟨rfl, rfl⟩
      · exact Relation.ReflTransGen.single h
      · exact Relation.ReflTransGen.refl
      · exact Relation.ReflTransGen.refl
  · apply alcanca_de_passos
    intro c d h
    exact Relation.ReflTransGen.single
      ((adjacente_conectarVertices g x1 y1 x2 y2 hok c d).2 (Or.inl h))

theorem comLaco_arestas (x y : Int) (v : Vertice) :
    (comLaco x y v).arestas =
      if v.x = x ∧ v.y = y then { x := x, y := y } :: { x := x, y := y } :: v.arestas
      else v.arestas := by
  unfold comLaco arestasAposConectar
  by_cases h : v.x = x ∧ v.y = y
  · simp only [if_pos h, List.singleton_append]
  · simp only [if_neg h, List.nil_append]

theorem procuraVertice_comLaco (x y : Int) (g : List Vertice) (a b : Int) :
    procuraVertice (g.map (comLaco x y)) a b = (procuraVertice g a b).map (comLaco x y) := by
  induction g with
  | nil => rfl
  | cons v resto ih =>
    simp only [List.map_cons, procuraVertice]
    have hx : (comLaco x y v).x = v.x := rfl
    have hy : (comLaco x y v).y = v.y := rfl
    rw [hx, hy]
    split
    · rfl
    · exact ih

theorem destino_comLaco (x y : Int) (g : List Vertice) (a : Coordenada) :
    destino (g.map (comLaco x y)) a = (destino g a).map (comLaco x y) :=
  procuraVertice_comLaco x y g a.x a.y

theorem foldlM_some_transfere {α β : Type} (f f2 : β → α → Option β) (as : List α)
    (hstep : ∀ a ∈ as, ∀ r r1, f r a = some r1 → f2 r a = some r1) :
    ∀ r r1, as.foldlM f r = some r1 → as.foldlM f2 r = some r1 := by
  induction as with
  | nil => intro r r1 h; exact h
  | cons a resto ih =>
    intro r r1 h
    simp only [List.foldlM_cons, Option.bind_eq_bind, Option.bind_eq_some] at h ⊢
    obtain ⟨r2, h2, h3⟩ := h
    exact ⟨r2, hstep a (List.mem_cons_self _ _) r r2 h2,
      ih (fun b hb => hstep b (List.mem_cons_of_mem _ hb)) r2 r1 h3⟩

theorem busca_no_visitado (g : List Vertice) (n : Nat) (ov : Option Vertice)
    (V R R1 : List Coordenada)
    (hv : ∀ w, ov = some w → existePosicao V w.x w.y = true)
    (h : buscaProfundidadeRecursiva g n ov V R = some R1) : R1 = R := by
  cases n with
  | zero => simp [buscaProfundidadeRecursiva] at h
  | succ n =>
    cases ov with
    | none =>
      simp only [buscaProfundidadeRecursiva, Option.some.injEq] at h
      exact h.symm
    | some w =>
      simp only [buscaProfundidadeRecursiva, hv w rfl, if_true, Option.some.injEq] at h
      exact h.symm

theorem busca_sem_laco (x y : Int) (g : List Vertice) :
    ∀ (n : Nat) (ov : Option Vertice) (V R R1 : List Coordenada),
      buscaProfundidadeRecursiva (g.map (comLaco x y)) n (ov.map (comLaco x y)) V R =
        some R1 →
      buscaProfundidadeRecursiva g n ov V R = some R1 := by
  intro n
  induction n with
  | zero => intro ov V R R1 h; simp [buscaProfundidadeRecursiva] at h
  | succ n ih =>
    intro ov V R R1 h
    cases ov with
    | none => exact h
    | some v =>
      simp only [Option.map_some', buscaProfundidadeRecursiva] at h ⊢
      have hx : (comLaco x y v).x = v.x := rfl
      have hy : (comLaco x y v).y = v.y := rfl
      rw [hx, hy] at h
      split
      next hvis =>
        rw [if_pos hvis] at h
        exact h
      next hvis =>
        rw [if_neg hvis, comLaco_arestas] at h
        have hresto : ∀ r r1,
            v.arestas.foldlM
              (fun r a => buscaProfundidadeRecursiva (g.map (comLaco x y)) n
                (destino (g.map (comLaco x y)) a) (adicionarPosicao V v.x v.y) r) r =
              some r1 →
            v.arestas.foldlM
              (fun r a => buscaProfundidadeRecursiva g n (destino g a)
                (adicionarPosicao V v.x v.y) r) r = some r1 :=
          foldlM_some_transfere _ _ v.arestas
            (fun a _ r r1 hr => ih _ _ _ _ (by rw [← destino_comLaco]; exact hr))
        by_cases hxy : v.x = x ∧ v.y = y
        · rw [if_pos hxy] at h
          simp only [List.foldlM_cons, Option.bind_eq_bind, Option.bind_eq_some] at h
          obtain ⟨r1, h1, r2, h2, h3⟩ := h
          have hvis2 : ∀ w, destino (g.map (comLaco x y)) { x := x, y := y } = some w →
              existePosicao (adicionarPosicao V v.x v.y) w.x w.y = true := by
            intro w hw
            obtain ⟨_, hwx, hwy⟩ := procuraVertice_some _ _ _ w hw
            rw [existePosicao_eq_true, mem_adicionarPosicao]
            left
            simp only [Coordenada.mk.injEq]
            exact ⟨hwx.trans hxy.1.symm, hwy.trans hxy.2.symm⟩
          have e1 := busca_no_visitado _ _ _ _ _ _ hvis2 h1
          have e2 := busca_no_visitado _ _ _ _ _ _ hvis2 h2
          rw [e2, e1] at h3
          exact hresto _ _ h3
        · rw [if_neg hxy] at h
          exact hresto _ _ h

theorem procuraProfundidade_sem_laco (x y : Int) (g : List Vertice) (a b : Int) :
    procuraProfundidade (g.map (comLaco x y)) a b = procuraProfundidade g a b := by
  obtain ⟨r, hr⟩ := procuraProfundidade_total (g.map (comLaco x y)) a b
  rw [hr]
  unfold procuraProfundidade at hr ⊢
  rw [procuraVertice_comLaco] at hr
  cases hv : procuraVertice g a b with
  | none =>
    rw [hv] at hr
    exact hr.symm
  | some v =>
    rw [hv] at hr
    simp only [Option.map_some', List.length_map] at hr
    exact (busca_sem_laco x y g _ (some v) [] [] r hr).symm

theorem conectarVertices_laco (g : List Vertice) (hnd : (coordenadasVertices g).Nodup)
    (x y : Int) (hok : (conectarVertices g x y x y).1 = true) :
    (conectarVertices g x y x y).2 = g.map (comLaco x y) :=
  conectarVertices_map g hnd x y x y hok

theorem grafoEstrela_alcancavel : GrafoAlcancavel grafoEstrela :=
  GrafoAlcancavel.conectar _ 0 0 0 2
    (GrafoAlcancavel.conectar _ 0 0 0 1
      (GrafoAlcancavel.inserir _ 'A' 0 2
        (GrafoAlcancavel.inserir _ 'A' 0 1
          (GrafoAlcancavel.inserir _ 'A' 0 0 GrafoAlcancavel.vazio (by decide))
          (by decide))
        (by decide)))

theorem coordenadasVertices_conectarVertices (g : List Vertice) (x1 y1 x2 y2 : Int) :
    coordenadasVertices (conectarVertices g x1 y1 x2 y2).2 = coordenadasVertices g := by
  rw [coordenadasVertices_antena, conectarVertices_antena, ← coordenadasVertices_antena]

/-! ## Outcomes of calls -/

@[simp] theorem seguido_devolve {α β : Type} (r : α) (f : α → Execucao β) :
    (Execucao.devolve r).seguido f = f r := rfl

@[simp] theorem seguido_indefinido {α β : Type} (f : α → Execucao β) :
    (Execucao.indefinido : Execucao α).seguido f = Execucao.indefinido := rfl

@[simp] theorem seguido_esgotado {α β : Type} (f : α → Execucao β) :
    (Execucao.esgotado : Execucao α).seguido f = Execucao.esgotado := rfl

theorem dobra_inalterado {α β : Type} (f : β → α → Execucao β) :
    ∀ (l : List α) (b : β), (∀ a ∈ l, f b a = Execucao.devolve b) →
      Execucao.dobra f l b = Execucao.devolve b := by
  intro l
  induction l with
  | nil => intro b _; rfl
  | cons a resto ih =>
    intro b h
    simp only [Execucao.dobra, h a (List.mem_cons_self _ _), seguido_devolve]
    exact ih b (fun a2 ha2 => h a2 (List.mem_cons_of_mem _ ha2))

/-! ## Breadth-first traversal: the freed queue node -/

theorem larguraVizinhos_todos_visitados (g : List Vertice) :
    ∀ (l : List Coordenada) (s : EstadoLargura),
      (∀ a ∈ l, ∀ w, destino g a = some w → existePosicao s.visitados w.x w.y = true) →
      larguraVizinhos g l s = Execucao.devolve s := by
  intro l
  induction l with
  | nil => intro s _; rfl
  | cons a resto ih =>
    intro s h
    have hresto := ih s (fun b hb => h b (List.mem_cons_of_mem _ hb))
    simp only [larguraVizinhos]
    cases hd : destino g a with
    | none => exact hresto
    | some w =>
      simp only [h a (List.mem_cons_self _ _) w hd, if_true]
      exact hresto

theorem larguraVizinhos_fim_libertado (g : List Vertice) :
    ∀ (l : List Coordenada) (s : EstadoLargura) (fim : Nat),
      s.filaFim = some fim → fim ∈ s.libertados →
      (∃ a ∈ l, ∃ w, destino g a = some w ∧ existePosicao s.visitados w.x w.y = false) →
      larguraVizinhos g l s = Execucao.indefinido := by
  intro l
  induction l with
  | nil =>
    intro s fim _ _ h
    obtain ⟨a, ha, _⟩ := h
    simp at ha
  | cons a resto ih =>
    intro s fim hfim hlib h
    have hresto : (∀ w, destino g a = some w → existePosicao s.visitados w.x w.y = true) →
        larguraVizinhos g resto s = Execucao.indefinido := by
      intro hvis
      apply ih s fim hfim hlib
      obtain ⟨b, hb, w, hw, hn⟩ := h
      rcases List.mem_cons.1 hb with rfl | hb
      · rw [hvis w hw] at hn
        cases hn
      · exact ⟨b, hb, w, hw, hn⟩
    simp only [larguraVizinhos]
    cases hd : destino g a with
    | none => exact hresto (fun w hw => by rw [hd] at hw; cases hw)
    | some w =>
      simp only
      cases hv : existePosicao s.visitados w.x w.y with
      | true =>
        simp only [if_true]
        exact hresto (fun w2 hw2 => by rw [hd] at hw2; cases hw2; exact hv)
      | false =>
        simp only [Bool.false_eq_true, if_false, enfileirar, hfim, hlib, if_true,
          seguido_indefinido]

theorem procuraLargura_ausente (g : List Vertice) (x y : Int)
    (h : procuraVertice g x y = none) : procuraLargura g x y = Execucao.devolve [] := by
  simp only [procuraLargura, h]

theorem procuraLargura_presente (g : List Vertice) (x y : Int) (v : Vertice)
    (hv : procuraVertice g x y = some v) :
    ((∀ a ∈ v.arestas, ∀ w, destino g a = some w → w.x = x ∧ w.y = y) →
        procuraLargura g x y = Execucao.devolve [{ x := x, y := y }]) ∧
      ((∃ a ∈ v.arestas, ∃ w, destino g a = some w ∧ ¬ (w.x = x ∧ w.y = y)) →
        procuraLargura g x y = Execucao.indefinido) := by
  obtain ⟨hvg, hvx, hvy⟩ := procuraVertice_some g x y v hv
  obtain ⟨m, hm⟩ : ∃ m, g.length = m + 1 := by
    cases g with
    | nil => simp at hvg
    | cons _ t => exact ⟨t.length, rfl⟩
  have hvis : ∀ w : Vertice,
      existePosicao (adicionarPosicao [] v.x v.y) w.x w.y = true ↔ (w.x = x ∧ w.y = y) := by
    intro w
    rw [existePosicao_eq_true, mem_adicionarPosicao, hvx, hvy]
    simp
  have hdesenrola : procuraLargura g x y =
      (larguraVizinhos g v.arestas
        { visitados := adicionarPosicao [] v.x v.y,
          resultado := adicionarPosicao [] v.x v.y,
          fila := [], filaFim := some 0, libertados := [0], proximo := 1 }).seguido
        (larguraCiclo g m) := by
    simp only [procuraLargura, hv, existePosicao, Bool.false_eq_true, if_false, hm]
    rw [larguraCiclo]
    simp
  constructor
  · intro h
    rw [hdesenrola, larguraVizinhos_todos_visitados g v.arestas _
      (fun a ha w hw => (hvis w).2 (h a ha w hw)), seguido_devolve, larguraCiclo]
    simp only [adicionarPosicao, existePosicao, Bool.false_eq_true, if_false, hvx, hvy]
  · rintro ⟨a, ha, w, hw, hn⟩
    rw [hdesenrola, larguraVizinhos_fim_libertado g v.arestas _ 0 rfl (by simp)
      ⟨a, ha, w, hw, by
        cases hq : existePosicao (adicionarPosicao [] v.x v.y) w.x w.y with
        | false => rfl
        | true => exact absurd ((hvis w).1 hq) hn⟩, seguido_indefinido]

/-! ## Path enumeration: the lists freed twice -/

theorem existePosicaoNos_libertado (m : Memoria) (n : No) (resto : List No) (x y : Int)
    (h : n.endereco ∈ m.libertados) :
    existePosicaoNos m (n :: resto) x y = Execucao.indefinido := by
  simp only [existePosicaoNos, h, if_true]

theorem adicionarPosicaoNos_novo (m : Memoria) (lista : List No) (x y : Int)
    (h : existePosicaoNos m lista x y = Execucao.devolve false) :
    adicionarPosicaoNos m lista x y =
      Execucao.devolve ({ endereco := m.proximo, x := x, y := y } :: lista,
        { m with proximo := m.proximo + 1 }) := by
  simp only [adicionarPosicaoNos, h, seguido_devolve, Bool.false_eq_true, if_false]

theorem buscarCaminhos_inicio_destino (g : List Vertice) (xd yd : Int) (n : Nat)
    (s : Vertice) (hd : s.x = xd ∧ s.y = yd) :
    ∃ r m1, buscarCaminhos g xd yd (n + 1) (some s) [] [] []
        { proximo := 0, libertados := [] } = Execucao.devolve (r, m1) ∧
      coordenadasNos r = adicionarPosicao [{ x := 0, y := 0 }] s.x s.y := by
  obtain ⟨f, sx, sy, ar⟩ := s
  simp only at hd
  obtain ⟨rfl, rfl⟩ := hd
  by_cases h0 : sx = 0 ∧ sy = 0
  · obtain ⟨rfl, rfl⟩ := h0
    exact ⟨[{ endereco := 4, x := 0, y := 0 }], { proximo := 5, libertados := [1, 0, 3, 2] },
      by simp [buscarCaminhos, existePosicaoNos, adicionarPosicaoNos, copiarCaminho,
        acumularCaminho, libertarCoordenadas],
      by simp [coordenadasNos, adicionarPosicao, existePosicao]⟩
  · have h1 : ¬ ((0 : Int) = sx ∧ (0 : Int) = sy) := fun h => h0 ⟨h.1.symm, h.2.symm⟩
    exact ⟨[{ endereco := 5, x := sx, y := sy }, { endereco := 4, x := 0, y := 0 }],
      { proximo := 6, libertados := [1, 0, 3, 2] },
      by simp [buscarCaminhos, existePosicaoNos, adicionarPosicaoNos, copiarCaminho,
        acumularCaminho, libertarCoordenadas, h1],
      by simp [coordenadasNos, adicionarPosicao, existePosicao, h1]⟩

theorem buscarCaminhos_inicio_sem_vizinho (g : List Vertice) (xd yd : Int) (n : Nat)
    (s : Vertice) (hnd : ¬ (s.x = xd ∧ s.y = yd))
    (hl : ∀ a ∈ s.arestas, ∀ w, destino g a = some w → w.x = s.x ∧ w.y = s.y) :
    ∃ m1, buscarCaminhos g xd yd (n + 2) (some s) [] [] []
        { proximo := 0, libertados := [] } = Execucao.devolve ([], m1) := by
  refine ⟨{ proximo := 2, libertados := [1, 0] }, ?_⟩
  rw [buscarCaminhos]
  simp only [existePosicaoNos, seguido_devolve, Bool.false_eq_true, if_false,
    adicionarPosicaoNos, if_neg hnd]
  rw [dobra_inalterado]
  · simp [libertarCoordenadas]
  · intro a ha
    cases hdest : destino g a with
    | none => simp [buscarCaminhos]
    | some w =>
      obtain ⟨hx, hy⟩ := hl a ha w hdest
      simp [buscarCaminhos, existePosicaoNos, hx, hy]

theorem caminhosEntreAntenas_ausente (g : List Vertice) (x1 y1 x2 y2 : Int)
    (h : procuraVertice g x1 y1 = none) :
    caminhosEntreAntenas g x1 y1 x2 y2 = Execucao.devolve [] := by
  simp only [caminhosEntreAntenas, h]

theorem caminhosEntreAntenas_mesmo (g : List Vertice) (x y : Int) (s : Vertice)
    (hv : procuraVertice g x y = some s) :
    caminhosEntreAntenas g x y x y =
      Execucao.devolve (adicionarPosicao [{ x := 0, y := 0 }] x y) := by
  obtain ⟨_, hx, hy⟩ := procuraVertice_some g x y s hv
  obtain ⟨r, m1, hr, hc⟩ := buscarCaminhos_inicio_destino g x y g.length s ⟨hx, hy⟩
  simp only [caminhosEntreAntenas, hv, hr, seguido_devolve, libertarCoordenadas, hc, hx, hy]

theorem caminhosEntreAntenas_sem_vizinho (g : List Vertice) (x1 y1 x2 y2 : Int)
    (s : Vertice) (hv : procuraVertice g x1 y1 = some s) (hnd : ¬ (x1 = x2 ∧ y1 = y2))
    (hl : ∀ a ∈ s.arestas, ∀ w, destino g a = some w → w.x = x1 ∧ w.y = y1) :
    caminhosEntreAntenas g x1 y1 x2 y2 = Execucao.devolve [] := by
  obtain ⟨hsg, hx, hy⟩ := procuraVertice_some g x1 y1 s hv
  obtain ⟨k, hk⟩ : ∃ k, g.length = k + 1 := by
    cases g with
    | nil => simp at hsg
    | cons _ t => exact ⟨t.length, rfl⟩
  obtain ⟨m1, hr⟩ := buscarCaminhos_inicio_sem_vizinho g x2 y2 k s
    (by rw [hx, hy]; exact hnd) (by rw [hx, hy]; exact hl)
  simp only [caminhosEntreAntenas, hv, hk, hr, seguido_devolve, libertarCoordenadas,
    coordenadasNos, List.map_nil]

theorem grafoPar_alcancavel : GrafoAlcancavel grafoPar :=
  GrafoAlcancavel.conectar _ 1 1 2 2
    (GrafoAlcancavel.inserir _ 'A' 2 2
      (GrafoAlcancavel.inserir _ 'A' 1 1 GrafoAlcancavel.vazio (by decide))
      (by decide))

theorem grafoTriangulo_alcancavel : GrafoAlcancavel grafoTriangulo :=
  GrafoAlcancavel.conectar _ 1 1 3 3
    (GrafoAlcancavel.conectar _ 2 2 3 3
      (GrafoAlcancavel.conectar _ 1 1 2 2
        (GrafoAlcancavel.inserir _ 'A' 3 3
          (GrafoAlcancavel.inserir _ 'A' 2 2
            (GrafoAlcancavel.inserir _ 'A' 1 1 GrafoAlcancavel.vazio (by decide))
            (by decide))
          (by decide))))

theorem so_lacos_iff (g : List Vertice) (hbf : BemFormado g) (x y : Int) (v : Vertice)
    (hv : procuraVertice g x y = some v) :
    (∀ a ∈ v.arestas, ∀ w, destino g a = some w → w.x = x ∧ w.y = y) ↔
      ∀ d, Adjacente g { x := x, y := y } d → d = { x := x, y := y } := by
  obtain ⟨hvg, hvx, hvy⟩ := procuraVertice_some g x y v hv
  constructor
  · rintro h d ⟨u, hug, hux, huy, hd⟩
    have huv : u = v := vertice_unico g hbf.1 u v hug hvg (by rw [hux, hvx]) (by rw [huy, hvy])
    subst huv
    obtain ⟨w, hw, _, hwx, hwy⟩ := destino_some g d (hbf.2 u hug d hd)
    obtain ⟨h1, h2⟩ := h d hd w hw
    cases d
    simp only [Coordenada.mk.injEq]
    simp only at hwx hwy
    exact ⟨hwx.symm.trans h1, hwy.symm.trans h2⟩
  · intro h a ha w hw
    have hadj : Adjacente g { x := x, y := y } a := ⟨v, hvg, hvx, hvy, ha⟩
    have ha2 := h a hadj
    obtain ⟨_, hwx, hwy⟩ := procuraVertice_some g a.x a.y w hw
    rw [ha2] at hwx hwy
    exact ⟨hwx, hwy⟩

theorem procuraLargura_devolve_iff (g : List Vertice) (hbf : BemFormado g) (x y : Int)
    (r : List Coordenada) :
    procuraLargura g x y = Execucao.devolve r ↔
      (({ x := x, y := y } : Coordenada) ∉ coordenadasVertices g ∧ r = []) ∨
        (({ x := x, y := y } : Coordenada) ∈ coordenadasVertices g ∧
          r = [{ x := x, y := y }] ∧
          ∀ d, Adjacente g { x := x, y := y } d → d = { x := x, y := y }) := by
  cases hv : procuraVertice g x y with
  | none =>
    have hn := (procuraVertice_none g x y).1 hv
    rw [procuraLargura_ausente g x y hv]
    simp only [Execucao.devolve.injEq]
    constructor
    · intro h
      exact Or.inl ⟨hn, h.symm⟩
    · rintro (⟨_, h⟩ | ⟨h, _⟩)
      · exact h.symm
      · exact absurd h hn
  | some v =>
    obtain ⟨hvg, hvx, hvy⟩ := procuraVertice_some g x y v hv
    have hex : ({ x := x, y := y } : Coordenada) ∈ coordenadasVertices g :=
      (mem_coordenadasVertices g _).2 ⟨v, hvg, hvx, hvy⟩
    obtain ⟨hsim, hnao⟩ := procuraLargura_presente g x y v hv
    by_cases hl : ∀ a ∈ v.arestas, ∀ w, destino g a = some w → w.x = x ∧ w.y = y
    · rw [hsim hl]
      simp only [Execucao.devolve.injEq]
      constructor
      · intro h
        exact Or.inr ⟨hex, h.symm, (so_lacos_iff g hbf x y v hv).1 hl⟩
      · rintro (⟨h, _⟩ | ⟨_, h, _⟩)
        · exact absurd hex h
        · exact h.symm
    · have hl2 : ∃ a ∈ v.arestas, ∃ w, destino g a = some w ∧ ¬ (w.x = x ∧ w.y = y) := by
        by_contra hc
        apply hl
        intro a ha w hw
        by_contra hn
        exact hc ⟨a, ha, w, hw, hn⟩
      rw [hnao hl2]
      constructor
      · intro h
        cases h
      · rintro (⟨h, _⟩ | ⟨_, _, h⟩)
        · exact absurd hex h
        · exact absurd ((so_lacos_iff g hbf x y v hv).2 h) hl

theorem profundidade_mesmos_membros (g1 g2 : List Vertice) (h1 : BemFormado g1)
    (h2 : BemFormado g2) (hc : coordenadasVertices g2 = coordenadasVertices g1)
    (ha : ∀ a b, Alcanca g2 a b ↔ Alcanca g1 a b) (x y : Int) :
    ∃ rp rp2,
      procuraProfundidade g1 x y = some rp ∧ procuraProfundidade g2 x y = some rp2 ∧
      rp.Perm rp2 := by
  by_cases hex : ({ x := x, y := y } : Coordenada) ∈ coordenadasVertices g1
  · obtain ⟨rp, hrp, hnp, hmp⟩ := procuraProfundidade_alcanca g1 h1 x y hex
    obtain ⟨rp2, hrp2, hnp2, hmp2⟩ := procuraProfundidade_alcanca g2 h2 x y (hc ▸ hex)
    exact ⟨rp, rp2, hrp, hrp2, (List.perm_ext_iff_of_nodup hnp hnp2).2
      (fun c => by rw [hmp, hmp2, ha])⟩
  · have hn1 : procuraVertice g1 x y = none := (procuraVertice_none g1 x y).2 hex
    have hn2 : procuraVertice g2 x y = none :=
      (procuraVertice_none g2 x y).2 (by rw [hc]; exact hex)
    exact ⟨[], [], by simp only [procuraProfundidade, hn1],
      by simp only [procuraProfundidade, hn2], List.Perm.refl _⟩

theorem so_lacos_conectar_repetido (g : List Vertice) (hg : GrafoAlcancavel g)
    (x1 y1 x2 y2 : Int)
    (hrep : Adjacente g { x := x1, y := y1 } { x := x2, y := y2 } ∨
      ((x1 = x2 ∧ y1 = y2) ∧ ({ x := x1, y := y1 } : Coordenada) ∈ coordenadasVertices g))
    (c : Coordenada) :
    (∀ d, Adjacente (conectarVertices g x1 y1 x2 y2).2 c d → d = c) ↔
      ∀ d, Adjacente g c d → d = c := by
  have hok := conectar_repetido_ok g hg x1 y1 x2 y2 hrep
  constructor
  · intro h d hd
    exact h d ((adjacente_conectarVertices g x1 y1 x2 y2 hok c d).2 (Or.inl hd))
  · intro h d hd
    rw [adjacente_conectarVertices g x1 y1 x2 y2 hok] at hd
    rcases hrep with hadj | ⟨⟨hx, hy⟩, _⟩
    · rcases hd with hd | ⟨rfl, rfl⟩ | ⟨rfl, rfl⟩
      · exact h d hd
      · exact h _ hadj
      · exact h _ (adjacente_simetrico g hg _ _ hadj)
    · subst hx hy
      rcases hd with hd | ⟨rfl, rfl⟩ | ⟨rfl, rfl⟩
      · exact h d hd
      · rfl
      · rfl

/-! ## The fuel of the traversals never runs out -/

theorem seguido_nao_esgota {α β : Type} (e : Execucao α) (f : α → Execucao β)
    (he : e ≠ Execucao.esgotado) (hf : ∀ a, e = Execucao.devolve a → f a ≠ Execucao.esgotado) :
    e.seguido f ≠ Execucao.esgotado := by
  cases e with
  | devolve r => exact hf r rfl
  | indefinido => simp
  | esgotado => exact absurd rfl he

theorem dobra_nao_esgota {α β : Type} (f : β → α → Execucao β) :
    ∀ (l : List α) (b : β), (∀ a ∈ l, ∀ c, f c a ≠ Execucao.esgotado) →
      Execucao.dobra f l b ≠ Execucao.esgotado := by
  intro l
  induction l with
  | nil => intro b _; simp [Execucao.dobra]
  | cons a resto ih =>
    intro b h
    rw [Execucao.dobra]
    exact seguido_nao_esgota _ _ (h a (List.mem_cons_self _ _) b)
      (fun c _ => ih c (fun a2 ha2 => h a2 (List.mem_cons_of_mem _ ha2)))

theorem existePosicaoNos_nao_esgota (m : Memoria) (x y : Int) :
    ∀ l : List No, existePosicaoNos m l x y ≠ Execucao.esgotado := by
  intro l
  induction l with
  | nil => simp [existePosicaoNos]
  | cons n resto ih =>
    rw [existePosicaoNos]
    split
    · simp
    · split
      · simp
      · exact ih

theorem existePosicaoNos_devolve (m : Memoria) (x y : Int) (b : Bool) :
    ∀ l : List No, existePosicaoNos m l x y = Execucao.devolve b →
      b = existePosicao (coordenadasNos l) x y := by
  intro l
  induction l with
  | nil =>
    intro h
    simp only [existePosicaoNos, Execucao.devolve.injEq] at h
    rw [← h]
    rfl
  | cons n resto ih =>
    intro h
    rw [existePosicaoNos] at h
    split at h
    · simp at h
    · split at h
      next hxy =>
        simp only [Execucao.devolve.injEq] at h
        rw [← h]
        symm
        rw [existePosicao_eq_true]
        simp [coordenadasNos, hxy.1, hxy.2]
      next hxy =>
        have hb := ih h
        rw [hb]
        cases hex : existePosicao (coordenadasNos resto) x y with
        | true =>
          symm
          rw [existePosicao_eq_true] at hex ⊢
          exact List.mem_cons_of_mem _ hex
        | false =>
          symm
          rw [existePosicao_eq_false] at hex ⊢
          intro hmem
          rcases List.mem_cons.1 hmem with heq | hmem
          · apply hxy
            have h1 := congrArg Coordenada.x heq
            have h2 := congrArg Coordenada.y heq
            exact ⟨h1.symm, h2.symm⟩
          · exact hex hmem

theorem adicionarPosicaoNos_nao_esgota (m : Memoria) (l : List No) (x y : Int) :
    adicionarPosicaoNos m l x y ≠ Execucao.esgotado := by
  rw [adicionarPosicaoNos]
  refine seguido_nao_esgota _ _ (existePosicaoNos_nao_esgota m x y l) ?_
  intro b _
  split <;> simp

theorem libertarCoordenadas_nao_esgota :
    ∀ (l : List No) (m : Memoria), libertarCoordenadas m l ≠ Execucao.esgotado := by
  intro l
  induction l with
  | nil => intro m; simp [libertarCoordenadas]
  | cons n resto ih =>
    intro m
    rw [libertarCoordenadas]
    split
    · simp
    · exact ih _

theorem acumularCaminho_nao_esgota :
    ∀ (l acc : List No) (m : Memoria), acumularCaminho m acc l ≠ Execucao.esgotado := by
  intro l
  induction l with
  | nil => intro acc m; simp [acumularCaminho]
  | cons n resto ih =>
    intro acc m
    rw [acumularCaminho]
    split
    · simp
    · exact seguido_nao_esgota _ _ (adicionarPosicaoNos_nao_esgota m acc n.x n.y)
        (fun rm _ => ih rm.1 rm.2)

theorem copiarCaminho_nao_esgota (m : Memoria) (origem : List No) (x y : Int) :
    copiarCaminho m origem x y ≠ Execucao.esgotado := by
  rw [copiarCaminho]
  refine seguido_nao_esgota _ _ (adicionarPosicaoNos_nao_esgota m [] x y) ?_
  intro nm _
  refine seguido_nao_esgota _ _ (acumularCaminho_nao_esgota origem [] nm.2) ?_
  intro rm _
  split <;> simp

theorem buscarCaminhos_nao_esgota (g : List Vertice) (xd yd : Int) :
    ∀ (n : Nat) (o : Option Vertice) (V C R : List No) (m : Memoria),
      (∀ w, o = some w → w ∈ g) → naoVisitados g (coordenadasNos V) ≤ n →
      buscarCaminhos g xd yd (n + 1) o V C R m ≠ Execucao.esgotado := by
  intro n
  induction n with
  | zero =>
    intro o V C R m ho hn
    cases o with
    | none => simp [buscarCaminhos]
    | some w =>
      rw [buscarCaminhos]
      refine seguido_nao_esgota _ _ (existePosicaoNos_nao_esgota m w.x w.y V) ?_
      intro visto hvisto
      cases visto with
      | true => simp
      | false =>
        have hb := (existePosicaoNos_devolve m w.x w.y false V hvisto).symm
        have hlt := naoVisitados_adicionar g (coordenadasNos V) w (ho w rfl) hb
        omega
  | succ k ih =>
    intro o V C R m ho hn
    cases o with
    | none => simp [buscarCaminhos]
    | some w =>
      rw [buscarCaminhos]
      refine seguido_nao_esgota _ _ (existePosicaoNos_nao_esgota m w.x w.y V) ?_
      intro visto hvisto
      cases visto with
      | true => simp
      | false =>
        have hb := (existePosicaoNos_devolve m w.x w.y false V hvisto).symm
        have hlt := naoVisitados_adicionar g (coordenadasNos V) w (ho w rfl) hb
        rw [adicionarPosicao_novo _ _ _ hb] at hlt
        simp only [Bool.false_eq_true, if_false]
        rw [adicionarPosicaoNos_novo m V w.x w.y hvisto, seguido_devolve]
        refine seguido_nao_esgota _ _ (adicionarPosicaoNos_nao_esgota _ C w.x w.y) ?_
        intro nc _
        split
        · refine seguido_nao_esgota _ _ (copiarCaminho_nao_esgota _ _ 0 0) ?_
          intro cp _
          refine seguido_nao_esgota _ _ (acumularCaminho_nao_esgota _ _ _) ?_
          intro r _
          refine seguido_nao_esgota _ _ (libertarCoordenadas_nao_esgota _ _) ?_
          intro m1 _
          refine seguido_nao_esgota _ _ (libertarCoordenadas_nao_esgota _ _) ?_
          intro m2 _
          refine seguido_nao_esgota _ _ (libertarCoordenadas_nao_esgota _ _) ?_
          intro m3 _
          simp
        · refine seguido_nao_esgota _ _ ?_ ?_
          · apply dobra_nao_esgota
            intro a _ c
            apply ih
            · intro w2 hw2
              exact (procuraVertice_some g a.x a.y w2 hw2).1
            · have hco : coordenadasNos ({ endereco := m.proximo, x := w.x, y := w.y } :: V) =
                  { x := w.x, y := w.y } :: coordenadasNos V := rfl
              rw [hco]
              omega
          · intro r _
            refine seguido_nao_esgota _ _ (libertarCoordenadas_nao_esgota _ _) ?_
            intro m1 _
            refine seguido_nao_esgota _ _ (libertarCoordenadas_nao_esgota _ _) ?_
            intro m2 _
            simp

theorem caminhosEntreAntenas_nao_esgota (g : List Vertice) (x1 y1 x2 y2 : Int) :
    caminhosEntreAntenas g x1 y1 x2 y2 ≠ Execucao.esgotado := by
  unfold caminhosEntreAntenas
  cases hv : procuraVertice g x1 y1 with
  | none => simp
  | some s =>
    simp only
    refine seguido_nao_esgota _ _ (buscarCaminhos_nao_esgota g x2 y2 g.length (some s) [] [] []
      _ ?_ (naoVisitados_le g _)) ?_
    · intro w hw
      cases hw
      exact (procuraVertice_some g x1 y1 s hv).1
    · intro r _
      simp [libertarCoordenadas]

theorem procuraLargura_nao_esgota (g : List Vertice) (x y : Int) :
    procuraLargura g x y ≠ Execucao.esgotado := by
  cases hv : procuraVertice g x y with
  | none =>
    rw [procuraLargura_ausente g x y hv]
    simp
  | some v =>
    by_cases h : ∀ a ∈ v.arestas, ∀ w, destino g a = some w → w.x = x ∧ w.y = y
    · rw [(procuraLargura_presente g x y v hv).1 h]
      simp
    · rw [(procuraLargura_presente g x y v hv).2 (by
        push_neg at h
        obtain ⟨a, ha, w, hw, hne⟩ := h
        exact ⟨a, ha, w, hw, fun hc => hne hc.1 hc.2⟩)]
      simp

/-! ## Claims C1 and C2 -/

/-- C1: every registry obtained from the empty one by accepted `inserirAntena` calls
and `removerAntena` calls is strictly increasing in `(x, y)` lexicographic order and
so holds no two antennas at one coordinate; the same holds for the vertex sequence of
every graph built from the empty one by accepted `inserirVertice` calls (calls of
`conectarVertices` may be interleaved). -/
theorem registo_e_grafo_estritamente_crescentes (l : List Antena) (g : List Vertice)
    (hl : RegistoAlcancavel l) (hg : GrafoAlcancavel g) :
    (RegistoOrdenado l ∧ (coordenadasAntenas l).Nodup) ∧
      (GrafoOrdenado g ∧ (coordenadasVertices g).Nodup) :=
  ⟨⟨registoAlcancavel_ordenado l hl,
      ordenado_coordenadas_nodup l (registoAlcancavel_ordenado l hl)⟩,
    ⟨grafoAlcancavel_ordenado g hg,
      grafoOrdenado_nodup g (grafoAlcancavel_ordenado g hg)⟩⟩

/-- The registry after inserting (2,1), (1,5), (1,2), removing (1,5), and the graph
after inserting (3,3), (1,1): both are reachable, hence ordered. -/
theorem registo_e_grafo_estritamente_crescentes_witness :
    (RegistoOrdenado
        (removerAntena (inserirAntena (inserirAntena (inserirAntena [] 'A' 2 1) 'B' 1 5)
          'A' 1 2) 1 5).1 ∧
      (coordenadasAntenas
        (removerAntena (inserirAntena (inserirAntena (inserirAntena [] 'A' 2 1) 'B' 1 5)
          'A' 1 2) 1 5).1).Nodup) ∧
      (GrafoOrdenado (inserirVertice (inserirVertice [] 'A' 3 3) 'B' 1 1) ∧
        (coordenadasVertices (inserirVertice (inserirVertice [] 'A' 3 3) 'B' 1 1)).Nodup) :=
  registo_e_grafo_estritamente_crescentes _ _
    (RegistoAlcancavel.remover _ 1 5
      (RegistoAlcancavel.inserir _ 'A' 1 2
        (RegistoAlcancavel.inserir _ 'B' 1 5
          (RegistoAlcancavel.inserir _ 'A' 2 1 RegistoAlcancavel.vazio (by decide))
          (by decide))
        (by decide)))
    (GrafoAlcancavel.inserir _ 'B' 1 1
      (GrafoAlcancavel.inserir _ 'A' 3 3 GrafoAlcancavel.vazio (by decide))
      (by decide))

/-- C2: `inserirAntena` returns the rejected value (`NULL`, here `[]`) exactly when
some antenna of `lista` already has coordinates `(x, y)`, whatever its frequency; a
rejected call leaves `lista` as it was; an accepted call returns a non-empty registry
made of the antennas of `lista` and the new one, so with exactly one more antenna. -/
theorem inserirAntena_rejeita_sse_ocupada (lista : List Antena) (f : Char) (x y : Int) :
    (inserirAntena lista f x y = [] ↔ ∃ a ∈ lista, a.x = x ∧ a.y = y) ∧
      (inserirAntena lista f x y = [] → listaAposInserirAntena lista f x y = lista) ∧
      ((∀ a ∈ lista, ¬ (a.x = x ∧ a.y = y)) →
        inserirAntena lista f x y ≠ [] ∧
          (inserirAntena lista f x y).Perm ({ frequencia := f, x := x, y := y } :: lista) ∧
          (inserirAntena lista f x y).length = lista.length + 1) := by
  have hac : (∀ a ∈ lista, ¬ (a.x = x ∧ a.y = y)) →
      inserirAntena lista f x y ≠ [] ∧
        (inserirAntena lista f x y).Perm ({ frequencia := f, x := x, y := y } :: lista) ∧
        (inserirAntena lista f x y).length = lista.length + 1 := by
    intro hlivre
    have hp := inserirAntena_perm lista f x y hlivre
    refine ⟨?_, hp, by simpa using hp.length_eq⟩
    intro h0
    rw [h0] at hp
    simpa using hp.length_eq
  have hiff : inserirAntena lista f x y = [] ↔ ∃ a ∈ lista, a.x = x ∧ a.y = y := by
    constructor
    · intro h0
      by_contra hn
      push_neg at hn
      exact (hac (fun a ha hxy => hn a ha hxy.1 hxy.2)).1 h0
    · intro hex
      unfold inserirAntena
      rw [if_pos ((verificaAntena_eq_true lista x y).2 hex)]
  refine ⟨hiff, ?_, hac⟩
  intro h0
  unfold listaAposInserirAntena
  rw [if_pos ((verificaAntena_eq_true lista x y).2 (hiff.1 h0))]

/-- A second antenna at (1,2) is rejected and the list is untouched; a free
coordinate is accepted. -/
theorem inserirAntena_rejeita_sse_ocupada_witness :
    inserirAntena [⟨'A', 1, 2⟩, ⟨'B', 3, 0⟩] 'C' 1 2 = [] ∧
      listaAposInserirAntena [⟨'A', 1, 2⟩, ⟨'B', 3, 0⟩] 'C' 1 2 = [⟨'A', 1, 2⟩, ⟨'B', 3, 0⟩] ∧
      (inserirAntena [⟨'A', 1, 2⟩, ⟨'B', 3, 0⟩] 'C' 2 2).length = 3 :=
  ⟨by decide,
    (inserirAntena_rejeita_sse_ocupada [⟨'A', 1, 2⟩, ⟨'B', 3, 0⟩] 'C' 1 2).2.1 (by decide),
    ((inserirAntena_rejeita_sse_ocupada [⟨'A', 1, 2⟩, ⟨'B', 3, 0⟩] 'C' 2 2).2.2
      (by decide)).2.2⟩

/-! ## Claims C4 and C8 -/

/-- C4: in a well-formed graph (distinct vertex coordinates, every edge leading to a
vertex of the graph, as in every graph built through the interface) with a vertex at
`(x, y)`, `procuraProfundidade` returns a duplicate-free list whose members are
exactly the coordinates of the vertices reached from that vertex by following zero or
more edges. -/
theorem procuraProfundidade_devolve_os_alcancaveis (g : List Vertice) (hbf : BemFormado g)
    (x y : Int) (hex : ∃ v ∈ g, v.x = x ∧ v.y = y) :
    ∃ r, procuraProfundidade g x y = some r ∧ r.Nodup ∧
      ∀ c, c ∈ r ↔
        ∃ w ∈ g, c = { x := w.x, y := w.y } ∧ Alcanca g { x := x, y := y } c := by
  have hin : ({ x := x, y := y } : Coordenada) ∈ coordenadasVertices g :=
    (mem_coordenadasVertices g _).2 hex
  obtain ⟨r, hr, hnd, hmem⟩ := procuraProfundidade_alcanca g hbf x y hin
  refine ⟨r, hr, hnd, fun c => ⟨?_, ?_⟩⟩
  · intro hc
    have halc := (hmem c).1 hc
    obtain ⟨w, hw, hwx, hwy⟩ :=
      (mem_coordenadasVertices g c).1 (alcanca_vertice g hbf.2 _ c hin halc)
    exact ⟨w, hw, by rw [hwx, hwy], halc⟩
  · rintro ⟨_, _, _, halc⟩
    exact (hmem c).2 halc

/-- Vertices (1,1) and (2,2) joined by an edge, (5,5) apart: the search from (1,1)
returns the coordinates reached from (1,1) and only those. -/
theorem procuraProfundidade_devolve_os_alcancaveis_witness :
    ∃ r, procuraProfundidade
        [⟨'A', 1, 1, [⟨2, 2⟩]⟩, ⟨'A', 2, 2, [⟨1, 1⟩]⟩, ⟨'B', 5, 5, []⟩] 1 1 = some r ∧
      r.Nodup ∧
      ∀ c, c ∈ r ↔
        ∃ w ∈ [(⟨'A', 1, 1, [⟨2, 2⟩]⟩ : Vertice), ⟨'A', 2, 2, [⟨1, 1⟩]⟩, ⟨'B', 5, 5, []⟩],
          c = { x := w.x, y := w.y } ∧
          Alcanca [⟨'A', 1, 1, [⟨2, 2⟩]⟩, ⟨'A', 2, 2, [⟨1, 1⟩]⟩, ⟨'B', 5, 5, []⟩]
            { x := 1, y := 1 } c :=
  procuraProfundidade_devolve_os_alcancaveis
    [⟨'A', 1, 1, [⟨2, 2⟩]⟩, ⟨'A', 2, 2, [⟨1, 1⟩]⟩, ⟨'B', 5, 5, []⟩] (by decide) 1 1
    ⟨⟨'A', 1, 1, [⟨2, 2⟩]⟩, by decide, rfl, rfl⟩

/-- C8: on the graph with vertices (0,0,'A') and (1,1,'A'), `intersecoesFrequencias`
with both labels 'A' returns two nodes, (1,1) and (0,0), not the eight nodes of the
four pairs. -/
theorem intersecoesFrequencias_dois_nos :
    intersecoesFrequencias (inserirVertice (inserirVertice [] 'A' 0 0) 'A' 1 1) 'A' 'A' =
      [⟨1, 1⟩, ⟨0, 0⟩] := by
  decide

/-! ## Claims C9 and C10 -/

/-- C9, as stated, fails when `dx` overflows.  The antennas ('A',-2147483648,0) and
('A',2147483646,0) have the even displacement (4294967294, 0) and the midpoint
(-1, 0); in `int` the subtraction gives -2 and the code returns the cell
(2147483647, 0), not the midpoint. -/
theorem nefasto_transbordo_nao_e_ponto_medio :
    detectarLocaisNefastos [⟨'A', -2147483648, 0⟩, ⟨'A', 2147483646, 0⟩] =
        [⟨2147483647, 0⟩] ∧
      PontoMedioPar ⟨'A', -2147483648, 0⟩ ⟨'A', 2147483646, 0⟩ { x := -1, y := 0 } ∧
      ({ x := -1, y := 0 } : Coordenada) ∉
        detectarLocaisNefastos [⟨'A', -2147483648, 0⟩, ⟨'A', 2147483646, 0⟩] ∧
      ¬ PontoMedioPar ⟨'A', -2147483648, 0⟩ ⟨'A', 2147483646, 0⟩
        { x := 2147483647, y := 0 } ∧
      ¬ PontoMedioPar ⟨'A', 2147483646, 0⟩ ⟨'A', -2147483648, 0⟩
        { x := 2147483647, y := 0 } := by
  refine ⟨by decide, ?_, by decide, ?_, ?_⟩
  · exact ⟨rfl, ⟨2147483647, by decide⟩, ⟨0, by decide⟩, by decide, by decide⟩
  · rintro ⟨_, _, _, h, _⟩
    revert h
    decide
  · rintro ⟨_, _, _, h, _⟩
    revert h
    decide

/-- C9 (amended): for every registry (a list in which no antenna occurs twice) whose
coordinates are `int` values with differences that fit in an `int` (no overflow in
`dx`, `dy`), the result of `detectarLocaisNefastos` has no duplicates, and `(mx, my)` is in it iff
there are two distinct antennas of equal frequency with `x2-x1` and `y2-y1` both even
and `(mx, my) = (x1 + (x2-x1)/2, y1 + (y2-y1)/2)`.  On ('A',0,0), ('A',2,4) the result is
exactly (1,2); on ('A',0,0), ('A',3,4) it is empty; on the four 'A' antennas (1,3),
(2,8), (3,5), (5,6) it is (2,4), the only even-displacement midpoint. -/
theorem detectarLocaisNefastos_pontos_medios (l : List Antena) (hnd : l.Nodup)
    (hlim : ∀ a1 ∈ l, ∀ a2 ∈ l, SemTransbordo a1 a2) :
    (detectarLocaisNefastos l).Nodup ∧
      (∀ mx my : Int, ({ x := mx, y := my } : Coordenada) ∈ detectarLocaisNefastos l ↔
        ∃ a1 ∈ l, ∃ a2 ∈ l, a1 ≠ a2 ∧ a1.frequencia = a2.frequencia ∧
          Even (a2.x - a1.x) ∧ Even (a2.y - a1.y) ∧
          mx = a1.x + (a2.x - a1.x) / 2 ∧ my = a1.y + (a2.y - a1.y) / 2) ∧
      detectarLocaisNefastos [⟨'A', 0, 0⟩, ⟨'A', 2, 4⟩] = [⟨1, 2⟩] ∧
      detectarLocaisNefastos [⟨'A', 0, 0⟩, ⟨'A', 3, 4⟩] = [] ∧
      detectarLocaisNefastos [⟨'A', 1, 3⟩, ⟨'A', 2, 8⟩, ⟨'A', 3, 5⟩, ⟨'A', 5, 6⟩] =
        [⟨2, 4⟩] := by
  refine ⟨nefastosDesde_nodup l [] List.nodup_nil, ?_, by decide, by decide, by decide⟩
  intro mx my
  unfold detectarLocaisNefastos
  rw [mem_nefastosDesde]
  simp only [List.not_mem_nil, false_or]
  constructor
  · rintro ⟨a1, a2, hs, hg⟩
    have h12 : a1 ≠ a2 := by
      have := List.Nodup.sublist hs hnd
      simpa using this
    have m1 : a1 ∈ l := hs.subset (by simp)
    have m2 : a2 ∈ l := hs.subset (by simp)
    obtain ⟨hf, hx, hy, h1, h2⟩ := (geraNefasto_iff a1 a2 _ (hlim a1 m1 a2 m2)).1 hg
    exact ⟨a1, m1, a2, m2, h12, hf, hx, hy, h1, h2⟩
  · rintro ⟨a1, ha1, a2, ha2, h12, hf, hx, hy, h1, h2⟩
    have hp : PontoMedioPar a1 a2 { x := mx, y := my } := ⟨hf, hx, hy, h1, h2⟩
    rcases par_sublist_ou_troca a1 a2 h12 l ha1 ha2 with hs | hs
    · exact ⟨a1, a2, hs, (geraNefasto_iff a1 a2 _ (hlim a1 ha1 a2 ha2)).2 hp⟩
    · exact ⟨a2, a1, hs, (geraNefasto_iff a2 a1 _ (hlim a2 ha2 a1 ha1)).2
        (pontoMedioPar_troca a1 a2 _ hp)⟩

/-- Three antennas, two of them of frequency 'A' with an even displacement whichever
comes first: the detected cells are duplicate-free and (2,0) is among them. -/
theorem detectarLocaisNefastos_pontos_medios_witness :
    (detectarLocaisNefastos [⟨'A', 3, 1⟩, ⟨'B', 2, 2⟩, ⟨'A', 1, -1⟩]).Nodup ∧
      ({ x := 2, y := 0 } : Coordenada) ∈
        detectarLocaisNefastos [⟨'A', 3, 1⟩, ⟨'B', 2, 2⟩, ⟨'A', 1, -1⟩] :=
  ⟨(detectarLocaisNefastos_pontos_medios
      [⟨'A', 3, 1⟩, ⟨'B', 2, 2⟩, ⟨'A', 1, -1⟩] (by decide) (by decide)).1,
    ((detectarLocaisNefastos_pontos_medios
      [⟨'A', 3, 1⟩, ⟨'B', 2, 2⟩, ⟨'A', 1, -1⟩] (by decide) (by decide)).2.1 2 0).2
      ⟨⟨'A', 3, 1⟩, by decide, ⟨'A', 1, -1⟩, by decide, by decide, rfl, by decide,
        by decide, by decide, by decide⟩⟩

/-- C10: in a graph whose vertices have pairwise distinct coordinates,
`conectarVertices` returns true iff there are a vertex at `(x1, y1)` and a vertex at
`(x2, y2)` and the two have equal frequency; when it returns false (an endpoint is
missing or the frequencies differ) the graph is unchanged, so no edge was created. -/
theorem conectarVertices_sse_mesma_frequencia (g : List Vertice)
    (hnd : (coordenadasVertices g).Nodup) (x1 y1 x2 y2 : Int) :
    ((conectarVertices g x1 y1 x2 y2).1 = true ↔
        ∃ v1 ∈ g, ∃ v2 ∈ g, (v1.x = x1 ∧ v1.y = y1) ∧ (v2.x = x2 ∧ v2.y = y2) ∧
          v1.frequencia = v2.frequencia) ∧
      ((conectarVertices g x1 y1 x2 y2).1 = false →
        (conectarVertices g x1 y1 x2 y2).2 = g) :=
  ⟨conectarVertices_true_iff g hnd x1 y1 x2 y2,
    conectarVertices_false_inalterado g x1 y1 x2 y2⟩

/-- Connecting the 'A' vertex (3,3) with the 'B' vertex (5,5) is refused and the
graph is left as it was. -/
theorem conectarVertices_sse_mesma_frequencia_witness :
    (conectarVertices [⟨'A', 3, 3, []⟩, ⟨'B', 5, 5, []⟩] 3 3 5 5).1 = false ∧
      (conectarVertices [⟨'A', 3, 3, []⟩, ⟨'B', 5, 5, []⟩] 3 3 5 5).2 =
        [⟨'A', 3, 3, []⟩, ⟨'B', 5, 5, []⟩] :=
  ⟨by decide,
    (conectarVertices_sse_mesma_frequencia [⟨'A', 3, 3, []⟩, ⟨'B', 5, 5, []⟩]
      (by decide) 3 3 5 5).2 (by decide)⟩

/-! ## Claims C11 to C13 -/

/-- C11: in every graph reached from the empty graph by accepted `inserirVertice`
calls and by `conectarVertices` calls, adjacency is symmetric: there is an edge from
the vertex at `c` to the vertex at `d` iff there is one from `d` to `c`. -/
theorem adjacencia_simetrica (g : List Vertice) (hg : GrafoAlcancavel g)
    (c d : Coordenada) : Adjacente g c d ↔ Adjacente g d c := by
  have hsim : ∀ c d, Adjacente g c d → Adjacente g d c := by
    induction hg with
    | vazio =>
      rintro c d ⟨v, hv, _⟩
      simp at hv
    | inserir g f x y _ hne ih =>
      intro c d h
      exact (adjacente_inserirVertice g f x y hne d c).2
        (ih c d ((adjacente_inserirVertice g f x y hne c d).1 h))
    | conectar g x1 y1 x2 y2 _ ih =>
      intro c d h
      cases hok : (conectarVertices g x1 y1 x2 y2).1 with
      | false =>
        rw [conectarVertices_false_inalterado g x1 y1 x2 y2 hok] at h ⊢
        exact ih c d h
      | true =>
        rw [adjacente_conectarVertices g x1 y1 x2 y2 hok] at h ⊢
        rcases h with h | h | h
        · exact Or.inl (ih c d h)
        · exact Or.inr (Or.inr ⟨h.2, h.1⟩)
        · exact Or.inr (Or.inl ⟨h.2, h.1⟩)
  exact ⟨hsim c d, hsim d c⟩

/-- After connecting (1,1) with (2,2), the edge from (1,1) to (2,2) and the edge back
both exist. -/
theorem adjacencia_simetrica_witness :
    Adjacente
        (conectarVertices (inserirVertice (inserirVertice [] 'A' 1 1) 'A' 2 2) 1 1 2 2).2
        { x := 1, y := 1 } { x := 2, y := 2 } ↔
      Adjacente
        (conectarVertices (inserirVertice (inserirVertice [] 'A' 1 1) 'A' 2 2) 1 1 2 2).2
        { x := 2, y := 2 } { x := 1, y := 1 } :=
  adjacencia_simetrica _
    (GrafoAlcancavel.conectar _ 1 1 2 2
      (GrafoAlcancavel.inserir _ 'A' 2 2
        (GrafoAlcancavel.inserir _ 'A' 1 1 GrafoAlcancavel.vazio (by decide))
        (by decide)))
    { x := 1, y := 1 } { x := 2, y := 2 }

/-- C12: in a graph whose vertices have pairwise distinct coordinates, a successful
`conectarVertices(grafo, x1, y1, x2, y2)` adds exactly two edge nodes: the edge to
`(x2, y2)` at the head of the edge list of the vertex at `(x1, y1)` and the edge to
`(x1, y1)` at the head of the edge list of the vertex at `(x2, y2)`; the edges already
present follow in their order, the other vertices keep their edge lists, and the
vertex sequence (frequency, x, y, order) is unchanged. -/
theorem conectarVertices_acrescenta_duas_arestas (g : List Vertice)
    (hnd : (coordenadasVertices g).Nodup) (x1 y1 x2 y2 : Int)
    (hok : (conectarVertices g x1 y1 x2 y2).1 = true) :
    (conectarVertices g x1 y1 x2 y2).2 =
        g.map (fun v => { v with arestas := arestasAposConectar x1 y1 x2 y2 v }) ∧
      numArestas (conectarVertices g x1 y1 x2 y2).2 = numArestas g + 2 ∧
      (conectarVertices g x1 y1 x2 y2).2.map Vertice.antena = g.map Vertice.antena :=
  ⟨conectarVertices_map g hnd x1 y1 x2 y2 hok,
    numArestas_conectarVertices g x1 y1 x2 y2 hok,
    conectarVertices_antena g x1 y1 x2 y2⟩

/-- Connecting (2,2) with (3,3) in a graph where (2,2) already has an edge to (1,1):
the new edge comes first in the list of (2,2), and (1,1) keeps its list. -/
theorem conectarVertices_acrescenta_duas_arestas_witness :
    (conectarVertices
        [⟨'A', 1, 1, [⟨2, 2⟩]⟩, ⟨'A', 2, 2, [⟨1, 1⟩]⟩, ⟨'A', 3, 3, []⟩] 2 2 3 3).2 =
      [⟨'A', 1, 1, [⟨2, 2⟩]⟩, ⟨'A', 2, 2, [⟨3, 3⟩, ⟨1, 1⟩]⟩, ⟨'A', 3, 3, [⟨2, 2⟩]⟩] ∧
      numArestas (conectarVertices
        [⟨'A', 1, 1, [⟨2, 2⟩]⟩, ⟨'A', 2, 2, [⟨1, 1⟩]⟩, ⟨'A', 3, 3, []⟩] 2 2 3 3).2 = 4 :=
  ⟨(conectarVertices_acrescenta_duas_arestas
      [⟨'A', 1, 1, [⟨2, 2⟩]⟩, ⟨'A', 2, 2, [⟨1, 1⟩]⟩, ⟨'A', 3, 3, []⟩]
      (by decide) 2 2 3 3 (by decide)).1.trans (by decide),
    (conectarVertices_acrescenta_duas_arestas
      [⟨'A', 1, 1, [⟨2, 2⟩]⟩, ⟨'A', 2, 2, [⟨1, 1⟩]⟩, ⟨'A', 3, 3, []⟩]
      (by decide) 2 2 3 3 (by decide)).2.1⟩

/-- C13: when `conectarVertices` returns false (an endpoint is missing or the two
frequencies differ), the graph is exactly as it was: the same vertex sequence with
the same edge list for every vertex. -/
theorem conectarVertices_recusa_sem_alterar (g : List Vertice) (x1 y1 x2 y2 : Int)
    (h : (conectarVertices g x1 y1 x2 y2).1 = false) :
    (conectarVertices g x1 y1 x2 y2).2 = g ∧
      ((conectarVertices g x1 y1 x2 y2).2.map (fun v => v.arestas) =
        g.map (fun v => v.arestas)) := by
  rw [conectarVertices_false_inalterado g x1 y1 x2 y2 h]
  exact ⟨rfl, rfl⟩

/-- The endpoint (9,9) is missing: the call is refused and the edge between (1,1) and
(2,2) is all the graph still has. -/
theorem conectarVertices_recusa_sem_alterar_witness :
    (conectarVertices [⟨'A', 1, 1, [⟨2, 2⟩]⟩, ⟨'A', 2, 2, [⟨1, 1⟩]⟩] 1 1 9 9).2 =
      [⟨'A', 1, 1, [⟨2, 2⟩]⟩, ⟨'A', 2, 2, [⟨1, 1⟩]⟩] :=
  (conectarVertices_recusa_sem_alterar
    [⟨'A', 1, 1, [⟨2, 2⟩]⟩, ⟨'A', 2, 2, [⟨1, 1⟩]⟩] 1 1 9 9 (by decide)).1

/-! ## Claims C14 to C17 -/

/-- C14: if `lista` holds an antenna at `(x, y)`, `removerAntena` returns `lista`
without the first such antenna, the others kept as they are and in their order, and
sets `removido` to true; when no two antennas of `lista` share a coordinate, the
result holds no antenna at `(x, y)`. -/
theorem removerAntena_retira_a_primeira (l : List Antena) (x y : Int)
    (h : ∃ a ∈ l, a.x = x ∧ a.y = y) :
    (∃ l1 a l2, l = l1 ++ a :: l2 ∧ (a.x = x ∧ a.y = y) ∧
        (∀ b ∈ l1, ¬ (b.x = x ∧ b.y = y)) ∧ removerAntena l x y = (l1 ++ l2, true)) ∧
      ((coordenadasAntenas l).Nodup →
        ∀ b ∈ (removerAntena l x y).1, ¬ (b.x = x ∧ b.y = y)) := by
  obtain ⟨l1, a, l2, hl, ha, hl1, hrem⟩ := removerAntena_decompoe l x y h
  refine ⟨⟨l1, a, l2, hl, ha, hl1, hrem⟩, ?_⟩
  intro hnd b hb hbxy
  rw [hrem] at hb
  rcases List.mem_append.1 hb with hb | hb
  · exact hl1 b hb hbxy
  · rw [hl] at hnd
    simp only [coordenadasAntenas, List.map_append, List.map_cons] at hnd
    have h2 := (List.nodup_cons.1 (List.nodup_append.1 hnd).2.1).1
    apply h2
    refine List.mem_map.2 ⟨b, hb, ?_⟩
    rw [hbxy.1, hbxy.2, ha.1, ha.2]

/-- Removing (3,5) from a registry of three antennas leaves the other two in order. -/
theorem removerAntena_retira_a_primeira_witness :
    removerAntena [⟨'A', 1, 3⟩, ⟨'A', 3, 5⟩, ⟨'B', 5, 6⟩] 3 5 =
        ([⟨'A', 1, 3⟩, ⟨'B', 5, 6⟩], true) ∧
      ∀ b ∈ (removerAntena [⟨'A', 1, 3⟩, ⟨'A', 3, 5⟩, ⟨'B', 5, 6⟩] 3 5).1,
        ¬ (b.x = 3 ∧ b.y = 5) :=
  ⟨by decide,
    (removerAntena_retira_a_primeira [⟨'A', 1, 3⟩, ⟨'A', 3, 5⟩, ⟨'B', 5, 6⟩] 3 5
      ⟨⟨'A', 3, 5⟩, by decide, rfl, rfl⟩).2 (by decide)⟩

/-- C15: if `lista` holds no antenna at `(x, y)`, `removerAntena` returns `lista`
unchanged and sets `removido` to false; hence `removido` is true iff an antenna at
`(x, y)` was present. -/
theorem removerAntena_ausente_nao_altera (l : List Antena) (x y : Int) :
    ((∀ a ∈ l, ¬ (a.x = x ∧ a.y = y)) → removerAntena l x y = (l, false)) ∧
      ((removerAntena l x y).2 = true ↔ ∃ a ∈ l, a.x = x ∧ a.y = y) := by
  refine ⟨removerAntena_sem_alvo l x y, ?_, ?_⟩
  · intro hr
    by_contra hn
    push_neg at hn
    rw [removerAntena_sem_alvo l x y (fun a ha hxy => hn a ha hxy.1 hxy.2)] at hr
    simp at hr
  · intro h
    obtain ⟨l1, a, l2, _, _, _, hrem⟩ := removerAntena_decompoe l x y h
    rw [hrem]

/-- No antenna stands at (4,4): the registry comes back as it was, with `removido`
false. -/
theorem removerAntena_ausente_nao_altera_witness :
    removerAntena [⟨'A', 1, 3⟩, ⟨'A', 3, 5⟩] 4 4 = ([⟨'A', 1, 3⟩, ⟨'A', 3, 5⟩], false) :=
  (removerAntena_ausente_nao_altera [⟨'A', 1, 3⟩, ⟨'A', 3, 5⟩] 4 4).1 (by decide)

/-- C16: `adicionarPosicao(lista, x, y)` returns `lista` itself when
`existePosicao(lista, x, y)` is true and otherwise `lista` with `(x, y)` put in front;
in both cases `existePosicao` of the result at `(x, y)` is true and, at every other
coordinate `(a, b)`, it is what it was for `lista`. -/
theorem adicionarPosicao_contrato (lista : List Coordenada) (x y : Int) :
    (existePosicao lista x y = true → adicionarPosicao lista x y = lista) ∧
      (existePosicao lista x y = false →
        adicionarPosicao lista x y = { x := x, y := y } :: lista) ∧
      existePosicao (adicionarPosicao lista x y) x y = true ∧
      ∀ a b : Int, ¬ (a = x ∧ b = y) →
        existePosicao (adicionarPosicao lista x y) a b = existePosicao lista a b := by
  refine ⟨?_, adicionarPosicao_novo lista x y, ?_, ?_⟩
  · intro h
    simp [adicionarPosicao, h]
  · rw [existePosicao_eq_true, mem_adicionarPosicao]
    exact Or.inl rfl
  · intro a b hab
    rw [Bool.eq_iff_iff, existePosicao_eq_true, existePosicao_eq_true, mem_adicionarPosicao]
    constructor
    · rintro (h | h)
      · simp only [Coordenada.mk.injEq] at h
        exact absurd h hab
      · exact h
    · exact Or.inr

/-- Adding (2,2) to a set that lacks it puts it in front; adding (1,1), already a
member, changes nothing. -/
theorem adicionarPosicao_contrato_witness :
    adicionarPosicao [⟨1, 1⟩, ⟨3, 0⟩] 2 2 = [⟨2, 2⟩, ⟨1, 1⟩, ⟨3, 0⟩] ∧
      adicionarPosicao [⟨1, 1⟩, ⟨3, 0⟩] 1 1 = [⟨1, 1⟩, ⟨3, 0⟩] :=
  ⟨(adicionarPosicao_contrato [⟨1, 1⟩, ⟨3, 0⟩] 2 2).2.1 (by decide),
    (adicionarPosicao_contrato [⟨1, 1⟩, ⟨3, 0⟩] 1 1).1 (by decide)⟩

/-- C17: `adicionarPosicao` preserves uniqueness: if `lista` has no repeated
coordinate, neither has `adicionarPosicao(lista, x, y)`; so every coordinate set built
from the empty one through `adicionarPosicao` alone is duplicate-free. -/
theorem adicionarPosicao_preserva_unicidade :
    (∀ (lista : List Coordenada) (x y : Int), lista.Nodup →
        (adicionarPosicao lista x y).Nodup) ∧
      ∀ ps : List (Int × Int),
        (ps.foldl (fun conjunto p => adicionarPosicao conjunto p.1 p.2) []).Nodup := by
  refine ⟨adicionarPosicao_nodup, ?_⟩
  have hgen : ∀ (ps : List (Int × Int)) (inicial : List Coordenada), inicial.Nodup →
      (ps.foldl (fun conjunto p => adicionarPosicao conjunto p.1 p.2) inicial).Nodup := by
    intro ps
    induction ps with
    | nil => intro inicial h; exact h
    | cons p resto ih =>
      intro inicial h
      exact ih _ (adicionarPosicao_nodup inicial p.1 p.2 h)
  exact fun ps => hgen ps [] List.nodup_nil

/-- Adding (1,1) to the duplicate-free set (1,1), (3,0) keeps it duplicate-free. -/
theorem adicionarPosicao_preserva_unicidade_witness :
    (adicionarPosicao [⟨1, 1⟩, ⟨3, 0⟩] 1 1).Nodup :=
  adicionarPosicao_preserva_unicidade.1 [⟨1, 1⟩, ⟨3, 0⟩] 1 1 (by decide)

/-! ## Claims C18 and C19 -/

/-- C18: `inserirVertice` follows the ordering and duplicate contract of
`inserirAntena`: with every vertex projected to (frequency, x, y), `inserirVertice`
rejects exactly when `inserirAntena` rejects on the projected list, and its result
projects to the result of `inserirAntena`; an accepted call puts a vertex with an
empty edge list somewhere in the sequence and leaves every existing vertex, edge list
included, as it was and in its order. -/
theorem inserirVertice_segue_inserirAntena (g : List Vertice) (f : Char) (x y : Int) :
    (inserirVertice g f x y = [] ↔ inserirAntena (g.map Vertice.antena) f x y = []) ∧
      (inserirVertice g f x y).map Vertice.antena =
        inserirAntena (g.map Vertice.antena) f x y ∧
      (inserirVertice g f x y ≠ [] →
        ∃ l1 l2, g = l1 ++ l2 ∧
          inserirVertice g f x y =
            l1 ++ { frequencia := f, x := x, y := y, arestas := [] } :: l2) := by
  refine ⟨?_, inserirVertice_antena g f x y, inserirVertice_posicao g f x y⟩
  rw [← inserirVertice_antena]
  exact List.map_eq_nil_iff.symm

/-- Inserting (2,2) between (1,1) and (3,3), which are joined by an edge: the new
vertex has no edge and the two others keep theirs. -/
theorem inserirVertice_segue_inserirAntena_witness :
    ∃ l1 l2, [(⟨'A', 1, 1, [⟨3, 3⟩]⟩ : Vertice), ⟨'A', 3, 3, [⟨1, 1⟩]⟩] = l1 ++ l2 ∧
      inserirVertice [⟨'A', 1, 1, [⟨3, 3⟩]⟩, ⟨'A', 3, 3, [⟨1, 1⟩]⟩] 'B' 2 2 =
        l1 ++ { frequencia := 'B', x := 2, y := 2, arestas := [] } :: l2 :=
  (inserirVertice_segue_inserirAntena
    [⟨'A', 1, 1, [⟨3, 3⟩]⟩, ⟨'A', 3, 3, [⟨1, 1⟩]⟩] 'B' 2 2).2.2 (by decide)

/-- C19: for every list of antennas, sorted or not, with no antenna at `(x, y)`,
`inserirAntena` returns the list with the new antenna put immediately before the
first antenna whose key is lexicographically `>=` the new key (at the end when there
is none): every antenna before it has a smaller key, and all antennas keep their
fields and order. -/
theorem inserirAntena_antes_do_primeiro_maior (l : List Antena) (f : Char) (x y : Int)
    (hlivre : ∀ a ∈ l, ¬ (a.x = x ∧ a.y = y)) :
    ∃ l1 l2, l = l1 ++ l2 ∧
      inserirAntena l f x y = l1 ++ { frequencia := f, x := x, y := y } :: l2 ∧
      (∀ a ∈ l1, chaveMenor a.x a.y x y) ∧
      (∀ a, l2.head? = some a → x < a.x ∨ (x = a.x ∧ y ≤ a.y)) := by
  unfold inserirAntena
  rw [if_neg (by simpa using (verificaAntena_eq_false l x y).2 hlivre)]
  cases l with
  | nil => exact ⟨[], [], rfl, rfl, by simp, by simp⟩
  | cons cab resto =>
    simp only
    split
    next hmenor =>
      refine ⟨[], cab :: resto, rfl, rfl, by simp, ?_⟩
      intro a ha
      simp only [List.head?_cons, Option.some.injEq] at ha
      subst ha
      omega
    next hmaior =>
      have hcab := hlivre cab (List.mem_cons_self _ _)
      exact inserirDepois_posicao { frequencia := f, x := x, y := y } resto cab
        (by show chaveMenor cab.x cab.y x y; unfold chaveMenor; omega)

/-- In the unsorted list (1,1), (5,0), (2,2) the new antenna (3,3) goes right before
(5,0), the first antenna whose key is not smaller, although the smaller key (2,2)
comes later. -/
theorem inserirAntena_antes_do_primeiro_maior_witness :
    (∃ l1 l2, [(⟨'A', 1, 1⟩ : Antena), ⟨'A', 5, 0⟩, ⟨'A', 2, 2⟩] = l1 ++ l2 ∧
        inserirAntena [⟨'A', 1, 1⟩, ⟨'A', 5, 0⟩, ⟨'A', 2, 2⟩] 'B' 3 3 =
          l1 ++ { frequencia := 'B', x := 3, y := 3 } :: l2 ∧
        (∀ a ∈ l1, chaveMenor a.x a.y 3 3) ∧
        (∀ a, l2.head? = some a → (3 : Int) < a.x ∨ ((3 : Int) = a.x ∧ (3 : Int) ≤ a.y))) ∧
      inserirAntena [⟨'A', 1, 1⟩, ⟨'A', 5, 0⟩, ⟨'A', 2, 2⟩] 'B' 3 3 =
        [⟨'A', 1, 1⟩, ⟨'B', 3, 3⟩, ⟨'A', 5, 0⟩, ⟨'A', 2, 2⟩] :=
  ⟨inserirAntena_antes_do_primeiro_maior [⟨'A', 1, 1⟩, ⟨'A', 5, 0⟩, ⟨'A', 2, 2⟩] 'B' 3 3
      (by decide),
    by decide⟩

/-! ## Claims C29 and C30 -/

/-- C29: for every finite collection of antennas with pairwise distinct coordinates,
inserting them into the empty registry with `inserirAntena` in any two orders gives
the same registry: the collection in strictly increasing `(x, y)` order. -/
theorem ordem_de_insercao_indiferente (novas outras : List Antena)
    (hnd : (coordenadasAntenas novas).Nodup) (hp : novas.Perm outras) :
    inserirTodas novas = inserirTodas outras ∧
      RegistoOrdenado (inserirTodas novas) ∧ (inserirTodas novas).Perm novas := by
  have hnd2 : (coordenadasAntenas outras).Nodup :=
    (List.Perm.nodup_iff (List.Perm.map _ hp)).1 hnd
  obtain ⟨ho1, hp1⟩ := inserirTodas_ordenado_perm novas hnd
  obtain ⟨ho2, hp2⟩ := inserirTodas_ordenado_perm outras hnd2
  exact ⟨registoOrdenado_unico _ _ (hp1.trans (hp.trans hp2.symm)) ho1 ho2, ho1, hp1⟩

/-- Three antennas inserted in two different orders give the same registry. -/
theorem ordem_de_insercao_indiferente_witness :
    inserirTodas [⟨'A', 2, 1⟩, ⟨'B', 1, 5⟩, ⟨'A', 1, 2⟩] =
      inserirTodas [⟨'A', 1, 2⟩, ⟨'A', 2, 1⟩, ⟨'B', 1, 5⟩] :=
  (ordem_de_insercao_indiferente [⟨'A', 2, 1⟩, ⟨'B', 1, 5⟩, ⟨'A', 1, 2⟩]
    [⟨'A', 1, 2⟩, ⟨'A', 2, 1⟩, ⟨'B', 1, 5⟩] (by decide) (by decide)).1

/-- C30: for every list of antennas with no antenna at `(x, y)` and every frequency,
`removerAntena` applied at `(x, y)` to the result of `inserirAntena` returns the
original list and sets `removido` to true. -/
theorem inserir_depois_remover (lista : List Antena) (f : Char) (x y : Int)
    (hlivre : ∀ a ∈ lista, ¬ (a.x = x ∧ a.y = y)) :
    removerAntena (inserirAntena lista f x y) x y = (lista, true) := by
  obtain ⟨l1, l2, hl, hins⟩ := inserirAntena_decompoe lista f x y hlivre
  rw [hins, removerAntena_meio l1 l2 _ x y ⟨rfl, rfl⟩
    (fun b hb => hlivre b (by rw [hl]; exact List.mem_append_left _ hb)), hl]

/-- Inserting (2,2) between (1,1) and (3,0) and removing it again gives the list back. -/
theorem inserir_depois_remover_witness :
    removerAntena (inserirAntena [⟨'A', 1, 1⟩, ⟨'B', 3, 0⟩] 'C' 2 2) 2 2 =
      ([⟨'A', 1, 1⟩, ⟨'B', 3, 0⟩], true) :=
  inserir_depois_remover [⟨'A', 1, 1⟩, ⟨'B', 3, 0⟩] 'C' 2 2 (by decide)

/-! ## Claim C28 -/

/-- C28: the list returned by `intersecoesFrequencias` never holds a coordinate
twice; it is empty when no vertex has label `freqA` or no vertex has label `freqB`;
otherwise its members are exactly the coordinates of the vertices labelled `freqA` or
`freqB`; so its length is at most the number of such vertices. -/
theorem intersecoesFrequencias_sem_repeticao (g : List Vertice) (freqA freqB : Char) :
    (intersecoesFrequencias g freqA freqB).Nodup ∧
      (((∀ v ∈ g, v.frequencia ≠ freqA) ∨ (∀ v ∈ g, v.frequencia ≠ freqB)) →
        intersecoesFrequencias g freqA freqB = []) ∧
      ((∃ v ∈ g, v.frequencia = freqA) → (∃ v ∈ g, v.frequencia = freqB) →
        ∀ c, c ∈ intersecoesFrequencias g freqA freqB ↔
          ∃ v ∈ g, (v.frequencia = freqA ∨ v.frequencia = freqB) ∧
            c = { x := v.x, y := v.y }) ∧
      (intersecoesFrequencias g freqA freqB).length ≤
        (g.filter (fun v => v.frequencia = freqA ∨ v.frequencia = freqB)).length := by
  have hnd : (intersecoesFrequencias g freqA freqB).Nodup :=
    intersecoes_externo_nodup g freqA freqB g [] List.nodup_nil
  refine ⟨hnd, ?_, ?_, ?_⟩
  · intro h
    rw [List.eq_nil_iff_forall_not_mem]
    intro c hc
    obtain ⟨a, ha, hfa, b, hb, hfb, _⟩ := (mem_intersecoesFrequencias g freqA freqB c).1 hc
    rcases h with h | h
    · exact h a ha hfa
    · exact h b hb hfb
  · rintro ⟨va, hva, hfa⟩ ⟨vb, hvb, hfb⟩ c
    rw [mem_intersecoesFrequencias]
    constructor
    · rintro ⟨a, ha, hfa2, b, hb, hfb2, hc | hc⟩
      · exact ⟨a, ha, Or.inl hfa2, hc⟩
      · exact ⟨b, hb, Or.inr hfb2, hc⟩
    · rintro ⟨v, hv, hf | hf, hc⟩
      · exact ⟨v, hv, hf, vb, hvb, hfb, Or.inl hc⟩
      · exact ⟨va, hva, hfa, v, hv, hf, Or.inr hc⟩
  · have hsub : intersecoesFrequencias g freqA freqB ⊆
        (g.filter (fun v => v.frequencia = freqA ∨ v.frequencia = freqB)).map
          (fun v => ({ x := v.x, y := v.y } : Coordenada)) := by
      intro c hc
      obtain ⟨a, ha, hfa, b, hb, hfb, hc | hc⟩ :=
        (mem_intersecoesFrequencias g freqA freqB c).1 hc
      · exact List.mem_map.2 ⟨a, List.mem_filter.2 ⟨ha, by simp [hfa]⟩, hc.symm⟩
      · exact List.mem_map.2 ⟨b, List.mem_filter.2 ⟨hb, by simp [hfb]⟩, hc.symm⟩
    have := (List.subperm_of_subset hnd hsub).length_le
    simpa using this

/-- Two 'A' vertices and one 'B' vertex with labels 'A' and 'B': the three coordinates
are returned once each, where the pairs would take eight nodes. -/
theorem intersecoesFrequencias_sem_repeticao_witness :
    (intersecoesFrequencias
        [⟨'A', 0, 0, []⟩, ⟨'B', 0, 3, []⟩, ⟨'A', 1, 1, []⟩] 'A' 'B').Nodup ∧
      (intersecoesFrequencias
        [⟨'A', 0, 0, []⟩, ⟨'B', 0, 3, []⟩, ⟨'A', 1, 1, []⟩] 'A' 'B').length ≤ 3 ∧
      intersecoesFrequencias
        [⟨'A', 0, 0, []⟩, ⟨'B', 0, 3, []⟩, ⟨'A', 1, 1, []⟩] 'A' 'C' = [] :=
  ⟨(intersecoesFrequencias_sem_repeticao
      [⟨'A', 0, 0, []⟩, ⟨'B', 0, 3, []⟩, ⟨'A', 1, 1, []⟩] 'A' 'B').1,
    (intersecoesFrequencias_sem_repeticao
      [⟨'A', 0, 0, []⟩, ⟨'B', 0, 3, []⟩, ⟨'A', 1, 1, []⟩] 'A' 'B').2.2.2,
    (intersecoesFrequencias_sem_repeticao
      [⟨'A', 0, 0, []⟩, ⟨'B', 0, 3, []⟩, ⟨'A', 1, 1, []⟩] 'A' 'C').2.1
      (Or.inr (by decide))⟩

/-! ## Claim C23 -/

/-- C23: the file comments of `nefastos.c` and `nefastos.h` state the rule of the
claim (one antenna exactly twice as far from the cell as the other), but the code
returns the midpoint.  On the antennas ('A',0,0) and ('A',2,4) the result is the
single cell (1,2), for which no two antennas of the registry are at distances 2:1,
and the cells (4,8) and (-2,-4), which are at distances 2:1, are not returned. -/
theorem nefasto_nao_esta_ao_dobro :
    detectarLocaisNefastos [⟨'A', 0, 0⟩, ⟨'A', 2, 4⟩] = [⟨1, 2⟩] ∧
      ¬ DobroDaDistancia [⟨'A', 0, 0⟩, ⟨'A', 2, 4⟩] { x := 1, y := 2 } ∧
      distanciaQuadrada { x := 1, y := 2 } ⟨'A', 0, 0⟩ = 5 ∧
      distanciaQuadrada { x := 1, y := 2 } ⟨'A', 2, 4⟩ = 5 ∧
      DobroDaDistancia [⟨'A', 0, 0⟩, ⟨'A', 2, 4⟩] { x := 4, y := 8 } ∧
      DobroDaDistancia [⟨'A', 0, 0⟩, ⟨'A', 2, 4⟩] { x := -2, y := -4 } := by
  decide

/-! ## Claim C24 -/

/-- C24: in a well-formed graph `procuraProfundidade` returns exactly the coordinate
list, same members in the same order, that a depth-first search with a single visited
set kept for the whole traversal returns, in which a vertex visited anywhere earlier
is skipped and otherwise is marked, added to the result, and has its edge
destinations visited in edge-list order. -/
theorem procuraProfundidade_igual_a_referencia (g : List Vertice) (hbf : BemFormado g)
    (x y : Int) :
    ∃ r, procuraProfundidade g x y = some r ∧
      procuraProfundidadeReferencia g x y = some r := by
  cases hv : procuraVertice g x y with
  | none =>
    exact ⟨[], by simp only [procuraProfundidade, hv],
      by simp only [procuraProfundidadeReferencia, hv]⟩
  | some v =>
    obtain ⟨hvg, _, _⟩ := procuraVertice_some g x y v hv
    have hov : ∀ w, some v = some w → w ∈ g := fun w hw => by cases hw; exact hvg
    obtain ⟨r, hr⟩ := busca_total g (g.length + 1) (some v) [] []
      hov (Nat.lt_succ_of_le (naoVisitados_le g []))
    have href := busca_igual_referencia g hbf _ _ [] [] r hov (List.Subset.refl _)
      (fun u hu => by simp at hu) hr
    refine ⟨r, by simp only [procuraProfundidade, hv, hr], ?_⟩
    simp only [procuraProfundidadeReferencia, hv, href, Option.map_some']

/-- On the triangle (1,1), (2,2), (3,3) the code walks (3,3) a second time through
(2,2), yet returns the list of the single-visited-set search. -/
theorem procuraProfundidade_igual_a_referencia_witness :
    procuraProfundidade
        [⟨'A', 1, 1, [⟨3, 3⟩, ⟨2, 2⟩]⟩, ⟨'A', 2, 2, [⟨3, 3⟩, ⟨1, 1⟩]⟩,
          ⟨'A', 3, 3, [⟨1, 1⟩, ⟨2, 2⟩]⟩] 1 1 = some [⟨2, 2⟩, ⟨3, 3⟩, ⟨1, 1⟩] ∧
      ∃ r, procuraProfundidade
          [⟨'A', 1, 1, [⟨3, 3⟩, ⟨2, 2⟩]⟩, ⟨'A', 2, 2, [⟨3, 3⟩, ⟨1, 1⟩]⟩,
            ⟨'A', 3, 3, [⟨1, 1⟩, ⟨2, 2⟩]⟩] 1 1 = some r ∧
        procuraProfundidadeReferencia
          [⟨'A', 1, 1, [⟨3, 3⟩, ⟨2, 2⟩]⟩, ⟨'A', 2, 2, [⟨3, 3⟩, ⟨1, 1⟩]⟩,
            ⟨'A', 3, 3, [⟨1, 1⟩, ⟨2, 2⟩]⟩] 1 1 = some r :=
  ⟨by decide,
    procuraProfundidade_igual_a_referencia
      [⟨'A', 1, 1, [⟨3, 3⟩, ⟨2, 2⟩]⟩, ⟨'A', 2, 2, [⟨3, 3⟩, ⟨1, 1⟩]⟩,
        ⟨'A', 3, 3, [⟨1, 1⟩, ⟨2, 2⟩]⟩] (by decide) 1 1⟩

/-! ## Claims C25 and C26 -/

/-- C25, as stated, fails on a grid that holds the byte 0xFF.  The one-row grid of
the characters `A` and 0xFF is rectangular, of width 2, and has two non-'.'
characters, but the loader takes 0xFF for the end of the file and returns the
antenna ('A',0,0) alone. -/
theorem carregarAntenas_para_no_byte_ff :
    (∀ l ∈ [['A', fimDeFicheiro]], l.length = 2 ∧ '\n' ∉ l) ∧
      carregarAntenas (textoDaGrelha [['A', fimDeFicheiro]]) = [⟨'A', 0, 0⟩] ∧
      antenasDaGrelha [['A', fimDeFicheiro]] 0 = [⟨'A', 0, 0⟩, ⟨fimDeFicheiro, 0, 1⟩] ∧
      carregarAntenas (textoDaGrelha [['A', fimDeFicheiro]]) ≠
        antenasDaGrelha [['A', fimDeFicheiro]] 0 := by
  decide

/-- C25 (amended): for a rectangular grid (rows of equal non-zero width `w`, without
the byte 0xFF, each followed by a newline) with at least one non-'.' character,
`carregarAntenas` returns a non-empty
registry that is the row-major list `antenasDaGrelha` of the grid, is strictly
increasing by `(x, y)`, and holds an antenna `(c, r, col)` exactly for the non-'.'
characters `c` at row `r`, column `col`; for the 6 x 10 scenario grid it is the four
'A' antennas (1,3), (2,8), (3,5), (5,6) in that order. -/
theorem carregarAntenas_grelha_retangular (linhas : List (List Char)) (w : Nat)
    (hw : 0 < w) (hrect : ∀ l ∈ linhas, l.length = w ∧ LinhaValida l)
    (hant : ∃ l ∈ linhas, ∃ c ∈ l, c ≠ '.') :
    carregarAntenas (textoDaGrelha linhas) = antenasDaGrelha linhas 0 ∧
      carregarAntenas (textoDaGrelha linhas) ≠ [] ∧
      RegistoOrdenado (carregarAntenas (textoDaGrelha linhas)) ∧
      (∀ a : Antena, a ∈ carregarAntenas (textoDaGrelha linhas) ↔
        ∃ (r col : Nat) (l : List Char), linhas[r]? = some l ∧
          l[col]? = some a.frequencia ∧ a.frequencia ≠ '.' ∧ a.x = r ∧ a.y = col) ∧
      carregarAntenas (textoDaGrelha grelhaCenario) =
        [⟨'A', 1, 3⟩, ⟨'A', 2, 8⟩, ⟨'A', 3, 5⟩, ⟨'A', 5, 6⟩] := by
  have heq : carregarAntenas (textoDaGrelha linhas) = antenasDaGrelha linhas 0 :=
    carregarAntenas_grelha w (Nat.pos_iff_ne_zero.1 hw) linhas
      (fun l hl => ⟨(hrect l hl).2, (hrect l hl).1⟩)
  refine ⟨heq, ?_, ?_, ?_, by decide⟩
  · rw [heq]
    exact antenasDaGrelha_ne_nil linhas 0 hant
  · exact carregarAntenasCiclo_ordenado _ [] 0 0 0 List.Pairwise.nil
  · intro a
    rw [heq, mem_antenasDaGrelha_iff]
    constructor
    · rintro ⟨r, l, hr, hx, hf, k, hk, hy⟩
      exact ⟨r, k, l, hr, hk, hf, by simpa using hx, hy⟩
    · rintro ⟨r, k, l, hr, hk, hf, hx, hy⟩
      exact ⟨r, l, hr, by simpa using hx, hf, k, hk, hy⟩

/-- The 2 x 2 grid with 'A' at (0,0) and 'B' at (1,1) loads as those two antennas. -/
theorem carregarAntenas_grelha_retangular_witness :
    (∀ l ∈ [['A', '.'], ['.', 'B']], l.length = 2 ∧ LinhaValida l) ∧
      carregarAntenas (textoDaGrelha [['A', '.'], ['.', 'B']]) = [⟨'A', 0, 0⟩, ⟨'B', 1, 1⟩] ∧
      (carregarAntenas (textoDaGrelha [['A', '.'], ['.', 'B']]) =
          antenasDaGrelha [['A', '.'], ['.', 'B']] 0 ∧
        carregarAntenas (textoDaGrelha [['A', '.'], ['.', 'B']]) ≠ [] ∧
        RegistoOrdenado (carregarAntenas (textoDaGrelha [['A', '.'], ['.', 'B']])) ∧
        (∀ a : Antena, a ∈ carregarAntenas (textoDaGrelha [['A', '.'], ['.', 'B']]) ↔
          ∃ (r col : Nat) (l : List Char), [['A', '.'], ['.', 'B']][r]? = some l ∧
            l[col]? = some a.frequencia ∧ a.frequencia ≠ '.' ∧ a.x = r ∧ a.y = col) ∧
        carregarAntenas (textoDaGrelha grelhaCenario) =
          [⟨'A', 1, 3⟩, ⟨'A', 2, 8⟩, ⟨'A', 3, 5⟩, ⟨'A', 5, 6⟩]) :=
  ⟨by decide, by decide,
    carregarAntenas_grelha_retangular [['A', '.'], ['.', 'B']] 2 (by decide) (by decide)
      (by decide)⟩

/-- C33, as stated, fails when `dx` overflows.  For the antennas ('A',-1073741824,0)
and ('A',1073741824,0) the displacement 2147483648 does not fit in an `int`: with the
first antenna first the code returns the cell (-2147483648, 0), with the second
antenna first it returns (0, 0), so the members of the result depend on the order of
the list. -/
theorem nefasto_transbordo_depende_da_ordem :
    [(⟨'A', -1073741824, 0⟩ : Antena), ⟨'A', 1073741824, 0⟩].Perm
        [⟨'A', 1073741824, 0⟩, ⟨'A', -1073741824, 0⟩] ∧
      detectarLocaisNefastos [⟨'A', -1073741824, 0⟩, ⟨'A', 1073741824, 0⟩] =
        [⟨-2147483648, 0⟩] ∧
      detectarLocaisNefastos [⟨'A', 1073741824, 0⟩, ⟨'A', -1073741824, 0⟩] = [⟨0, 0⟩] ∧
      ¬ ∀ c, c ∈ detectarLocaisNefastos [⟨'A', -1073741824, 0⟩, ⟨'A', 1073741824, 0⟩] ↔
        c ∈ detectarLocaisNefastos [⟨'A', 1073741824, 0⟩, ⟨'A', -1073741824, 0⟩] := by
  refine ⟨by decide, by decide, by decide, ?_⟩
  intro h
  exact absurd ((h { x := 0, y := 0 }).2 (by decide)) (by decide)

/-- C33 (amended): the detected cell does not depend on which antenna of a pair comes
first.  For all integers with `x2 - x1` and `y2 - y1` even (of either sign, `/` being
C's truncating division) `(x1 + (x2-x1)/2, y1 + (y2-y1)/2) = (x2 + (x1-x2)/2,
y2 + (y1-y2)/2)`; when the coordinates are `int` values whose differences fit in an
`int`, the loop body `nefastoPar` gives the same list for `(a1, a2)` and `(a2, a1)`,
and `detectarLocaisNefastos` has the same members, both results being duplicate-free,
for every reordering `l2` of the list `l1`. -/
theorem detectarLocaisNefastos_ordem_indiferente (l1 l2 : List Antena)
    (hp : l1.Perm l2) (hlim : ∀ a1 ∈ l1, ∀ a2 ∈ l1, SemTransbordo a1 a2) :
    (∀ x1 y1 x2 y2 : Int, Even (x2 - x1) → Even (y2 - y1) →
        (x1 + (x2 - x1).tdiv 2, y1 + (y2 - y1).tdiv 2) =
          (x2 + (x1 - x2).tdiv 2, y2 + (y1 - y2).tdiv 2)) ∧
      (∀ (a1 a2 : Antena) (nefastos : List Coordenada),
        SemTransbordo a1 a2 → SemTransbordo a2 a1 →
        nefastoPar a1 nefastos a2 = nefastoPar a2 nefastos a1) ∧
      (∀ c, c ∈ detectarLocaisNefastos l1 ↔ c ∈ detectarLocaisNefastos l2) ∧
      (detectarLocaisNefastos l1).Perm (detectarLocaisNefastos l2) := by
  have hlim2 : ∀ a1 ∈ l2, ∀ a2 ∈ l2, SemTransbordo a1 a2 := fun a1 h1 a2 h2 =>
    hlim a1 (hp.symm.subset h1) a2 (hp.symm.subset h2)
  have hmem : ∀ c, c ∈ detectarLocaisNefastos l1 ↔ c ∈ detectarLocaisNefastos l2 :=
    fun c => ⟨mem_detectarLocaisNefastos_perm l1 l2 hp hlim c,
      mem_detectarLocaisNefastos_perm l2 l1 hp.symm hlim2 c⟩
  refine ⟨?_, nefastoPar_troca, hmem, ?_⟩
  · intro x1 y1 x2 y2 hx hy
    have hx2 : (x2 - x1).tmod 2 = 0 :=
      Int.dvd_iff_tmod_eq_zero.1 (even_iff_two_dvd.1 hx)
    have hy2 : (y2 - y1).tmod 2 = 0 :=
      Int.dvd_iff_tmod_eq_zero.1 (even_iff_two_dvd.1 hy)
    rw [(meio_troca x1 x2 hx2).2, (meio_troca y1 y2 hy2).2]
  · exact (List.perm_ext_iff_of_nodup (nefastosDesde_nodup l1 [] List.nodup_nil)
      (nefastosDesde_nodup l2 [] List.nodup_nil)).2 hmem

/-- The antennas ('A',4,-2), ('B',1,1), ('A',0,0) and the same three in another order:
the pair of 'A' antennas has the negative displacement (-4, 2) in the first list and
(4, -2) in the second, and both lists give the cell (2,-1). -/
theorem detectarLocaisNefastos_ordem_indiferente_witness :
    [(⟨'A', 4, -2⟩ : Antena), ⟨'B', 1, 1⟩, ⟨'A', 0, 0⟩].Perm
        [⟨'A', 0, 0⟩, ⟨'A', 4, -2⟩, ⟨'B', 1, 1⟩] ∧
      detectarLocaisNefastos [⟨'A', 4, -2⟩, ⟨'B', 1, 1⟩, ⟨'A', 0, 0⟩] = [⟨2, -1⟩] ∧
      detectarLocaisNefastos [⟨'A', 0, 0⟩, ⟨'A', 4, -2⟩, ⟨'B', 1, 1⟩] = [⟨2, -1⟩] ∧
      ∀ c, c ∈ detectarLocaisNefastos [⟨'A', 4, -2⟩, ⟨'B', 1, 1⟩, ⟨'A', 0, 0⟩] ↔
        c ∈ detectarLocaisNefastos [⟨'A', 0, 0⟩, ⟨'A', 4, -2⟩, ⟨'B', 1, 1⟩] :=
  ⟨by decide, by decide, by decide,
    (detectarLocaisNefastos_ordem_indiferente
      [⟨'A', 4, -2⟩, ⟨'B', 1, 1⟩, ⟨'A', 0, 0⟩] [⟨'A', 0, 0⟩, ⟨'A', 4, -2⟩, ⟨'B', 1, 1⟩]
      (by decide) (by decide)).2.2.1⟩

/-! ## Claims C3 and C20: the queue node freed by `desenfileirar` -/

/-- C3: in the graph of two connected 'A' vertices (1,1) and (2,2),
`procuraProfundidade` from (1,1) returns the two coordinates, but `procuraLargura`
does not return: after the only queue node has been freed, `enfileirar` stores the
node of (2,2) through the pointer `filaFim`, which still points to the freed node. -/
theorem procuraLargura_escreve_em_no_libertado :
    grafoPar = [⟨'A', 1, 1, [⟨2, 2⟩]⟩, ⟨'A', 2, 2, [⟨1, 1⟩]⟩] ∧
      procuraProfundidade grafoPar 1 1 = some [⟨2, 2⟩, ⟨1, 1⟩] ∧
      procuraLargura grafoPar 1 1 = Execucao.indefinido ∧
      procuraProfundidade grafoPar 2 2 = some [⟨1, 1⟩, ⟨2, 2⟩] ∧
      procuraLargura grafoPar 2 2 = Execucao.indefinido := by
  decide

/-- C20: in `grafoEstrela` a vertex exists at (0,0) and `procuraProfundidade` returns a
list that contains (0,0), but `procuraLargura` from (0,0) returns no list: it stores
through the freed queue node.  For a start that is absent both report `NULL`. -/
theorem procuraLargura_sem_resultado_com_inicio :
    grafoEstrela =
        [⟨'A', 0, 0, [⟨0, 2⟩, ⟨0, 1⟩]⟩, ⟨'A', 0, 1, [⟨0, 0⟩]⟩, ⟨'A', 0, 2, [⟨0, 0⟩]⟩] ∧
      procuraProfundidade grafoEstrela 0 0 = some [⟨0, 1⟩, ⟨0, 2⟩, ⟨0, 0⟩] ∧
      procuraLargura grafoEstrela 0 0 = Execucao.indefinido ∧
      procuraProfundidade grafoEstrela 9 9 = some [] ∧
      procuraLargura grafoEstrela 9 9 = Execucao.devolve [] := by
  decide

/-! ## Claim C31 -/

/-- C31: in every graph built from the empty one by accepted `inserirVertice` calls and
by `conectarVertices` calls, every edge leads from a vertex to a vertex of the same
frequency; so, from every start vertex `inicio` of the graph, every coordinate that
`procuraProfundidade` returns (and it returns), and every coordinate of a list that
`procuraLargura` returns (its call returns a list or is undefined, the fuel of the
embedding never runs out), is that of a vertex whose frequency is the frequency of
`inicio`. -/
theorem arestas_e_procuras_mesma_frequencia (g : List Vertice) (hg : GrafoAlcancavel g) :
    (∀ v ∈ g, ∀ a ∈ v.arestas,
        ∃ w ∈ g, w.x = a.x ∧ w.y = a.y ∧ w.frequencia = v.frequencia) ∧
      ∀ inicio ∈ g,
        (∃ rp, procuraProfundidade g inicio.x inicio.y = some rp ∧
          ∀ c ∈ rp, ∃ w ∈ g, w.x = c.x ∧ w.y = c.y ∧ w.frequencia = inicio.frequencia) ∧
        procuraLargura g inicio.x inicio.y ≠ Execucao.esgotado ∧
        (∀ rl, procuraLargura g inicio.x inicio.y = Execucao.devolve rl →
          ∀ c ∈ rl, ∃ w ∈ g, w.x = c.x ∧ w.y = c.y ∧ w.frequencia = inicio.frequencia) := by
  refine ⟨aresta_mesma_frequencia g hg, ?_⟩
  intro inicio hi
  have hbf := grafoAlcancavel_bemFormado g hg
  have hex : ({ x := inicio.x, y := inicio.y } : Coordenada) ∈ coordenadasVertices g :=
    (mem_coordenadasVertices g _).2 ⟨inicio, hi, rfl, rfl⟩
  obtain ⟨rp, hrp, _, hmp⟩ := procuraProfundidade_alcanca g hbf inicio.x inicio.y hex
  refine ⟨⟨rp, hrp, fun c hc =>
    alcanca_mesma_frequencia g hg inicio hi c ((hmp c).1 hc)⟩,
    procuraLargura_nao_esgota g inicio.x inicio.y, ?_⟩
  intro rl hrl c hc
  rcases (procuraLargura_devolve_iff g hbf inicio.x inicio.y rl).1 hrl with
    ⟨_, h0⟩ | ⟨_, h1, _⟩
  · rw [h0] at hc
    simp at hc
  · rw [h1, List.mem_singleton] at hc
    rw [hc]
    exact ⟨inicio, hi, rfl, rfl, rfl⟩

/-- Vertices ('A',0,0), ('B',0,1), ('A',0,2): the connection of the two 'A' vertices is
made, the one of (0,0) with the 'B' vertex is refused; `procuraProfundidade` from
(0,0) returns the two 'A' coordinates and `procuraLargura` from the 'B' vertex, which
has no edge, returns (0,1). -/
theorem arestas_e_procuras_mesma_frequencia_witness :
    procuraProfundidade
        (conectarVertices (conectarVertices
          (inserirVertice (inserirVertice (inserirVertice [] 'A' 0 0) 'B' 0 1) 'A' 0 2)
          0 0 0 2).2 0 0 0 1).2 0 0 = some [⟨0, 2⟩, ⟨0, 0⟩] ∧
      procuraLargura
        (conectarVertices (conectarVertices
          (inserirVertice (inserirVertice (inserirVertice [] 'A' 0 0) 'B' 0 1) 'A' 0 2)
          0 0 0 2).2 0 0 0 1).2 0 1 = Execucao.devolve [⟨0, 1⟩] ∧
      ∀ v ∈ (conectarVertices (conectarVertices
          (inserirVertice (inserirVertice (inserirVertice [] 'A' 0 0) 'B' 0 1) 'A' 0 2)
          0 0 0 2).2 0 0 0 1).2, ∀ a ∈ v.arestas,
        ∃ w ∈ (conectarVertices (conectarVertices
          (inserirVertice (inserirVertice (inserirVertice [] 'A' 0 0) 'B' 0 1) 'A' 0 2)
          0 0 0 2).2 0 0 0 1).2, w.x = a.x ∧ w.y = a.y ∧ w.frequencia = v.frequencia :=
  ⟨by decide, by decide,
    (arestas_e_procuras_mesma_frequencia _
      (GrafoAlcancavel.conectar _ 0 0 0 1
        (GrafoAlcancavel.conectar _ 0 0 0 2
          (GrafoAlcancavel.inserir _ 'A' 0 2
            (GrafoAlcancavel.inserir _ 'B' 0 1
              (GrafoAlcancavel.inserir _ 'A' 0 0 GrafoAlcancavel.vazio (by decide))
              (by decide))
            (by decide))))).1⟩

/-! ## Claim C32 -/

/-- C32, as stated, fails.  In `grafoEstrela` the vertex (0,0) is connected with (0,1)
and with (0,2), the edge to (0,2) first in its list.  Connecting (0,0) with (0,1)
again succeeds and puts a second edge to (0,1) at the head of the list; after it
`procuraProfundidade` from (0,0) returns the coordinates (0,1) and (0,2) in the other
order: the returned list has changed. -/
theorem conectar_de_novo_muda_a_ordem :
    grafoEstrela =
        [⟨'A', 0, 0, [⟨0, 2⟩, ⟨0, 1⟩]⟩, ⟨'A', 0, 1, [⟨0, 0⟩]⟩, ⟨'A', 0, 2, [⟨0, 0⟩]⟩] ∧
      conectarVertices grafoEstrela 0 0 0 1 =
        (true, [⟨'A', 0, 0, [⟨0, 1⟩, ⟨0, 2⟩, ⟨0, 1⟩]⟩, ⟨'A', 0, 1, [⟨0, 0⟩, ⟨0, 0⟩]⟩,
          ⟨'A', 0, 2, [⟨0, 0⟩]⟩]) ∧
      procuraProfundidade grafoEstrela 0 0 = some [⟨0, 1⟩, ⟨0, 2⟩, ⟨0, 0⟩] ∧
      procuraProfundidade (conectarVertices grafoEstrela 0 0 0 1).2 0 0 =
        some [⟨0, 2⟩, ⟨0, 1⟩, ⟨0, 0⟩] ∧
      procuraProfundidade (conectarVertices grafoEstrela 0 0 0 1).2 0 0 ≠
        procuraProfundidade grafoEstrela 0 0 := by
  decide

/-- C32, amended: in a graph built through the interface, connecting an already
connected pair, or connecting an existing vertex to itself, succeeds again and adds
two further edges at the head of the edge lists (parallel edges or self-loops).  For
every start, `procuraProfundidade` returns before and after it lists with the same
coordinates, each once (one is a permutation of the other), and after a connection of
a vertex to itself exactly the list it returned before; `procuraLargura` returns a
list after the connection exactly when it returned that list before it (its calls
return a list or are undefined, the fuel of the embedding never runs out). -/
theorem conectar_de_novo_mesmos_membros (g : List Vertice) (hg : GrafoAlcancavel g)
    (x1 y1 x2 y2 : Int)
    (hrep : Adjacente g { x := x1, y := y1 } { x := x2, y := y2 } ∨
      ((x1 = x2 ∧ y1 = y2) ∧ ({ x := x1, y := y1 } : Coordenada) ∈ coordenadasVertices g)) :
    (conectarVertices g x1 y1 x2 y2).1 = true ∧
      (conectarVertices g x1 y1 x2 y2).2 =
        g.map (fun v => { v with arestas := arestasAposConectar x1 y1 x2 y2 v }) ∧
      numArestas (conectarVertices g x1 y1 x2 y2).2 = numArestas g + 2 ∧
      (∀ x y : Int, ∃ rp rp2,
        procuraProfundidade g x y = some rp ∧
        procuraProfundidade (conectarVertices g x1 y1 x2 y2).2 x y = some rp2 ∧
        rp.Perm rp2) ∧
      ((x1 = x2 ∧ y1 = y2) → ∀ x y : Int,
        procuraProfundidade (conectarVertices g x1 y1 x2 y2).2 x y =
          procuraProfundidade g x y) ∧
      (∀ (x y : Int) (r : List Coordenada),
        procuraLargura (conectarVertices g x1 y1 x2 y2).2 x y = Execucao.devolve r ↔
          procuraLargura g x y = Execucao.devolve r) ∧
      (∀ x y : Int, procuraLargura g x y ≠ Execucao.esgotado ∧
        procuraLargura (conectarVertices g x1 y1 x2 y2).2 x y ≠ Execucao.esgotado) := by
  have hok := conectar_repetido_ok g hg x1 y1 x2 y2 hrep
  have hbf := grafoAlcancavel_bemFormado g hg
  have hbf2 := grafoAlcancavel_bemFormado _ (GrafoAlcancavel.conectar g x1 y1 x2 y2 hg)
  refine ⟨hok, conectarVertices_map g hbf.1 x1 y1 x2 y2 hok,
    numArestas_conectarVertices g x1 y1 x2 y2 hok, ?_, ?_, ?_,
    fun x y => ⟨procuraLargura_nao_esgota g x y, procuraLargura_nao_esgota _ x y⟩⟩
  · intro x y
    exact profundidade_mesmos_membros g (conectarVertices g x1 y1 x2 y2).2 hbf hbf2
      (coordenadasVertices_conectarVertices g x1 y1 x2 y2)
      (alcanca_conectar_repetido g hg x1 y1 x2 y2 hrep) x y
  · rintro ⟨rfl, rfl⟩ x y
    rw [conectarVertices_laco g hbf.1 x1 y1 hok]
    exact procuraProfundidade_sem_laco x1 y1 g x y
  · intro x y r
    rw [procuraLargura_devolve_iff _ hbf2, procuraLargura_devolve_iff g hbf,
      coordenadasVertices_conectarVertices,
      so_lacos_conectar_repetido g hg x1 y1 x2 y2 hrep]

/-- In `grafoEstrela`, where (0,0) and (0,1) are connected: connecting them again
succeeds, the graph has two more edges, and `procuraProfundidade` from every start
returns a permutation of what it returned before. -/
theorem conectar_de_novo_mesmos_membros_witness :
    Adjacente grafoEstrela { x := 0, y := 0 } { x := 0, y := 1 } ∧
      numArestas grafoEstrela = 4 ∧
      (conectarVertices grafoEstrela 0 0 0 1).1 = true ∧
      numArestas (conectarVertices grafoEstrela 0 0 0 1).2 = numArestas grafoEstrela + 2 ∧
      ∀ x y : Int, ∃ rp rp2,
        procuraProfundidade grafoEstrela x y = some rp ∧
        procuraProfundidade (conectarVertices grafoEstrela 0 0 0 1).2 x y = some rp2 ∧
        rp.Perm rp2 := by
  have hadj : Adjacente grafoEstrela { x := 0, y := 0 } { x := 0, y := 1 } := by
    unfold Adjacente
    decide
  have h := conectar_de_novo_mesmos_membros grafoEstrela grafoEstrela_alcancavel 0 0 0 1
    (Or.inl hadj)
  exact ⟨hadj, by decide, h.1, h.2.2.1, h.2.2.2.1⟩

/-! ## Claim C22 -/

/-- C22, as stated, fails for the queue steps: in the graph with the single vertex
(1,1), `procuraLargura` from (1,1) returns (1,1), and its only queue step, which
dequeues that vertex and finds no edge, leaves the number of vertices outside the
visited guard as it was. -/
theorem passo_da_fila_nao_diminui_nao_visitados :
    procuraLargura [⟨'A', 1, 1, []⟩] 1 1 = Execucao.devolve [⟨1, 1⟩] ∧
      larguraVizinhos [⟨'A', 1, 1, []⟩] (⟨'A', 1, 1, []⟩ : Vertice).arestas
          { visitados := [⟨1, 1⟩], resultado := [⟨1, 1⟩], fila := [], filaFim := some 0,
            libertados := [0], proximo := 1 } =
        Execucao.devolve
          { visitados := [⟨1, 1⟩], resultado := [⟨1, 1⟩], fila := [], filaFim := some 0,
            libertados := [0], proximo := 1 } ∧
      ¬ (naoVisitados [⟨'A', 1, 1, []⟩] [⟨1, 1⟩] < naoVisitados [⟨'A', 1, 1, []⟩] [⟨1, 1⟩]) :=
  ⟨by decide, by decide, Nat.lt_irrefl _⟩

/-- C22 (amended): on every graph built by `inserirVertice` and `conectarVertices`,
cycles, self-loops and parallel edges included, `procuraProfundidade` returns, and
its recursive calls receive a visited guard with strictly fewer vertices of the graph
outside it than the guard of the call that makes them; `procuraLargura` and
`caminhosEntreAntenas` return when the start vertex has no edge to another vertex,
and `caminhosEntreAntenas` also when the destination is the start; every call of the
two returns or is undefined, the fuel of the embedding never runs out. -/
theorem travessias_terminam (g : List Vertice) (hg : GrafoAlcancavel g) :
    (∀ x y, ∃ r, procuraProfundidade g x y = some r) ∧
      (∀ (V : List Coordenada) (v : Vertice), v ∈ g → existePosicao V v.x v.y = false →
        naoVisitados g (adicionarPosicao V v.x v.y) < naoVisitados g V) ∧
      (∀ x y, (∀ d, Adjacente g { x := x, y := y } d → d = { x := x, y := y }) →
        (∃ r, procuraLargura g x y = Execucao.devolve r) ∧
          ∀ x2 y2, ∃ r, caminhosEntreAntenas g x y x2 y2 = Execucao.devolve r) ∧
      (∀ x y, ∃ r, caminhosEntreAntenas g x y x y = Execucao.devolve r) ∧
      (∀ x y, procuraLargura g x y ≠ Execucao.esgotado) ∧
      (∀ x1 y1 x2 y2, caminhosEntreAntenas g x1 y1 x2 y2 ≠ Execucao.esgotado) := by
  have hbf := grafoAlcancavel_bemFormado g hg
  have hmesmo : ∀ x y, ∃ r, caminhosEntreAntenas g x y x y = Execucao.devolve r := by
    intro x y
    cases hv : procuraVertice g x y with
    | none => exact ⟨[], caminhosEntreAntenas_ausente g x y x y hv⟩
    | some s => exact ⟨_, caminhosEntreAntenas_mesmo g x y s hv⟩
  refine ⟨procuraProfundidade_total g,
    fun V v hv hn => naoVisitados_adicionar g V v hv hn, ?_, hmesmo,
    procuraLargura_nao_esgota g, caminhosEntreAntenas_nao_esgota g⟩
  intro x y hl
  cases hv : procuraVertice g x y with
  | none =>
    exact ⟨⟨[], procuraLargura_ausente g x y hv⟩,
      fun x2 y2 => ⟨[], caminhosEntreAntenas_ausente g x y x2 y2 hv⟩⟩
  | some s =>
    have hl2 := (so_lacos_iff g hbf x y s hv).2 hl
    refine ⟨⟨_, (procuraLargura_presente g x y s hv).1 hl2⟩, ?_⟩
    intro x2 y2
    by_cases hd : x = x2 ∧ y = y2
    · obtain ⟨rfl, rfl⟩ := hd
      exact hmesmo x y
    · exact ⟨[], caminhosEntreAntenas_sem_vizinho g x y x2 y2 s hv hd hl2⟩

/-- The graph `grafoTriangulo` has a cycle: `procuraProfundidade` returns from (1,1),
and `caminhosEntreAntenas` returns from (1,1) to (1,1). -/
theorem travessias_terminam_witness :
    (∃ r, procuraProfundidade grafoTriangulo 1 1 = some r) ∧
      procuraProfundidade grafoTriangulo 1 1 = some [⟨2, 2⟩, ⟨3, 3⟩, ⟨1, 1⟩] ∧
      (∃ r, caminhosEntreAntenas grafoTriangulo 1 1 1 1 = Execucao.devolve r) ∧
      caminhosEntreAntenas grafoTriangulo 1 1 1 1 = Execucao.devolve [⟨1, 1⟩, ⟨0, 0⟩] :=
  ⟨(travessias_terminam grafoTriangulo grafoTriangulo_alcancavel).1 1 1, by decide,
    (travessias_terminam grafoTriangulo grafoTriangulo_alcancavel).2.2.2.1 1 1, by decide⟩

/-! ## Claims C5, C6, C7, C21 and C27: path enumeration -/

/-- C6: in `grafoTriangulo` there are two simple paths from (1,1) to (3,3), the edge
(1,1), (3,3) and the way through (2,2), but `caminhosEntreAntenas` returns no list:
the calls for the neighbours free the lists `novoVisitado` and `novoCaminho` of the
call for (1,1), which that call then uses and frees again. -/
theorem caminhosEntreAntenas_liberta_duas_vezes :
    grafoTriangulo =
        [⟨'A', 1, 1, [⟨3, 3⟩, ⟨2, 2⟩]⟩, ⟨'A', 2, 2, [⟨3, 3⟩, ⟨1, 1⟩]⟩,
          ⟨'A', 3, 3, [⟨1, 1⟩, ⟨2, 2⟩]⟩] ∧
      caminhosEntreAntenas grafoTriangulo 1 1 3 3 = Execucao.indefinido := by
  decide

/-- C21: in `grafoPar` the vertices (1,1) and (2,2) are joined by an edge, but the call
from (1,1) to (2,2) returns no list, and neither does the call from (1,1) to (5,5),
where no vertex exists: both use lists that a call for a neighbour has freed. -/
theorem caminhosEntreAntenas_sem_resultado :
    grafoPar = [⟨'A', 1, 1, [⟨2, 2⟩]⟩, ⟨'A', 2, 2, [⟨1, 1⟩]⟩] ∧
      caminhosEntreAntenas grafoPar 1 1 2 2 = Execucao.indefinido ∧
      caminhosEntreAntenas grafoPar 1 1 5 5 = Execucao.indefinido ∧
      caminhosEntreAntenas grafoPar 5 5 1 1 = Execucao.devolve [] := by
  decide

end ProjetoEDA
